import Mathlib

/-!
# Verification development for the `faker` package (`faker.go`)

A shallow embedding of the text generators of `faker.go`:

* Go strings are modelled as lists of Unicode characters (`Str`); the text handled is
  valid UTF-8, for which substring search on bytes and on characters agree.
* The pseudo-random source is an explicit stream `Rand` of raw draws; every call of
  `rand.Intn n` consumes one draw `d` and yields `d % n`, so every value of `[0, n)` is
  reachable and the functions become deterministic in the stream.
* A Go panic is an explicit `Except.error`; machine integers are `Int` wrapped to 64 bits.
  The panic of an allocation above the largest size the runtime allocates is part of the
  embedding (`Repeat`); a process that runs out of memory below that size is ended by a
  fatal error of the runtime, which is no panic and depends on the machine, and is not.
* The regular expressions of the source are fixed, so each one is embedded as a
  hand-written matcher following Go's leftmost-first semantics, and
  `FindAllStringSubmatch` as the scan `findAll` over successive non-overlapping matches.
-/

namespace Faker

/-! ## Basic data -/

/-- Go strings, as lists of characters. -/
abbrev Str := List Char

/-- The stream of raw draws of the shared pseudo-random source. -/
abbrev Rand := Nat → Nat

/-- The stream after one draw was consumed. -/
def Rand.tail (g : Rand) : Rand := fun i => g (i + 1)

/-- The ways in which the embedded code can abort. All but `outOfFuel` are Go panics;
`outOfFuel` says that the recursion budget given to `Fetch` was exhausted. -/
inductive Panic where
  | intnArg : Panic
  | repeatCount : Panic
  | makesliceLen : Panic
  | indexRange : Panic
  | invalidValueType (path : Str) : Panic
  | invalidPath (path : Str) : Panic
  | regexifyFailed (res : Str) : Panic
  | outOfFuel : Panic
  deriving DecidableEq, Repr

deriving instance DecidableEq for Except

/-- Result of a computation that reads the random source and may panic. -/
abbrev Res (α : Type) := Except Panic (α × Rand)

/-- Largest value of Go's 64-bit `int`. -/
def maxInt : Int := 2 ^ 63 - 1

/-- Two's complement wrap-around of 64-bit `int` arithmetic. -/
def wrap64 (x : Int) : Int := (x + 2 ^ 63) % 2 ^ 64 - 2 ^ 63

def Digits : Str := "0123456789".toList
def ULetters : Str := "ABCDEFGHIJKLMNOPQRSTUVWXYZ".toList
def DLetters : Str := "abcdefghijklmnopqrstuvwxyz".toList
def Letters : Str := ULetters ++ DLetters
def DigitsAndLetters : Str := Digits ++ Letters

/-- The library call `strings.Split(s, "")`: the string exploded into its characters. -/
def splitChars (s : Str) : List Str := s.map fun c => [c]

def aryDigits : List Str := splitChars Digits
def aryULetters : List Str := splitChars ULetters
def aryDLetters : List Str := splitChars DLetters
def aryLetters : List Str := splitChars Letters

/-! ## Random primitives -/

/-- The library call `rand.Intn(n)`: panics for `n ≤ 0`, else consumes one draw. -/
def Intn (n : Int) (g : Rand) : Res Int :=
  if n ≤ 0 then .error .intnArg else .ok (((g 0 % n.toNat : Nat) : Int), g.tail)

/-- `RandomInt(min, max)`, with the 64-bit arithmetic of `max-min+1` and `min + …`. -/
def RandomInt (min max : Int) (g : Rand) : Res Int :=
  if max ≤ min then .ok (min, g)
  else
    match Intn (wrap64 (max - min + 1)) g with
    | .error e => .error e
    | .ok (r, g') => .ok (wrap64 (min + r), g')

/-- Length in bytes of the UTF-8 encoding, Go's `len(s)`. -/
def byteLen (s : Str) : Nat := (s.map fun c => c.utf8Size).sum

/-- The largest size in bytes of one allocation of the Go runtime, its constant `maxAlloc`,
on the 64-bit platforms, whose heap addresses have 48 bits. -/
def maxAlloc : Int := 2 ^ 48

/-- The library call `strings.Repeat(s, count)`: panics on a negative count, when the
length `len(s) * count` of the result overflows `int`, and, in the allocation of the
result, when that length is above `maxAlloc` (`makeslice: len out of range`). A process
that runs out of memory below that size ends with a fatal error of the runtime, which is
no panic and depends on the machine; that is outside the embedding. -/
def Repeat (s : Str) (count : Int) : Except Panic Str :=
  if count < 0 then .error .repeatCount
  else if maxInt < (byteLen s : Int) * count then .error .repeatCount
  else if maxAlloc < (byteLen s : Int) * count then .error .makesliceLen
  else .ok (List.replicate count.toNat s).flatten

/-- `RandomRepeat(s, min, max)`. -/
def RandomRepeat (s : Str) (min max : Int) (g : Rand) : Res Str :=
  match RandomInt min max g with
  | .error e => .error e
  | .ok (k, g') =>
    match Repeat s k with
    | .error e => .error e
    | .ok r => .ok (r, g')

/-- `RandomChoice(ss)`: `ss[rand.Intn(len(ss))]`. -/
def RandomChoice (ss : List Str) (g : Rand) : Res Str :=
  match Intn ss.length g with
  | .error e => .error e
  | .ok (i, g') =>
    match ss.get? i.toNat with
    | some s => .ok (s, g')
    | none => .error .indexRange

/-! ## Library string and regexp operations -/

/-- The library call `strings.Replace(s, old, new, 1)`: the first occurrence of `old` in
`s` is replaced by `new`; `s` is returned unchanged when `old` does not occur. -/
def replaceFirst (old new : Str) : Str → Str
  | [] => if old.isPrefixOf [] then new else []
  | c :: t => if old.isPrefixOf (c :: t) then new ++ (c :: t).drop old.length
              else c :: replaceFirst old new t

/-- A match of `FindAllStringSubmatch`: the matched text `sm[0]` followed by the text of
the capture groups `sm[1]`, `sm[2]`, … -/
abbrev Submatch := List Str

/-- The `i`-th group of a match. -/
def Submatch.group (sm : Submatch) (i : Nat) : Str := sm.getD i []

/-- `FindAllStringSubmatch(s, -1)` for a pattern without anchors whose matches are never
empty: `m` tries to match at the start of the text it is given and returns the groups of
the match; the scan goes left to right, and after a match continues behind the matched
text (`skip` counts the characters of the last match still to be passed over). -/
def findAll (m : Str → Option Submatch) : Nat → Str → List Submatch
  | _, [] => []
  | skip + 1, _ :: t => findAll m skip t
  | 0, c :: t =>
    match m (c :: t) with
    | some sm => sm :: findAll m ((sm.group 0).length - 1) t
    | none => findAll m 0 t

/-- Matcher of a pattern that is one literal character `c` (the patterns `#` and `\?`). -/
def matchLit (c : Char) : Str → Option Submatch
  | [] => none
  | x :: _ => if x = c then some [[c]] else none

/-! ## Numerify, Letterify -/

/-- Loop of `Numerify` over the matches of `#`: the first match is replaced by a digit of
`aryDigits[1:]`, every later one by a digit of `aryDigits`; each replacement rewrites the
first occurrence of the matched text in the current string. -/
def numerifyLoop : List Submatch → Str → Bool → Rand → Res Str
  | [], s, _, g => .ok (s, g)
  | sm :: rest, s, first, g =>
    match RandomChoice (if first then aryDigits.drop 1 else aryDigits) g with
    | .error e => .error e
    | .ok (d, g') => numerifyLoop rest (replaceFirst (sm.group 0) d s) false g'

/-- `Numerify(s)`. -/
def Numerify (s : Str) (g : Rand) : Res Str :=
  numerifyLoop (findAll (matchLit '#') 0 s) s true g

/-- Loop of `Letterify` over the matches of `\?`. -/
def letterifyLoop : List Submatch → Str → Rand → Res Str
  | [], s, g => .ok (s, g)
  | sm :: rest, s, g =>
    match RandomChoice aryULetters g with
    | .error e => .error e
    | .ok (d, g') => letterifyLoop rest (replaceFirst (sm.group 0) d s) g'

/-- `Letterify(s)`. -/
def Letterify (s : Str) (g : Rand) : Res Str :=
  letterifyLoop (findAll (matchLit '?') 0 s) s g

/-- `NumerifyAndLetterify(s)`: `Letterify(Numerify(s))`. -/
def NumerifyAndLetterify (s : Str) (g : Rand) : Res Str :=
  match Numerify s g with
  | .error e => .error e
  | .ok (r, g') => Letterify r g'


/-! ## Regexify -/

/-- Sequencing of two computations on the random source. -/
def Res.andThen {α β : Type} (r : Res α) (f : α → Rand → Res β) : Res β :=
  match r with
  | .error e => .error e
  | .ok (a, g) => f a g

/-- `ReplaceAllString` of the pattern `^\/?\^?` by the empty string: the pattern only
matches at the start of the text, where it takes a `/` and then a `^` when present. -/
def stripLead (s : Str) : Str :=
  let s1 := if s.head? = some '/' then s.tail else s
  if s1.head? = some '^' then s1.tail else s1

/-- `ReplaceAllString` of the pattern `\$?\/?$` by the empty string: the leftmost match
starts at the first position whose remaining text is `$/`, `$`, `/` or empty. -/
def stripTrail : Str → Str
  | [] => []
  | ['$', '/'] => []
  | ['$'] => []
  | ['/'] => []
  | c :: t => c :: stripTrail t

/-- `ReplaceAllString` for a pattern without anchors whose matches are never empty: every
match of the left-to-right scan is replaced by `f` of its groups. -/
def replaceAll (m : Str → Option Submatch) (f : Submatch → Str) : Nat → Str → Str
  | _, [] => []
  | skip + 1, _ :: t => replaceAll m f skip t
  | 0, c :: t =>
    match m (c :: t) with
    | some sm => f sm ++ replaceAll m f ((sm.group 0).length - 1) t
    | none => c :: replaceAll m f 0 t

/-- The class `\d` of Go's regexp: the ASCII digits. -/
def isDigit (c : Char) : Bool := '0' ≤ c && c ≤ '9'

/-- The class `\w` of Go's regexp: ASCII letters, ASCII digits and the underscore. -/
def isWord (c : Char) : Bool :=
  isDigit c || ('A' ≤ c && c ≤ 'Z') || ('a' ≤ c && c ≤ 'z') || c = '_'

/-- Matcher of `\{(\d+)\}` at the start of the text. -/
def matchBraceNum : Str → Option Submatch
  | '{' :: r =>
    match r.span isDigit with
    | ([], _) => none
    | (ds, '}' :: _) => some [['{'] ++ ds ++ ['}'], ds]
    | _ => none
  | _ => none

/-- Matcher of the quantifier `\{(\d+),(\d+)\}` at the start of the text: the two bound
numerals, when the text starts with a quantifier. -/
def matchQuant : Str → Option (Str × Str)
  | '{' :: r =>
    match r.span isDigit with
    | ([], _) => none
    | (a, ',' :: r2) =>
      match r2.span isDigit with
      | ([], _) => none
      | (b, '}' :: _) => some (a, b)
      | _ => none
    | _ => none
  | _ => none

/-- The text of a quantifier with the bound numerals `a` and `b`. -/
def quantText (a b : Str) : Str := ['{'] ++ a ++ [','] ++ b ++ ['}']

/-- Matcher of a bracketed atom, `\[[^\]]+\]` for `[` `]` and `\([^\)]+\)` for `(` `)`:
the text between the brackets, which is not empty and holds no closing bracket. -/
def matchBracket (opening closing : Char) : Str → Option Str
  | c :: r =>
    if c = opening then
      match r.span fun x => x != closing with
      | ([], _) => none
      | (body, y :: _) => if y = closing then some body else none
      | _ => none
    else none
  | [] => none

/-- Matcher of `(\[[^\]]+\])\{(\d+),(\d+)\}` for `[` `]`, and of
`(\([^\)]+\))\{(\d+),(\d+)\}` for `(` `)`. -/
def matchBracketQuant (opening closing : Char) (s : Str) : Option Submatch :=
  match matchBracket opening closing s with
  | none => none
  | some body =>
    let atom := [opening] ++ body ++ [closing]
    match matchQuant (s.drop atom.length) with
    | none => none
    | some (a, b) => some [atom ++ quantText a b, atom, a, b]

/-- First alternative of `(\\?.)\{(\d+),(\d+)\}`: the optional backslash is taken, the
dot matches the character behind it (any but a line feed), and a quantifier follows. -/
def matchEscAtomQuant : Str → Option Submatch
  | '\\' :: c :: r =>
    if c = '\n' then none
    else (matchQuant r).map fun q => [['\\', c] ++ quantText q.1 q.2, ['\\', c], q.1, q.2]
  | _ => none

/-- Second alternative of `(\\?.)\{(\d+),(\d+)\}`: no backslash is taken, the dot matches
the first character (any but a line feed), and a quantifier follows. -/
def matchPlainAtomQuant : Str → Option Submatch
  | c :: r =>
    if c = '\n' then none
    else (matchQuant r).map fun q => [[c] ++ quantText q.1 q.2, [c], q.1, q.2]
  | [] => none

/-- Matcher of `(\\?.)\{(\d+),(\d+)\}`: the greedy `\\?` is tried first with the backslash
and, when that does not lead to a match, without it. -/
def matchAtomQuant (s : Str) : Option Submatch :=
  match matchEscAtomQuant s with
  | some sm => some sm
  | none => matchPlainAtomQuant s

/-- Matcher of `\((.*?)\)`: the text up to the first `)`, which the lazy `.*?` reaches
unless a line feed comes first. -/
def matchGroup : Str → Option Submatch
  | '(' :: r =>
    match r.span fun x => x != ')' && x != '\n' with
    | (body, ')' :: _) => some [['('] ++ body ++ [')'], body]
    | _ => none
  | _ => none

/-- Matcher of `\[([^\]]+)\]`. -/
def matchClass (s : Str) : Option Submatch :=
  (matchBracket '[' ']' s).map fun body => [['['] ++ body ++ [']'], body]

/-- Matcher of `(\w\-\w)`. -/
def matchRange : Str → Option Submatch
  | a :: '-' :: b :: _ => if isWord a && isWord b then some [[a, '-', b], [a, '-', b]] else none
  | _ => none

/-- Matcher of `\\d`. -/
def matchEscD : Str → Option Submatch
  | '\\' :: 'd' :: _ => some [['\\', 'd']]
  | _ => none

/-- Value of a decimal numeral. -/
def parseNat (s : Str) : Nat := s.foldl (fun acc c => 10 * acc + (c.toNat - 48)) 0

/-- The value returned by the library call `strconv.Atoi` (its error is discarded by the
callers): `0` on a syntax error, the nearest `int` when the numeral is out of range. -/
def Atoi (s : Str) : Int :=
  let digits (t : Str) : Bool := !t.isEmpty && t.all isDigit
  match s with
  | '-' :: t => if digits t then max (-(parseNat t : Int)) (-(2 ^ 63)) else 0
  | '+' :: t => if digits t then min (parseNat t : Int) maxInt else 0
  | _ => if digits s then min (parseNat s : Int) maxInt else 0

/-- The conversion `string(i)` of an `int` to the text of that code point; values that are
no code point give U+FFFD. -/
def runeStr (i : Int) : Str :=
  if 0 ≤ i ∧ i.toNat.isValidChar then [Char.ofNat i.toNat] else [Char.ofNat 0xFFFD]

/-- The three loops of `Regexify` that expand an atom followed by `{min,max}`: each match
is replaced, at the first occurrence of its text, by a random repetition of the atom. -/
def quantLoop : List Submatch → Str → Rand → Res Str
  | [], res, g => .ok (res, g)
  | sm :: rest, res, g =>
    (RandomRepeat (sm.group 1) (Atoi (sm.group 2)) (Atoi (sm.group 3)) g).andThen
      fun r g' => quantLoop rest (replaceFirst (sm.group 0) r res) g'

/-- The library call `strings.Split(s, sep)` for a separator of one character. -/
def splitOnChar (sep : Char) (s : Str) : List Str := s.splitOn sep

/-- The loop of `Regexify` over the groups `(this|that)`. -/
def altLoop : List Submatch → Str → Rand → Res Str
  | [], res, g => .ok (res, g)
  | sm :: rest, res, g =>
    (RandomChoice (splitOnChar '|' (sm.group 1)) g).andThen
      fun r g' => altLoop rest (replaceFirst (sm.group 0) r res) g'

/-- The inner loop of the range pass, over the ranges `x-y` found in a class `cls`. -/
def rangeInner : List Submatch → Str → Rand → Res Str
  | [], cls, g => .ok (cls, g)
  | subsm :: rest, cls, g =>
    match splitOnChar '-' (subsm.group 1) with
    | (x :: _) :: (y :: _) :: _ =>
      (RandomInt (x.toNat : Int) (y.toNat : Int) g).andThen
        fun r g' => rangeInner rest (replaceFirst (subsm.group 0) (runeStr r) cls) g'
    | _ => .error .indexRange

/-- The loop of `Regexify` that resolves the ranges inside the classes `[...]`; the
rewritten class text replaces the first occurrence of the original class text in `res`. -/
def rangeLoop : List Submatch → Str → Rand → Res Str
  | [], res, g => .ok (res, g)
  | sm :: rest, res, g =>
    (rangeInner (findAll matchRange 0 (sm.group 1)) (sm.group 1) g).andThen
      fun cls g' => rangeLoop rest (replaceFirst (sm.group 1) cls res) g'

/-- The loop of `Regexify` that replaces a class `[ABC]` by one of its characters. -/
def classLoop : List Submatch → Str → Rand → Res Str
  | [], res, g => .ok (res, g)
  | sm :: rest, res, g =>
    (RandomChoice (splitChars (sm.group 1)) g).andThen
      fun r g' => classLoop rest (replaceFirst (sm.group 0) r res) g'

/-- `ReplaceAllStringFunc` of the pattern `\\d` with a function that returns a random
element of `choices`, called once per match from left to right. -/
def replaceEscD (choices : List Str) : Str → Rand → Res Str
  | [], g => .ok ([], g)
  | '\\' :: 'd' :: t, g =>
    (RandomChoice choices g).andThen fun r g' =>
      (replaceEscD choices t g').andThen fun rest g'' => .ok (r ++ rest, g'')
  | c :: t, g => (replaceEscD choices t g).andThen fun rest g' => .ok (c :: rest, g')

/-- The passes of `Regexify(s)`, in the order of the source, up to its `return`
statement: the value of `res` there, which is the string result. -/
def Regexify (s : Str) (g : Rand) : Res Str :=
  -- ditch the anchors
  let res := stripLead s
  let res := stripTrail res
  -- all {2} become {2,2} and ? become {0,1}
  let res := replaceAll matchBraceNum
    (fun sm => ['{'] ++ sm.group 1 ++ [','] ++ sm.group 1 ++ ['}']) 0 res
  let res := replaceAll (matchLit '?') (fun _ => "{0,1}".toList) 0 res
  -- [12]{1,2} becomes [12] or [12][12]
  (quantLoop (findAll (matchBracketQuant '[' ']') 0 res) res g).andThen fun res g =>
  -- (12|34){1,2} becomes (12|34) or (12|34)(12|34)
  (quantLoop (findAll (matchBracketQuant '(' ')') 0 res) res g).andThen fun res g =>
  -- A{1,2} becomes A or AA or \d{3} becomes \d\d\d
  (quantLoop (findAll matchAtomQuant 0 res) res g).andThen fun res g =>
  -- (this|that) becomes 'this' or 'that'
  (altLoop (findAll matchGroup 0 res) res g).andThen fun res g =>
  -- all A-Z inside of [] become C (or X, or whatever)
  (rangeLoop (findAll matchClass 0 res) res g).andThen fun res g =>
  -- all [ABC] become B (or A or C)
  (classLoop (findAll matchClass 0 res) res g).andThen fun res g =>
  -- all \d become random digits
  (replaceEscD aryDigits res g).andThen fun res g =>
  -- the pass commented "all \w become random letters" matches `\\d` again
  replaceEscD aryLetters res g

/-- `Regexify(s)` with both of its results, the string and the `error` (`none` for `nil`):
the function has one `return` statement, `return res, nil`, behind the last pass. -/
def RegexifyWithErr (s : Str) (g : Rand) : Res (Str × Option Str) :=
  (Regexify s g).andThen fun res g' => .ok ((res, none), g')

/-! ## Locale stores and Fetch -/

/-- The values found in a locale store (`interface{}` in the source): a nested mapping, a
string, a slice of strings, a slice of slices of strings; `other` stands for a value of
any further Go type. A mapping is a list of key/value pairs read by its first entry for
a key. -/
inductive Value where
  | str (s : Str) : Value
  | list (xs : List Str) : Value
  | lists (xss : List (List Str)) : Value
  | node (m : List (Str × Value)) : Value
  | other : Value

/-- A locale, `map[string]interface{}`. -/
abbrev Locale := List (Str × Value)

/-- The loop of `localeValueAt` over the keys of the path: `none` when a key is absent,
a panic when a traversed value is not a mapping. -/
def descend (path : Str) : List Str → Value → Except Panic (Option Value)
  | [], val => .ok (some val)
  | key :: rest, val =>
    match val with
    | .node m =>
      match m.lookup key with
      | some v => descend path rest v
      | none => .ok none
    | _ => .error (.invalidValueType path)

/-- `localeValueAt(path, locale)`; the result `none` is the source's `(nil, false)`. -/
def localeValueAt (path : Str) (locale : Locale) : Except Panic (Option Value) :=
  descend path (splitOnChar '.' path) (.node locale)

/-- `valueAt(path)`, for the active locale `Locale` and the fallback `locales.En`. -/
def valueAt (active fallback : Locale) (path : Str) : Except Panic Value :=
  match localeValueAt path active with
  | .error e => .error e
  | .ok (some v) => .ok v
  | .ok none =>
    match localeValueAt path fallback with
    | .error e => .error e
    | .ok (some v) => .ok v
    | .ok none => .error (.invalidPath path)

/-- Matcher of the reference pattern `#\{([A-Za-z]+\.[^\}]+)\}`. -/
def matchRef : Str → Option Submatch
  | '#' :: '{' :: r =>
    match r.span Char.isAlpha with
    | ([], _) => none
    | (seg, '.' :: r2) =>
      match r2.span fun x => x != '}' with
      | ([], _) => none
      | (rest, '}' :: _) => some [['#', '{'] ++ seg ++ ['.'] ++ rest ++ ['}'], seg ++ ['.'] ++ rest]
      | _ => none
    | _ => none
  | _ => none

/-- The loop of `Fetch` over a slice of string slices: one random element of each. -/
def chooseEach : List (List Str) → Rand → Res (List Str)
  | [], g => .ok ([], g)
  | slice :: rest, g =>
    (RandomChoice slice g).andThen fun c g' =>
      (chooseEach rest g').andThen fun cs g'' => .ok (c :: cs, g'')

/-- The loop of `Fetch` over the reference tokens found in `res`: the first occurrence of
the text of each token is replaced by the result of `fetch` on its captured path. -/
def refLoop (fetch : Str → Rand → Res Str) : List Submatch → Str → Rand → Res Str
  | [], res, g => .ok (res, g)
  | sm :: rest, res, g =>
    (fetch (sm.group 1) g).andThen
      fun r g' => refLoop fetch rest (replaceFirst (sm.group 0) r res) g'

/-- `strings.HasPrefix(res, "/") && strings.HasSuffix(res, "/")`. -/
def looksLikeRegex (res : Str) : Bool := res.head? = some '/' && res.getLast? = some '/'

/-- The type switch of `Fetch` on the value found at `path`: the text to start from, or
the panic for a value of an unsupported type. -/
def typeSwitch (path : Str) (val : Value) (g : Rand) : Res Str :=
  match val with
  | .lists xss =>
    -- slice of string slices - select random element and join
    (chooseEach xss g).andThen fun choices g' => .ok ([' '].intercalate choices, g')
  | .list xs =>
    -- slice of strings - select random element
    RandomChoice xs g
  | .str s =>
    -- plain string
    .ok (s, g)
  | _ =>
    -- not supported
    .error (.invalidValueType path)

/-- The end of `Fetch`: a text that starts and ends with `/` is passed to `Regexify`,
whose error, if any, becomes a panic; any other text is returned as it is. -/
def regexifyIfDelimited (res : Str) (g : Rand) : Res Str :=
  if looksLikeRegex res then
    (RegexifyWithErr res g).andThen fun out g' =>
      match out.2 with
      | some _ => .error (.regexifyFailed out.1)
      | none => .ok (out.1, g')
  else .ok (res, g)

/-- `Fetch(path)` for the active locale and the fallback. The source recurses without a
bound; the embedding takes the number of nested calls it may make as `fuel` and reports
`outOfFuel` when that is used up. -/
def Fetch (active fallback : Locale) : Nat → Str → Rand → Res Str
  | 0, _, _ => .error .outOfFuel
  | fuel + 1, path, g =>
    match valueAt active fallback path with
    | .error e => .error e
    | .ok val =>
      (typeSwitch path val g).andThen fun res g =>
      -- recursively substitute #{...} value references
      (refLoop (fun p g' => Fetch active fallback fuel p g') (findAll matchRef 0 res) res g).andThen
        fun res g =>
      -- if res looks like regex, regexify
      regexifyIfDelimited res g

/-- The outcome of a computation without the remaining random stream. -/
def Res.val {α : Type} (r : Res α) : Except Panic α :=
  match r with
  | .error e => .error e
  | .ok (a, _) => .ok a

/-! ## RandomString -/

/-- The character written for the source byte `b` by the loop of `RandomString`:
`DigitsAndLetters[b % byte(len(DigitsAndLetters))]`; the index is below 62. -/
def alnumOfByte (b : Fin 256) : Char := DigitsAndLetters.getD (b.val % DigitsAndLetters.length) '0'

/-- `RandomString(n)`, for the `n` bytes that `crand.Read` wrote into the buffer. -/
def RandomString (bytes : List (Fin 256)) : Str := bytes.map alnumOfByte

/-! ## The locale `Nb_NO` of `locales/nb-no.go` -/

/-- The locale `locales.Nb_NO`. -/
def Nb_NO : Locale := [
  ("address".toList, .node [
    ("secondary_address".toList, .list [
      "Leil. ###".toList, "Oppgang A".toList, "Oppgang B".toList]),
    ("street_address".toList, .list [
      "#{street_name} #{building_number}".toList]),
    ("city_root".toList, .list [
      "Fet".toList, "Gjes".toList, "Høy".toList, "Inn".toList, "Fager".toList,
      "Lille".toList, "Lo".toList, "Mal".toList, "Nord".toList, "Nær".toList,
      "Sand".toList, "Sme".toList, "Stav".toList, "Stor".toList, "Tand".toList,
      "Ut".toList, "Vest".toList]),
    ("common_street_suffix".toList, .list [
      "sgate".toList, "svei".toList, "s Gate".toList, "s Vei".toList, "gata".toList,
      "veien".toList]),
    ("postcode".toList, .list [
      "####".toList, "####".toList, "####".toList, "0###".toList]),
    ("street_prefix".toList, .list [
      "Øvre".toList, "Nedre".toList, "Søndre".toList, "Gamle".toList, "Østre".toList,
      "Vestre".toList]),
    ("street_suffix".toList, .list [
      "alléen".toList, "bakken".toList, "berget".toList, "bråten".toList,
      "eggen".toList, "engen".toList, "ekra".toList, "faret".toList, "flata".toList,
      "gata".toList, "gjerdet".toList, "grenda".toList, "gropa".toList, "hagen".toList,
      "haugen".toList, "havna".toList, "holtet".toList, "høgda".toList,
      "jordet".toList, "kollen".toList, "kroken".toList, "lia".toList, "lunden".toList,
      "lyngen".toList, "løkka".toList, "marka".toList, "moen".toList, "myra".toList,
      "plassen".toList, "ringen".toList, "roa".toList, "røa".toList, "skogen".toList,
      "skrenten".toList, "spranget".toList, "stien".toList, "stranda".toList,
      "stubben".toList, "stykket".toList, "svingen".toList, "tjernet".toList,
      "toppen".toList, "tunet".toList, "vollen".toList, "vika".toList, "åsen".toList]),
    ("state".toList, .list [
      "".toList]),
    ("city".toList, .list [
      "#{city_root}#{city_suffix}".toList]),
    ("street_name".toList, .list [
      "#{street_root}#{street_suffix}".toList,
      "#{street_prefix} #{street_root}#{street_suffix}".toList,
      "#{Name.first_name}#{common_street_suffix}".toList,
      "#{Name.last_name}#{common_street_suffix}".toList]),
    ("default_country".toList, .list [
      "Norge".toList]),
    ("city_suffix".toList, .list [
      "berg".toList, "borg".toList, "by".toList, "bø".toList, "dal".toList,
      "eid".toList, "fjell".toList, "fjord".toList, "foss".toList, "grunn".toList,
      "hamn".toList, "havn".toList, "helle".toList, "mark".toList, "nes".toList,
      "odden".toList, "sand".toList, "sjøen".toList, "stad".toList, "strand".toList,
      "strøm".toList, "sund".toList, "vik".toList, "vær".toList, "våg".toList,
      "ø".toList, "øy".toList, "ås".toList]),
    ("street_root".toList, .list [
      "Eike".toList, "Bjørke".toList, "Gran".toList, "Vass".toList, "Furu".toList,
      "Litj".toList, "Lille".toList, "Høy".toList, "Fosse".toList, "Elve".toList,
      "Ku".toList, "Konvall".toList, "Soldugg".toList, "Hestemyr".toList,
      "Granitt".toList, "Hegge".toList, "Rogne".toList, "Fiol".toList, "Sol".toList,
      "Ting".toList, "Malm".toList, "Klokker".toList, "Preste".toList, "Dam".toList,
      "Geiterygg".toList, "Bekke".toList, "Berg".toList, "Kirke".toList, "Kors".toList,
      "Bru".toList, "Blåveis".toList, "Torg".toList, "Sjø".toList]),
    ("building_number".toList, .list [
      "#".toList, "##".toList])]),
  ("company".toList, .node [
    ("name".toList, .list [
      "#{Name.last_name} #{suffix}".toList,
      "#{Name.last_name}-#{Name.last_name}".toList,
      "#{Name.last_name}, #{Name.last_name} og #{Name.last_name}".toList]),
    ("suffix".toList, .list [
      "Gruppen".toList, "AS".toList, "ASA".toList, "BA".toList, "RFH".toList,
      "og Sønner".toList])]),
  ("internet".toList, .node [
    ("domain_suffix".toList, .list [
      "no".toList, "com".toList, "net".toList, "org".toList])]),
  ("name".toList, .node [
    ("masculine_name".toList, .list [
      "Markus".toList, "Mathias".toList, "Kristian".toList, "Jonas".toList,
      "Andreas".toList, "Alexander".toList, "Martin".toList, "Sander".toList,
      "Daniel".toList, "Magnus".toList, "Henrik".toList, "Tobias".toList,
      "Kristoffer".toList, "Emil".toList, "Adrian".toList, "Sebastian".toList,
      "Marius".toList, "Elias".toList, "Fredrik".toList, "Thomas".toList,
      "Sondre".toList, "Benjamin".toList, "Jakob".toList, "Oliver".toList,
      "Lucas".toList, "Oskar".toList, "Nikolai".toList, "Filip".toList, "Mats".toList,
      "William".toList, "Erik".toList, "Simen".toList, "Ole".toList, "Eirik".toList,
      "Isak".toList, "Kasper".toList, "Noah".toList, "Lars".toList, "Joakim".toList,
      "Johannes".toList, "Håkon".toList, "Sindre".toList, "Jørgen".toList,
      "Herman".toList, "Anders".toList, "Jonathan".toList, "Even".toList,
      "Theodor".toList, "Mikkel".toList, "Aksel".toList]),
    ("last_name".toList, .list [
      "Johansen".toList, "Hansen".toList, "Andersen".toList, "Kristiansen".toList,
      "Larsen".toList, "Olsen".toList, "Solberg".toList, "Andresen".toList,
      "Pedersen".toList, "Nilsen".toList, "Berg".toList, "Halvorsen".toList,
      "Karlsen".toList, "Svendsen".toList, "Jensen".toList, "Haugen".toList,
      "Martinsen".toList, "Eriksen".toList, "Sørensen".toList, "Johnsen".toList,
      "Myhrer".toList, "Johannessen".toList, "Nielsen".toList, "Hagen".toList,
      "Pettersen".toList, "Bakke".toList, "Skuterud".toList, "Løken".toList,
      "Gundersen".toList, "Strand".toList, "Jørgensen".toList, "Kvarme".toList,
      "Røed".toList, "Sæther".toList, "Stensrud".toList, "Moe".toList,
      "Kristoffersen".toList, "Jakobsen".toList, "Holm".toList, "Aas".toList,
      "Lie".toList, "Moen".toList, "Andreassen".toList, "Vedvik".toList,
      "Nguyen".toList, "Jacobsen".toList, "Torgersen".toList, "Ruud".toList,
      "Krogh".toList, "Christiansen".toList, "Bjerke".toList, "Aalerud".toList,
      "Borge".toList, "Sørlie".toList, "Berge".toList, "Østli".toList,
      "Ødegård".toList, "Torp".toList, "Henriksen".toList, "Haukelidsæter".toList,
      "Fjeld".toList, "Danielsen".toList, "Aasen".toList, "Fredriksen".toList,
      "Dahl".toList, "Berntsen".toList, "Arnesen".toList, "Wold".toList,
      "Thoresen".toList, "Solheim".toList, "Skoglund".toList, "Bakken".toList,
      "Amundsen".toList, "Solli".toList, "Smogeli".toList, "Kristensen".toList,
      "Glosli".toList, "Fossum".toList, "Evensen".toList, "Eide".toList,
      "Carlsen".toList, "Østby".toList, "Vegge".toList, "Tangen".toList,
      "Smedsrud".toList, "Olstad".toList, "Lunde".toList, "Kleven".toList,
      "Huseby".toList, "Bjørnstad".toList, "Ryan".toList, "Rasmussen".toList,
      "Nygård".toList, "Nordskaug".toList, "Nordby".toList, "Mathisen".toList,
      "Hopland".toList, "Gran".toList, "Finstad".toList, "Edvardsen".toList]),
    ("prefix".toList, .list [
      "Dr.".toList, "Prof.".toList]),
    ("suffix".toList, .list [
      "Jr.".toList, "Sr.".toList, "I".toList, "II".toList, "III".toList, "IV".toList,
      "V".toList]),
    ("name".toList, .list [
      "#\x7bprefix\x7d #{first_name} #{last_name}".toList,
      "#{first_name} #{last_name} #{suffix}".toList,
      "#{feminine_name} #{feminine_name} #{last_name}".toList,
      "#{masculine_name} #{masculine_name} #{last_name}".toList,
      "#{first_name} #{last_name} #{last_name}".toList,
      "#{first_name} #{last_name}".toList]),
    ("first_name".toList, .list [
      "Emma".toList, "Sara".toList, "Thea".toList, "Ida".toList, "Julie".toList,
      "Nora".toList, "Emilie".toList, "Ingrid".toList, "Hanna".toList, "Maria".toList,
      "Sofie".toList, "Anna".toList, "Malin".toList, "Amalie".toList, "Vilde".toList,
      "Frida".toList, "Andrea".toList, "Tuva".toList, "Victoria".toList, "Mia".toList,
      "Karoline".toList, "Mathilde".toList, "Martine".toList, "Linnea".toList,
      "Marte".toList, "Hedda".toList, "Marie".toList, "Helene".toList, "Silje".toList,
      "Leah".toList, "Maja".toList, "Elise".toList, "Oda".toList, "Kristine".toList,
      "Aurora".toList, "Kaja".toList, "Camilla".toList, "Mari".toList, "Maren".toList,
      "Mina".toList, "Selma".toList, "Jenny".toList, "Celine".toList, "Eline".toList,
      "Sunniva".toList, "Natalie".toList, "Tiril".toList, "Synne".toList,
      "Sandra".toList, "Madeleine".toList, "Markus".toList, "Mathias".toList,
      "Kristian".toList, "Jonas".toList, "Andreas".toList, "Alexander".toList,
      "Martin".toList, "Sander".toList, "Daniel".toList, "Magnus".toList,
      "Henrik".toList, "Tobias".toList, "Kristoffer".toList, "Emil".toList,
      "Adrian".toList, "Sebastian".toList, "Marius".toList, "Elias".toList,
      "Fredrik".toList, "Thomas".toList, "Sondre".toList, "Benjamin".toList,
      "Jakob".toList, "Oliver".toList, "Lucas".toList, "Oskar".toList,
      "Nikolai".toList, "Filip".toList, "Mats".toList, "William".toList, "Erik".toList,
      "Simen".toList, "Ole".toList, "Eirik".toList, "Isak".toList, "Kasper".toList,
      "Noah".toList, "Lars".toList, "Joakim".toList, "Johannes".toList, "Håkon".toList,
      "Sindre".toList, "Jørgen".toList, "Herman".toList, "Anders".toList,
      "Jonathan".toList, "Even".toList, "Theodor".toList, "Mikkel".toList,
      "Aksel".toList]),
    ("feminine_name".toList, .list [
      "Emma".toList, "Sara".toList, "Thea".toList, "Ida".toList, "Julie".toList,
      "Nora".toList, "Emilie".toList, "Ingrid".toList, "Hanna".toList, "Maria".toList,
      "Sofie".toList, "Anna".toList, "Malin".toList, "Amalie".toList, "Vilde".toList,
      "Frida".toList, "Andrea".toList, "Tuva".toList, "Victoria".toList, "Mia".toList,
      "Karoline".toList, "Mathilde".toList, "Martine".toList, "Linnea".toList,
      "Marte".toList, "Hedda".toList, "Marie".toList, "Helene".toList, "Silje".toList,
      "Leah".toList, "Maja".toList, "Elise".toList, "Oda".toList, "Kristine".toList,
      "Aurora".toList, "Kaja".toList, "Camilla".toList, "Mari".toList, "Maren".toList,
      "Mina".toList, "Selma".toList, "Jenny".toList, "Celine".toList, "Eline".toList,
      "Sunniva".toList, "Natalie".toList, "Tiril".toList, "Synne".toList,
      "Sandra".toList, "Madeleine".toList])]),
  ("phone_number".toList, .node [
    ("formats".toList, .list [
      "########".toList, "## ## ## ##".toList, "### ## ###".toList,
      "+47 ## ## ## ##".toList])])]

/-- Closed form of `Numerify`: one left-to-right pass replacing each `#`. -/
def numerifySpec : Str → Bool → Rand → Str × Rand
  | [], _, g => ([], g)
  | c :: t, first, g =>
    if c = '#' then
      ((if first then Char.ofNat (49 + g 0 % 9) else Char.ofNat (48 + g 0 % 10))
        :: (numerifySpec t false g.tail).1, (numerifySpec t false g.tail).2)
    else (c :: (numerifySpec t first g).1, (numerifySpec t first g).2)

/-- Closed form of `Letterify`: one left-to-right pass replacing each `?`. -/
def letterifySpec : Str → Rand → Str × Rand
  | [], g => ([], g)
  | c :: t, g =>
    if c = '?' then
      (Char.ofNat (65 + g 0 % 26) :: (letterifySpec t g.tail).1, (letterifySpec t g.tail).2)
    else (c :: (letterifySpec t g).1, (letterifySpec t g).2)

/-- The stream after `n` draws were consumed. -/
def Rand.drop : Nat → Rand → Rand
  | 0, g => g
  | n + 1, g => Rand.drop n g.tail

/-- The characters `base + d % size` chosen by the next `n` draws `d`. -/
def drawChars (base size : Nat) : Nat → Rand → Str
  | 0, _ => []
  | n + 1, g => Char.ofNat (base + g 0 % size) :: drawChars base size n g.tail

/-- Every character of `cs` put in square brackets: `[c1][c2]…`. -/
def bracketed : Str → Str
  | [] => []
  | c :: t => '[' :: c :: ']' :: bracketed t

/-- The class `[lo-hi]` written `n` times. -/
def repeatClass (lo hi : Char) : Nat → Str
  | 0 => []
  | n + 1 => '[' :: lo :: '-' :: hi :: ']' :: repeatClass lo hi n

/-- The composition in the other order, `Numerify(Letterify(s))`, which the source does
not contain; it is what `NumerifyAndLetterify` is compared with. -/
def NumerifyOfLetterify (s : Str) (g : Rand) : Res Str :=
  match Letterify s g with
  | .error e => .error e
  | .ok (r, g') => Numerify r g'

/-- The text of a token `#{...}` at the start of the text: what stands between `#{` and
the first `}` behind it. -/
def tokenBody : Str → Option Str
  | '#' :: '{' :: r =>
    match r.span fun x => x != '}' with
    | (body, '}' :: _) => some body
    | _ => none
  | _ => none

/-- No token `#{...}` of the text contains a dot. -/
def dotlessTokens : Str → Bool
  | [] => true
  | c :: t =>
    (match tokenBody (c :: t) with
      | some body => !body.contains '.'
      | none => true) && dotlessTokens t

/-- The strings that `Numerify` followed by `Letterify`, in either order, can make of a
text: a `#` becomes a digit, which is not `0` for the leftmost `#` (`first`), a `?`
becomes an uppercase letter, and every other character stays. -/
def filled : Bool → Str → Str → Prop
  | _, [], [] => True
  | first, c :: s, d :: r =>
    if c = '#' then (d ∈ Digits ∧ (first = true → d ≠ '0')) ∧ filled false s r
    else if c = '?' then d ∈ ULetters ∧ filled first s r
    else d = c ∧ filled first s r
  | _, _, _ => False

/-- The stream that yields the draw `d` and then continues with `g`. -/
def Rand.cons (d : Nat) (g : Rand) : Rand := fun i => match i with
  | 0 => d
  | i + 1 => g i
/-- The passes of `Regexify` in front of the two shorthand passes over `\\d`: the text
left by the class pass. It is what the shorthand passes of `Regexify` are applied to. -/
def RegexifyUntilClasses (s : Str) (g : Rand) : Res Str :=
  let res := stripLead s
  let res := stripTrail res
  let res := replaceAll matchBraceNum
    (fun sm => ['{'] ++ sm.group 1 ++ [','] ++ sm.group 1 ++ ['}']) 0 res
  let res := replaceAll (matchLit '?') (fun _ => "{0,1}".toList) 0 res
  (quantLoop (findAll (matchBracketQuant '[' ']') 0 res) res g).andThen fun res g =>
  (quantLoop (findAll (matchBracketQuant '(' ')') 0 res) res g).andThen fun res g =>
  (quantLoop (findAll matchAtomQuant 0 res) res g).andThen fun res g =>
  (altLoop (findAll matchGroup 0 res) res g).andThen fun res g =>
  (rangeLoop (findAll matchClass 0 res) res g).andThen fun res g =>
  classLoop (findAll matchClass 0 res) res g
/-- The text of the reference token `#{seg.rest}`. -/
def tokenText (seg rest : Str) : Str := '#' :: '{' :: (seg ++ '.' :: (rest ++ ['}']))

/-- No match of the reference pattern starts inside `pre` when the text `cont` follows
it. -/
def noMatchStarts : Str → Str → Bool
  | [], _ => true
  | c :: t, cont => (matchRef (c :: t ++ cont)).isNone && noMatchStarts t cont

/-- Whether the text `t` is the beginning of a reference token that is complete or still
unfinished where `t` ends, so that a match of the reference pattern can start at the head
of `t` when some text follows it: `#`, `#{letters`, `#{letters.` and `#{letters.text`
up to the end of `t`, and every text that starts with a token. -/
def opensToken : Str → Bool
  | ['#'] => true
  | '#' :: '{' :: r =>
    match r.span Char.isAlpha with
    | (_, []) => true
    | ([], _) => false
    | (_, '.' :: r2) =>
      match r2.span fun x => x != '}' with
      | (_, []) => true
      | ([], _) => false
      | _ => true
    | _ => false
  | _ => false

/-- No position of the text starts a reference token or an unfinished beginning of one:
whatever text follows, no match of the reference pattern starts inside this one. -/
def sealed : Str → Bool
  | [] => true
  | c :: t => !opensToken (c :: t) && sealed t

/-- A text written as reference tokens `#{seg.rest}`, each behind a piece of text `gap`
and given as `(gap, seg, rest)`, followed by a last piece of text. -/
def template : List (Str × Str × Str) → Str → Str
  | [], last => last
  | (gap, seg, rest) :: more, last => gap ++ (tokenText seg rest ++ template more last)

/-- The text of `template` with the tokens replaced, in their order, by the values `rs`. -/
def expanded : List (Str × Str × Str) → List Str → Str → Str
  | (gap, _, _) :: more, r :: rs, last => gap ++ (r ++ expanded more rs last)
  | _, _, last => last

/-- The results of `fetch` on the paths in their order, every call reading the random
stream where the call before it stopped. -/
def fetchEach (fetch : Str → Rand → Res Str) : List Str → Rand → Res (List Str)
  | [], g => .ok ([], g)
  | p :: ps, g =>
    (fetch p g).andThen fun r g' =>
      (fetchEach fetch ps g').andThen fun rs g'' => .ok (r :: rs, g'')

/-! ## Properties -/

theorem replaceFirst_append_of_not_mem (x : Char) (o new pre post : Str)
    (h : x ∉ pre) :
    replaceFirst (x :: o) new (pre ++ (x :: o ++ post)) = pre ++ (new ++ post) := by
  induction pre with
  | nil =>
    have hp : (x :: o).isPrefixOf (x :: o ++ post) = true := by
      rw [List.isPrefixOf_iff_prefix]; exact List.prefix_append _ _
    simp only [List.nil_append, List.cons_append] at hp ⊢
    simp only [replaceFirst, hp, if_true]
    simp
  | cons a pre ih =>
    have ha : a ≠ x := fun e => h (by simp [e])
    have hx : x ∉ pre := fun e => h (by simp [e])
    have hp : (x :: o).isPrefixOf (a :: (pre ++ (x :: o ++ post))) = false := by
      simp [List.isPrefixOf, Ne.symm ha]
    simp only [List.cons_append] at hp ⊢
    simp only [replaceFirst, hp]
    simp only [List.cons_append] at ih
    simp [ih hx]

theorem findAll_matchLit (c : Char) (s : Str) :
    findAll (matchLit c) 0 s = (s.filter fun x => x = c).map fun _ => [[c]] := by
  induction s with
  | nil => rfl
  | cons x t ih =>
    by_cases h : x = c
    · simp [findAll, matchLit, h, Submatch.group, ih]
    · simp [findAll, matchLit, h, ih]

theorem RandomChoice_eq (ss : List Str) (g : Rand) (h : ss ≠ []) :
    RandomChoice ss g = .ok (ss.getD (g 0 % ss.length) [], g.tail) := by
  have hl : 0 < ss.length := List.length_pos.mpr h
  have hlt : g 0 % ss.length < ss.length := Nat.mod_lt _ hl
  have h0 : ¬ ((ss.length : Int) ≤ 0) := by omega
  simp only [RandomChoice, Intn, h0, if_false, Int.toNat_ofNat]
  rw [List.getD_eq_getElem?_getD, List.get?_eq_getElem?, List.getElem?_eq_getElem hlt]
  simp

theorem RandomChoice_aryDigits (g : Rand) :
    RandomChoice aryDigits g = .ok ([Char.ofNat (48 + g 0 % 10)], g.tail) := by
  rw [RandomChoice_eq _ _ (by decide)]
  have h : g 0 % 10 < 10 := Nat.mod_lt _ (by decide)
  have : aryDigits.length = 10 := rfl
  rw [this]
  generalize g 0 % 10 = k at h ⊢
  interval_cases k <;> rfl

theorem RandomChoice_aryDigits_tail (g : Rand) :
    RandomChoice (aryDigits.drop 1) g = .ok ([Char.ofNat (49 + g 0 % 9)], g.tail) := by
  rw [RandomChoice_eq _ _ (by decide)]
  have h : g 0 % 9 < 9 := Nat.mod_lt _ (by decide)
  have : (aryDigits.drop 1).length = 9 := rfl
  rw [this]
  generalize g 0 % 9 = k at h ⊢
  interval_cases k <;> rfl

theorem RandomChoice_aryULetters (g : Rand) :
    RandomChoice aryULetters g = .ok ([Char.ofNat (65 + g 0 % 26)], g.tail) := by
  rw [RandomChoice_eq _ _ (by decide)]
  have h : g 0 % 26 < 26 := Nat.mod_lt _ (by decide)
  have : aryULetters.length = 26 := rfl
  rw [this]
  generalize g 0 % 26 = k at h ⊢
  interval_cases k <;> rfl
theorem numerifyLoop_spec (t : Str) : ∀ (pre : Str) (first : Bool) (g : Rand), '#' ∉ pre →
    numerifyLoop (findAll (matchLit '#') 0 t) (pre ++ t) first g
      = .ok (pre ++ (numerifySpec t first g).1, (numerifySpec t first g).2) := by
  induction t with
  | nil => intro pre first g _; simp [findAll, numerifyLoop, numerifySpec]
  | cons c t ih =>
    intro pre first g hpre
    by_cases hc : c = '#'
    · subst hc
      have hfa : findAll (matchLit '#') 0 ('#' :: t) = [['#']] :: findAll (matchLit '#') 0 t := by
        simp [findAll, matchLit, Submatch.group]
      rw [hfa]
      cases first with
      | true =>
        simp only [numerifyLoop, if_true, RandomChoice_aryDigits_tail, Submatch.group,
          List.getD_cons_zero]
        have hr := replaceFirst_append_of_not_mem '#' [] [Char.ofNat (49 + g 0 % 9)] pre t hpre
        simp only [List.nil_append, List.singleton_append] at hr
        rw [hr]
        have hd : '#' ∉ pre ++ [Char.ofNat (49 + g 0 % 9)] := by
          have h : g 0 % 9 < 9 := Nat.mod_lt _ (by decide)
          generalize g 0 % 9 = k at h ⊢
          simp only [List.mem_append, List.mem_singleton, not_or]
          refine ⟨hpre, ?_⟩
          interval_cases k <;> decide
        have := ih (pre ++ [Char.ofNat (49 + g 0 % 9)]) false g.tail hd
        simp only [List.append_assoc, List.singleton_append] at this
        rw [this]
        simp [numerifySpec]
      | false =>
        simp only [numerifyLoop, Bool.false_eq_true, if_false, RandomChoice_aryDigits,
          Submatch.group, List.getD_cons_zero]
        have hr := replaceFirst_append_of_not_mem '#' [] [Char.ofNat (48 + g 0 % 10)] pre t hpre
        simp only [List.nil_append, List.singleton_append] at hr
        rw [hr]
        have hd : '#' ∉ pre ++ [Char.ofNat (48 + g 0 % 10)] := by
          have h : g 0 % 10 < 10 := Nat.mod_lt _ (by decide)
          generalize g 0 % 10 = k at h ⊢
          simp only [List.mem_append, List.mem_singleton, not_or]
          refine ⟨hpre, ?_⟩
          interval_cases k <;> decide
        have := ih (pre ++ [Char.ofNat (48 + g 0 % 10)]) false g.tail hd
        simp only [List.append_assoc, List.singleton_append] at this
        rw [this]
        simp [numerifySpec]
    · have hfa : findAll (matchLit '#') 0 (c :: t) = findAll (matchLit '#') 0 t := by
        simp [findAll, matchLit, hc]
      rw [hfa]
      have hd : '#' ∉ pre ++ [c] := by
        simp only [List.mem_append, List.mem_singleton, not_or]
        exact ⟨hpre, fun e => hc e.symm⟩
      have := ih (pre ++ [c]) first g hd
      simp only [List.append_assoc, List.singleton_append] at this
      rw [this]
      simp [numerifySpec, hc]

theorem Numerify_eq_spec (s : Str) (g : Rand) :
    Numerify s g = .ok (numerifySpec s true g) := by
  have := numerifyLoop_spec s [] true g (by simp)
  simpa [Numerify] using this
theorem digit_mem_Digits (k : Nat) : Char.ofNat (48 + k % 10) ∈ Digits := by
  have h : k % 10 < 10 := Nat.mod_lt _ (by decide)
  generalize k % 10 = j at h ⊢
  interval_cases j <;> decide

theorem digit_pos_mem_Digits (k : Nat) :
    Char.ofNat (49 + k % 9) ∈ Digits ∧ Char.ofNat (49 + k % 9) ≠ '0' := by
  have h : k % 9 < 9 := Nat.mod_lt _ (by decide)
  generalize k % 9 = j at h ⊢
  interval_cases j <;> decide

theorem numerifySpec_length (s : Str) : ∀ (first : Bool) (g : Rand),
    (numerifySpec s first g).1.length = s.length := by
  induction s with
  | nil => intro _ _; rfl
  | cons c t ih =>
    intro first g
    by_cases hc : c = '#' <;> simp [numerifySpec, hc, ih]

theorem numerifySpec_keep (s : Str) : ∀ (first : Bool) (g : Rand) (i : Nat) (c : Char),
    s[i]? = some c → c ≠ '#' → (numerifySpec s first g).1[i]? = some c := by
  induction s with
  | nil => intro _ _ i c h; simp at h
  | cons x t ih =>
    intro first g i c h hc
    cases i with
    | zero =>
      simp only [List.getElem?_cons_zero, Option.some.injEq] at h
      subst h
      simp [numerifySpec, hc]
    | succ i =>
      simp only [List.getElem?_cons_succ] at h
      by_cases hx : x = '#'
      · simpa [numerifySpec, hx] using ih false g.tail i c h hc
      · simpa [numerifySpec, hx] using ih first g i c h hc

theorem numerifySpec_digit (s : Str) : ∀ (first : Bool) (g : Rand) (i : Nat),
    s[i]? = some '#' → ∃ d, (numerifySpec s first g).1[i]? = some d ∧ d ∈ Digits := by
  induction s with
  | nil => intro _ _ i h; simp at h
  | cons x t ih =>
    intro first g i h
    cases i with
    | zero =>
      simp only [List.getElem?_cons_zero, Option.some.injEq] at h
      subst h
      cases first
      · exact ⟨Char.ofNat (48 + g 0 % 10), by simp [numerifySpec], digit_mem_Digits _⟩
      · exact ⟨Char.ofNat (49 + g 0 % 9), by simp [numerifySpec],
          (digit_pos_mem_Digits _).1⟩
    | succ i =>
      simp only [List.getElem?_cons_succ] at h
      by_cases hx : x = '#'
      · simpa [numerifySpec, hx] using ih false g.tail i h
      · simpa [numerifySpec, hx] using ih first g i h

theorem numerifySpec_leftmost (s : Str) : ∀ (g : Rand) (i : Nat),
    s[i]? = some '#' → (∀ j, j < i → s[j]? ≠ some '#') →
    ∃ d, (numerifySpec s true g).1[i]? = some d ∧ d ∈ Digits ∧ d ≠ '0' := by
  induction s with
  | nil => intro _ i h; simp at h
  | cons x t ih =>
    intro g i h hmin
    cases i with
    | zero =>
      simp only [List.getElem?_cons_zero, Option.some.injEq] at h
      subst h
      exact ⟨Char.ofNat (49 + g 0 % 9), by simp [numerifySpec], digit_pos_mem_Digits _⟩
    | succ i =>
      simp only [List.getElem?_cons_succ] at h
      have hx : x ≠ '#' := fun e => hmin 0 (Nat.succ_pos _) (by simp [e])
      have hmin' : ∀ j, j < i → t[j]? ≠ some '#' := fun j hj =>
        by simpa using hmin (j + 1) (Nat.succ_lt_succ hj)
      simpa [numerifySpec, hx] using ih g i h hmin'

/-- C4: `Numerify(s)` returns, for every string and every stream of draws, a string of
the length of `s` that agrees with `s` wherever `s` is not `#`, holds a decimal digit
wherever `s` is `#`, and holds a digit other than `0` at the leftmost `#`; a string of
`n` characters `#` becomes `n` digits that do not start with `0`. -/
theorem Numerify_digits (s : Str) (g : Rand) :
    ∃ (r : Str) (g' : Rand), Numerify s g = .ok (r, g') ∧ r.length = s.length ∧
      (∀ (i : Nat) (c : Char), s[i]? = some c → c ≠ '#' → r[i]? = some c) ∧
      (∀ i : Nat, s[i]? = some '#' → ∃ d, r[i]? = some d ∧ d ∈ Digits) ∧
      (∀ i : Nat, s[i]? = some '#' → (∀ j, j < i → s[j]? ≠ some '#') →
        ∃ d, r[i]? = some d ∧ d ∈ Digits ∧ d ≠ '0') ∧
      (∀ n, s = List.replicate n '#' →
        r.length = n ∧ (∀ d ∈ r, d ∈ Digits) ∧ r.head? ≠ some '0') := by
  refine ⟨(numerifySpec s true g).1, (numerifySpec s true g).2, Numerify_eq_spec s g,
    numerifySpec_length s true g, numerifySpec_keep s true g, numerifySpec_digit s true g,
    numerifySpec_leftmost s g, ?_⟩
  intro n hs
  refine ⟨by rw [numerifySpec_length, hs, List.length_replicate], ?_, ?_⟩
  · intro d hd
    obtain ⟨i, hi, hget⟩ := List.getElem_of_mem hd
    have hi' : i < s.length := by rw [numerifySpec_length] at hi; exact hi
    have hsi : s[i]? = some '#' := by
      rw [List.getElem?_eq_getElem hi']
      simp [hs]
    obtain ⟨d', hd', hmem⟩ := numerifySpec_digit s true g i hsi
    rw [List.getElem?_eq_getElem hi, hget] at hd'
    simp only [Option.some.injEq] at hd'
    exact hd' ▸ hmem
  · cases n with
    | zero => subst hs; simp [numerifySpec]
    | succ n =>
      have hs0 : s[0]? = some '#' := by simp [hs, List.replicate_succ]
      obtain ⟨d, hd, _, hne⟩ := numerifySpec_leftmost s g 0 hs0 (by intro j hj; omega)
      rw [List.head?_eq_getElem?, hd]
      simpa using hne
theorem uletter_mem (k : Nat) : Char.ofNat (65 + k % 26) ∈ ULetters := by
  have h : k % 26 < 26 := Nat.mod_lt _ (by decide)
  generalize k % 26 = j at h ⊢
  interval_cases j <;> decide

theorem letterifyLoop_spec (t : Str) : ∀ (pre : Str) (g : Rand), '?' ∉ pre →
    letterifyLoop (findAll (matchLit '?') 0 t) (pre ++ t) g
      = .ok (pre ++ (letterifySpec t g).1, (letterifySpec t g).2) := by
  induction t with
  | nil => intro pre g _; simp [findAll, letterifyLoop, letterifySpec]
  | cons c t ih =>
    intro pre g hpre
    by_cases hc : c = '?'
    · subst hc
      have hfa : findAll (matchLit '?') 0 ('?' :: t) = [['?']] :: findAll (matchLit '?') 0 t := by
        simp [findAll, matchLit, Submatch.group]
      rw [hfa]
      simp only [letterifyLoop, RandomChoice_aryULetters, Submatch.group, List.getD_cons_zero]
      have hr := replaceFirst_append_of_not_mem '?' [] [Char.ofNat (65 + g 0 % 26)] pre t hpre
      simp only [List.nil_append, List.singleton_append] at hr
      rw [hr]
      have hd : '?' ∉ pre ++ [Char.ofNat (65 + g 0 % 26)] := by
        have h : g 0 % 26 < 26 := Nat.mod_lt _ (by decide)
        generalize g 0 % 26 = k at h ⊢
        simp only [List.mem_append, List.mem_singleton, not_or]
        refine ⟨hpre, ?_⟩
        interval_cases k <;> decide
      have := ih (pre ++ [Char.ofNat (65 + g 0 % 26)]) g.tail hd
      simp only [List.append_assoc, List.singleton_append] at this
      rw [this]
      simp [letterifySpec]
    · have hfa : findAll (matchLit '?') 0 (c :: t) = findAll (matchLit '?') 0 t := by
        simp [findAll, matchLit, hc]
      rw [hfa]
      have hd : '?' ∉ pre ++ [c] := by
        simp only [List.mem_append, List.mem_singleton, not_or]
        exact ⟨hpre, fun e => hc e.symm⟩
      have := ih (pre ++ [c]) g hd
      simp only [List.append_assoc, List.singleton_append] at this
      rw [this]
      simp [letterifySpec, hc]

theorem Letterify_eq_spec (s : Str) (g : Rand) :
    Letterify s g = .ok (letterifySpec s g) := by
  have := letterifyLoop_spec s [] g (by simp)
  simpa [Letterify] using this

theorem letterifySpec_length (s : Str) : ∀ (g : Rand),
    (letterifySpec s g).1.length = s.length := by
  induction s with
  | nil => intro _; rfl
  | cons c t ih =>
    intro g
    by_cases hc : c = '?' <;> simp [letterifySpec, hc, ih]

theorem letterifySpec_keep (s : Str) : ∀ (g : Rand) (i : Nat) (c : Char),
    s[i]? = some c → c ≠ '?' → (letterifySpec s g).1[i]? = some c := by
  induction s with
  | nil => intro _ i c h; simp at h
  | cons x t ih =>
    intro g i c h hc
    cases i with
    | zero =>
      simp only [List.getElem?_cons_zero, Option.some.injEq] at h
      subst h
      simp [letterifySpec, hc]
    | succ i =>
      simp only [List.getElem?_cons_succ] at h
      by_cases hx : x = '?'
      · simpa [letterifySpec, hx] using ih g.tail i c h hc
      · simpa [letterifySpec, hx] using ih g i c h hc

theorem letterifySpec_letter (s : Str) : ∀ (g : Rand) (i : Nat),
    s[i]? = some '?' → ∃ d, (letterifySpec s g).1[i]? = some d ∧ d ∈ ULetters := by
  induction s with
  | nil => intro _ i h; simp at h
  | cons x t ih =>
    intro g i h
    cases i with
    | zero =>
      simp only [List.getElem?_cons_zero, Option.some.injEq] at h
      subst h
      exact ⟨Char.ofNat (65 + g 0 % 26), by simp [letterifySpec], uletter_mem _⟩
    | succ i =>
      simp only [List.getElem?_cons_succ] at h
      by_cases hx : x = '?'
      · simpa [letterifySpec, hx] using ih g.tail i h
      · simpa [letterifySpec, hx] using ih g i h

/-- C8: `Letterify(s)` returns, for every string and every stream of draws, a string of
the length of `s` that agrees with `s` wherever `s` is not `?` and holds an uppercase
ASCII letter wherever `s` is `?`; a string of `n` characters `?` becomes `n` uppercase
letters. -/
theorem Letterify_letters (s : Str) (g : Rand) :
    ∃ (r : Str) (g' : Rand), Letterify s g = .ok (r, g') ∧ r.length = s.length ∧
      (∀ (i : Nat) (c : Char), s[i]? = some c → c ≠ '?' → r[i]? = some c) ∧
      (∀ i : Nat, s[i]? = some '?' → ∃ d, r[i]? = some d ∧ d ∈ ULetters) ∧
      (∀ n, s = List.replicate n '?' → r.length = n ∧ ∀ d ∈ r, d ∈ ULetters) := by
  refine ⟨(letterifySpec s g).1, (letterifySpec s g).2, Letterify_eq_spec s g,
    letterifySpec_length s g, letterifySpec_keep s g, letterifySpec_letter s g, ?_⟩
  intro n hs
  refine ⟨by rw [letterifySpec_length, hs, List.length_replicate], ?_⟩
  intro d hd
  obtain ⟨i, hi, hget⟩ := List.getElem_of_mem hd
  have hi' : i < s.length := by rw [letterifySpec_length] at hi; exact hi
  have hsi : s[i]? = some '?' := by
    rw [List.getElem?_eq_getElem hi']
    simp [hs]
  obtain ⟨d', hd', hmem⟩ := letterifySpec_letter s g i hsi
  rw [List.getElem?_eq_getElem hi, hget] at hd'
  simp only [Option.some.injEq] at hd'
  exact hd' ▸ hmem
theorem findAll_of_length_le (m : Str → Option Submatch) (s : Str) :
    ∀ k, s.length ≤ k → findAll m k s = [] := by
  induction s with
  | nil => intro k _; cases k <;> rfl
  | cons c t ih =>
    intro k hk
    cases k with
    | zero => simp at hk
    | succ k => simpa [findAll] using ih k (by simpa using hk)

theorem findAll_eq_nil (m : Str → Option Submatch) (x : Char)
    (hm : ∀ t, x ∉ t → m t = none) (s : Str) (hx : x ∉ s) : ∀ k, findAll m k s = [] := by
  induction s with
  | nil => intro k; cases k <;> rfl
  | cons c t ih =>
    intro k
    have ht : x ∉ t := fun e => hx (List.mem_cons_of_mem _ e)
    cases k with
    | zero => simp [findAll, hm _ hx, ih ht]
    | succ k => simp [findAll, ih ht]

theorem replaceAll_of_length_le (m : Str → Option Submatch) (f : Submatch → Str) (s : Str) :
    ∀ k, s.length ≤ k → replaceAll m f k s = [] := by
  induction s with
  | nil => intro k _; cases k <;> rfl
  | cons c t ih =>
    intro k hk
    cases k with
    | zero => simp at hk
    | succ k => simpa [replaceAll] using ih k (by simpa using hk)

theorem replaceAll_eq_self (m : Str → Option Submatch) (f : Submatch → Str) (x : Char)
    (hm : ∀ t, x ∉ t → m t = none) (s : Str) (hx : x ∉ s) : replaceAll m f 0 s = s := by
  induction s with
  | nil => rfl
  | cons c t ih =>
    have ht : x ∉ t := fun e => hx (List.mem_cons_of_mem _ e)
    simp [replaceAll, hm _ hx, ih ht]

theorem replaceEscD_eq_self (choices : List Str) (s : Str) (hx : '\\' ∉ s) (g : Rand) :
    replaceEscD choices s g = .ok (s, g) := by
  induction s with
  | nil => rfl
  | cons c t ih =>
    have ht : '\\' ∉ t := fun e => hx (List.mem_cons_of_mem _ e)
    have hc : c ≠ '\\' := fun e => hx (by simp [e])
    unfold replaceEscD
    split
    · rename_i heq; simp at heq
    · rename_i heq; simp at heq; exact absurd heq.1 hc
    · rename_i heq; simp only [List.cons.injEq] at heq
      obtain ⟨h1, h2⟩ := heq
      subst h1; subst h2
      rw [ih ht]; rfl

theorem span_append_stop (p : Char → Bool) (ds : Str) (x : Char) (rest : Str)
    (hds : ∀ c ∈ ds, p c = true) (hx : p x = false) :
    (ds ++ x :: rest).span p = (ds, x :: rest) := by
  induction ds with
  | nil => simp [List.span, List.span.loop, hx]
  | cons d ds ih =>
    have hd : p d = true := hds d (by simp)
    have := ih (fun c hc => hds c (List.mem_cons_of_mem _ hc))
    rw [List.span_eq_take_drop] at this ⊢
    simp only [List.cons_append, List.takeWhile_cons, hd, if_true, List.dropWhile_cons]
    simp only [Prod.mk.injEq] at this
    simp [this.1, this.2]

theorem span_all (p : Char → Bool) (ds : Str) (hds : ∀ c ∈ ds, p c = true) :
    ds.span p = (ds, []) := by
  rw [List.span_eq_take_drop]
  simp only [Prod.mk.injEq, List.takeWhile_eq_self_iff, List.dropWhile_eq_nil_iff]
  exact ⟨hds, hds⟩

theorem matchLit_none (c : Char) (t : Str) (h : c ∉ t) : matchLit c t = none := by
  cases t with
  | nil => rfl
  | cons x t =>
    have : x ≠ c := fun e => h (by simp [e])
    simp [matchLit, this]

theorem matchBraceNum_none (t : Str) (h : '{' ∉ t) : matchBraceNum t = none := by
  unfold matchBraceNum
  split
  · simp at h
  · rfl

theorem matchQuant_none (t : Str) (h : t.head? ≠ some '{') : matchQuant t = none := by
  unfold matchQuant
  split
  · simp at h
  · rfl

theorem matchBracket_none (o c : Char) (t : Str) (h : o ∉ t) : matchBracket o c t = none := by
  cases t with
  | nil => rfl
  | cons x t =>
    have : x ≠ o := fun e => h (by simp [e])
    simp [matchBracket, this]

theorem matchBracketQuant_none_of_open (o c : Char) (t : Str) (h : o ∉ t) :
    matchBracketQuant o c t = none := by
  simp [matchBracketQuant, matchBracket_none o c t h]

theorem head?_drop_ne (x : Char) (t : Str) (h : x ∉ t) (n : Nat) :
    (t.drop n).head? ≠ some x := by
  intro e
  have : x ∈ t.drop n := by
    cases hd : t.drop n with
    | nil => simp [hd] at e
    | cons a r => simp [hd] at e; simp [e]
  exact h (List.mem_of_mem_drop this)

theorem matchBracketQuant_none_of_brace (o c : Char) (t : Str) (h : '{' ∉ t) :
    matchBracketQuant o c t = none := by
  unfold matchBracketQuant
  split
  · rfl
  · simp only
    rw [matchQuant_none _ (head?_drop_ne '{' t h _)]

theorem matchAtomQuant_none (t : Str) (h : '{' ∉ t) : matchAtomQuant t = none := by
  have hq : ∀ n, matchQuant (t.drop n) = none := fun n =>
    matchQuant_none _ (head?_drop_ne '{' t h n)
  have hesc : matchEscAtomQuant t = none := by
    unfold matchEscAtomQuant
    split
    · have h2 := hq 2
      simp only [List.drop_succ_cons, List.drop_zero] at h2
      simp [h2]
    · rfl
  have hplain : matchPlainAtomQuant t = none := by
    unfold matchPlainAtomQuant
    split
    · have h1 := hq 1
      simp only [List.drop_succ_cons, List.drop_zero] at h1
      simp [h1]
    · rfl
  simp [matchAtomQuant, hesc, hplain]

theorem matchGroup_none (t : Str) (h : '(' ∉ t) : matchGroup t = none := by
  unfold matchGroup
  split
  · simp at h
  · rfl

theorem matchClass_none (t : Str) (h : '[' ∉ t) : matchClass t = none := by
  simp [matchClass, matchBracket_none '[' ']' t h]
theorem replaceFirst_self (s new : Str) : replaceFirst s new s = new := by
  cases s with
  | nil => simp [replaceFirst]
  | cons c t =>
    have hp : (c :: t).isPrefixOf (c :: t) = true := by
      rw [List.isPrefixOf_iff_prefix]
    simp [replaceFirst, hp]

theorem not_isPrefixOf_of_marker (x a : Char) (o1 o2 pre rest : Str)
    (hpre : x ∉ a :: pre) (ho : x ∉ o1) :
    (o1 ++ x :: o2).isPrefixOf (a :: (pre ++ (o1 ++ rest))) = false := by
  rw [Bool.eq_false_iff]
  intro hp
  rw [List.isPrefixOf_iff_prefix] at hp
  obtain ⟨t, ht⟩ := hp
  have h1 : (o1 ++ x :: o2 ++ t)[o1.length]? = some x := by
    rw [List.append_assoc, List.getElem?_append_right (Nat.le_refl _)]
    simp
  rw [ht] at h1
  have hlt : o1.length < (a :: (pre ++ o1)).length := by simp; omega
  have h2 : (a :: (pre ++ (o1 ++ rest)))[o1.length]? = (a :: (pre ++ o1))[o1.length]? := by
    have : a :: (pre ++ (o1 ++ rest)) = (a :: (pre ++ o1)) ++ rest := by simp
    rw [this, List.getElem?_append_left hlt]
  rw [h2, List.getElem?_eq_getElem hlt] at h1
  simp only [Option.some.injEq] at h1
  have hmem : x ∈ a :: (pre ++ o1) := h1 ▸ List.getElem_mem _
  simp only [List.mem_cons, List.mem_append] at hmem hpre
  tauto

theorem replaceFirst_unique (x : Char) (o1 o2 new pre post : Str)
    (hpre : x ∉ pre) (ho : x ∉ o1) :
    replaceFirst (o1 ++ x :: o2) new (pre ++ ((o1 ++ x :: o2) ++ post)) = pre ++ (new ++ post) := by
  induction pre with
  | nil =>
    have hp : (o1 ++ x :: o2).isPrefixOf ((o1 ++ x :: o2) ++ post) = true := by
      rw [List.isPrefixOf_iff_prefix]; exact List.prefix_append _ _
    cases h : o1 ++ x :: o2 with
    | nil => simp at h
    | cons c t =>
      rw [h] at hp
      simp only [List.nil_append, List.cons_append] at hp ⊢
      simp only [replaceFirst, hp, if_true]
      simp
  | cons a pre ih =>
    have hx : x ∉ pre := fun e => hpre (List.mem_cons_of_mem _ e)
    have hp := not_isPrefixOf_of_marker x a o1 o2 pre (x :: o2 ++ post) hpre ho
    have e1 : a :: pre ++ (o1 ++ x :: o2 ++ post) = a :: (pre ++ (o1 ++ (x :: o2 ++ post))) := by
      simp
    rw [e1]
    simp only [replaceFirst, hp]
    have := ih hx
    simp only [List.append_assoc, List.cons_append] at this ⊢
    rw [this]
    simp

theorem stripLead_eq_self (s : Str) (h1 : s.head? ≠ some '/') (h2 : s.head? ≠ some '^') :
    stripLead s = s := by
  simp [stripLead, h1, h2]

theorem stripTrail_append_singleton (s : Str) (c : Char) (h1 : c ≠ '/') (h2 : c ≠ '$') :
    stripTrail (s ++ [c]) = s ++ [c] := by
  induction s with
  | nil => simp [stripTrail, h1, h2]
  | cons a t ih =>
    cases t with
    | nil =>
      simp only [List.cons_append, List.nil_append] at ih ⊢
      unfold stripTrail
      split <;> simp_all
    | cons b t =>
      simp only [List.cons_append] at ih ⊢
      unfold stripTrail
      split <;> simp_all

theorem wrap64_eq_self (x : Int) (h1 : -(2 ^ 63) ≤ x) (h2 : x < 2 ^ 63) : wrap64 x = x := by
  unfold wrap64
  omega
theorem not_mem_of_forall_isDigit (x : Char) (a : Str) (ha : ∀ d ∈ a, isDigit d = true)
    (hx : isDigit x = false) : x ∉ a := by
  intro h
  rw [ha x h] at hx
  exact Bool.noConfusion hx

theorem matchQuant_quantText (a b rest : Str) (ha : a ≠ []) (hb : b ≠ [])
    (had : ∀ d ∈ a, isDigit d = true) (hbd : ∀ d ∈ b, isDigit d = true) :
    matchQuant (quantText a b ++ rest) = some (a, b) := by
  have e : quantText a b ++ rest = '{' :: (a ++ ',' :: (b ++ '}' :: rest)) := by
    simp [quantText]
  rw [e]
  unfold matchQuant
  simp only
  rw [span_append_stop isDigit a ',' _ had (by decide)]
  cases a with
  | nil => exact absurd rfl ha
  | cons a0 a' =>
    simp only
    rw [span_append_stop isDigit b '}' _ hbd (by decide)]
    cases b with
    | nil => exact absurd rfl hb
    | cons b0 b' => rfl

theorem matchBraceNum_quantText (a b rest : Str) (ha : a ≠ [])
    (had : ∀ d ∈ a, isDigit d = true) :
    matchBraceNum (quantText a b ++ rest) = none := by
  have e : quantText a b ++ rest = '{' :: (a ++ ',' :: (b ++ '}' :: rest)) := by
    simp [quantText]
  rw [e]
  unfold matchBraceNum
  simp only
  rw [span_append_stop isDigit a ',' _ had (by decide)]
  cases a with
  | nil => exact absurd rfl ha
  | cons a0 a' => rfl

theorem Atoi_of_digits (a : Str) (ha : a ≠ []) (had : ∀ d ∈ a, isDigit d = true) :
    Atoi a = min (parseNat a : Int) maxInt := by
  have hall : a.all isDigit = true := by simpa [List.all_eq_true] using had
  have hemp : a.isEmpty = false := by cases a <;> simp_all
  unfold Atoi
  split
  · have := had '-' (by simp); exact absurd this (by decide)
  · have := had '+' (by simp); exact absurd this (by decide)
  · simp [hall, hemp]

theorem Atoi_of_digits_lt (a : Str) (ha : a ≠ []) (had : ∀ d ∈ a, isDigit d = true)
    (h : parseNat a < 2 ^ 63) : Atoi a = (parseNat a : Int) := by
  rw [Atoi_of_digits a ha had]
  unfold maxInt
  omega

theorem RandomInt_range (n m : Nat) (g : Rand) (hnm : n ≤ m) (hm : m < 2 ^ 63)
    (hr : m - n + 1 < 2 ^ 63) :
    ∃ (k : Nat) (g' : Rand), n ≤ k ∧ k ≤ m ∧ RandomInt (n : Int) (m : Int) g = .ok ((k : Int), g') := by
  by_cases h : m ≤ n
  · refine ⟨n, g, le_refl _, hnm, ?_⟩
    have : (m : Int) ≤ (n : Int) := by exact_mod_cast h
    simp [RandomInt, this]
  · have hlt : n < m := Nat.lt_of_not_le h
    have h1 : ¬ ((m : Int) ≤ (n : Int)) := by omega
    have hw : wrap64 ((m : Int) - (n : Int) + 1) = ((m - n + 1 : Nat) : Int) := by
      rw [wrap64_eq_self] <;> omega
    have hpos : ¬ (((m - n + 1 : Nat) : Int) ≤ 0) := by omega
    have hmod : g 0 % (m - n + 1) < m - n + 1 := Nat.mod_lt _ (by omega)
    refine ⟨n + g 0 % (m - n + 1), g.tail, by omega, by omega, ?_⟩
    simp only [RandomInt, h1, if_false, hw, Intn, hpos, Int.toNat_ofNat]
    rw [wrap64_eq_self] <;> first | rfl | omega

theorem flatten_replicate_singleton (k : Nat) (c : Char) :
    (List.replicate k [c]).flatten = List.replicate k c := by
  induction k with
  | zero => rfl
  | succ k ih => simp [List.replicate_succ, ih]

theorem RandomRepeat_char (c : Char) (n m : Nat) (g : Rand) (hc : c.utf8Size = 1)
    (hnm : n ≤ m) (hm : m ≤ 2 ^ 48) :
    ∃ (k : Nat) (g' : Rand), n ≤ k ∧ k ≤ m ∧
      RandomRepeat [c] (n : Int) (m : Int) g = .ok (List.replicate k c, g') := by
  obtain ⟨k, g', hk1, hk2, hk⟩ := RandomInt_range n m g hnm (by omega) (by omega)
  refine ⟨k, g', hk1, hk2, ?_⟩
  have h0 : ¬ ((k : Int) < 0) := by omega
  have hb : ¬ (maxInt < ((byteLen [c] : Nat) : Int) * (k : Int)) := by
    simp only [byteLen, List.map_cons, List.map_nil, List.sum_cons, List.sum_nil, hc, maxInt]
    omega
  have ha : ¬ (maxAlloc < ((byteLen [c] : Nat) : Int) * (k : Int)) := by
    simp only [byteLen, List.map_cons, List.map_nil, List.sum_cons, List.sum_nil, hc, maxAlloc]
    omega
  simp only [RandomRepeat, hk, Repeat, h0, hb, ha, if_false, Int.toNat_ofNat,
    flatten_replicate_singleton]

theorem findAll_matchGroup_nil (r : Str) (h : '(' ∉ r) : findAll matchGroup 0 r = [] :=
  findAll_eq_nil matchGroup '(' matchGroup_none r h 0

theorem findAll_matchClass_nil (r : Str) (h : '[' ∉ r) : findAll matchClass 0 r = [] :=
  findAll_eq_nil matchClass '[' matchClass_none r h 0

theorem findAll_matchAtomQuant_nil (r : Str) (h : '{' ∉ r) : findAll matchAtomQuant 0 r = [] :=
  findAll_eq_nil matchAtomQuant '{' matchAtomQuant_none r h 0

theorem findAll_matchBracketQuant_nil_of_open (o c : Char) (r : Str) (h : o ∉ r) :
    findAll (matchBracketQuant o c) 0 r = [] :=
  findAll_eq_nil _ o (matchBracketQuant_none_of_open o c) r h 0

theorem findAll_matchBracketQuant_nil_of_brace (o c : Char) (r : Str) (h : '{' ∉ r) :
    findAll (matchBracketQuant o c) 0 r = [] :=
  findAll_eq_nil _ '{' (matchBracketQuant_none_of_brace o c) r h 0

theorem replaceAll_matchBraceNum_self (f : Submatch → Str) (r : Str) (h : '{' ∉ r) :
    replaceAll matchBraceNum f 0 r = r :=
  replaceAll_eq_self _ f '{' matchBraceNum_none r h

theorem replaceAll_matchLit_self (x : Char) (f : Submatch → Str) (r : Str) (h : x ∉ r) :
    replaceAll (matchLit x) f 0 r = r :=
  replaceAll_eq_self _ f x (matchLit_none x) r h

/-- The passes of `Regexify` behind the quantifier loops leave a text without `(`, `[`
and backslash unchanged and read no draw. -/
theorem tail_passes_self (r : Str) (g : Rand) (h1 : '(' ∉ r) (h2 : '[' ∉ r) (h3 : '\\' ∉ r) :
    ((altLoop (findAll matchGroup 0 r) r g).andThen fun res g =>
      (rangeLoop (findAll matchClass 0 res) res g).andThen fun res g =>
      (classLoop (findAll matchClass 0 res) res g).andThen fun res g =>
      (replaceEscD aryDigits res g).andThen fun res g =>
      replaceEscD aryLetters res g) = .ok (r, g) := by
  simp only [findAll_matchGroup_nil r h1, altLoop, Res.andThen, findAll_matchClass_nil r h2,
    rangeLoop, classLoop, replaceEscD_eq_self _ r h3]

theorem alnum_facts : ∀ c ∈ DigitsAndLetters,
    c.utf8Size = 1 ∧ c ≠ '/' ∧ c ≠ '^' ∧ c ≠ '$' ∧ c ≠ '{' ∧ c ≠ '}' ∧ c ≠ ',' ∧ c ≠ '?' ∧
    c ≠ '[' ∧ c ≠ '(' ∧ c ≠ '\\' ∧ c ≠ '\n' := by
  decide

theorem Regexify_atom_quant_core (c : Char) (a b : Str) (g : Rand)
    (hc : c ∈ DigitsAndLetters) (ha : a ≠ []) (hb : b ≠ [])
    (had : ∀ d ∈ a, isDigit d = true) (hbd : ∀ d ∈ b, isDigit d = true)
    (hnm : parseNat a ≤ parseNat b) (hm : parseNat b ≤ 2 ^ 48) :
    ∃ (k : Nat) (g' : Rand), parseNat a ≤ k ∧ k ≤ parseNat b ∧
      Regexify (c :: quantText a b) g = .ok (List.replicate k c, g') := by
  obtain ⟨hsz, c1, c2, c3, c4, c5, c6, c7, c8, c9, c10, c11⟩ := alnum_facts c hc
  obtain ⟨k, g', hk1, hk2, hk⟩ := RandomRepeat_char c _ _ g hsz hnm hm
  refine ⟨k, g', hk1, hk2, ?_⟩
  have nm : ∀ x : Char, isDigit x = false → x ≠ c → x ≠ '{' → x ≠ ',' → x ≠ '}' →
      x ∉ c :: quantText a b := by
    intro x hx h1 h2 h3 h4
    have xa := not_mem_of_forall_isDigit x a had hx
    have xb := not_mem_of_forall_isDigit x b hbd hx
    simp [quantText, h1, h2, h3, h4, xa, xb]
  have s1 : stripLead (c :: quantText a b) = c :: quantText a b :=
    stripLead_eq_self _ (by simp [c1]) (by simp [c2])
  have s2 : stripTrail (c :: quantText a b) = c :: quantText a b := by
    have e : c :: quantText a b = (c :: '{' :: (a ++ ',' :: b)) ++ ['}'] := by
      simp [quantText]
    rw [e]
    exact stripTrail_append_singleton _ _ (by decide) (by decide)
  have hbrace : '{' ∉ a ++ ',' :: (b ++ ['}']) := by
    have xa := not_mem_of_forall_isDigit '{' a had (by decide)
    have xb := not_mem_of_forall_isDigit '{' b hbd (by decide)
    simp [xa, xb]
  have s3 : ∀ f, replaceAll matchBraceNum f 0 (c :: quantText a b) = c :: quantText a b := by
    intro f
    have hn1 : matchBraceNum (c :: quantText a b) = none := by
      unfold matchBraceNum
      split
      · rename_i heq; simp at heq; exact absurd heq.1 c4
      · rfl
    have hn2 := matchBraceNum_quantText a b [] ha had
    have e : quantText a b = '{' :: (a ++ ',' :: (b ++ ['}'])) := by simp [quantText]
    rw [List.append_nil] at hn2
    rw [e] at hn1 hn2 ⊢
    simp only [replaceAll, hn1, hn2, replaceAll_matchBraceNum_self _ _ hbrace]
  have s4 : ∀ f, replaceAll (matchLit '?') f 0 (c :: quantText a b) = c :: quantText a b :=
    fun f => replaceAll_matchLit_self '?' f _
      (nm '?' (by decide) (Ne.symm c7) (by decide) (by decide) (by decide))
  have s5 : findAll (matchBracketQuant '[' ']') 0 (c :: quantText a b) = [] :=
    findAll_matchBracketQuant_nil_of_open _ _ _
      (nm '[' (by decide) (Ne.symm c8) (by decide) (by decide) (by decide))
  have s6 : findAll (matchBracketQuant '(' ')') 0 (c :: quantText a b) = [] :=
    findAll_matchBracketQuant_nil_of_open _ _ _
      (nm '(' (by decide) (Ne.symm c9) (by decide) (by decide) (by decide))
  have s7 : findAll matchAtomQuant 0 (c :: quantText a b)
      = [[c :: quantText a b, [c], a, b]] := by
    have hq := matchQuant_quantText a b [] ha hb had hbd
    rw [List.append_nil] at hq
    have hesc : matchEscAtomQuant (c :: quantText a b) = none := by
      unfold matchEscAtomQuant
      split
      · rename_i heq; simp at heq; exact absurd heq.1 c10
      · rfl
    have hm : matchAtomQuant (c :: quantText a b) = some [c :: quantText a b, [c], a, b] := by
      simp [matchAtomQuant, hesc, matchPlainAtomQuant, c11, hq]
    simp only [findAll, hm, Submatch.group, List.getD_cons_zero, List.length_cons,
      Nat.add_sub_cancel]
    rw [findAll_of_length_le _ _ _ (le_refl _)]
  have hrep1 : '(' ∉ List.replicate k c := by
    intro h; exact c9 (List.eq_of_mem_replicate h).symm
  have hrep2 : '[' ∉ List.replicate k c := by
    intro h; exact c8 (List.eq_of_mem_replicate h).symm
  have hrep3 : '\\' ∉ List.replicate k c := by
    intro h; exact c10 (List.eq_of_mem_replicate h).symm
  have at1 := Atoi_of_digits_lt a ha had (by omega)
  have at2 := Atoi_of_digits_lt b hb hbd (by omega)
  simp only [Regexify, s1, s2, s3, s4, s5, s6, s7, quantLoop, Res.andThen, Submatch.group,
    List.getD_cons_zero, List.getD_cons_succ, at1, at2, hk, replaceFirst_self]
  exact tail_passes_self _ g' hrep1 hrep2 hrep3

theorem digitChar_facts (k : Nat) (h : k < 10) :
    isDigit (Nat.digitChar k) = true ∧ (Nat.digitChar k).toNat - 48 = k := by
  interval_cases k <;> decide

theorem parseNat_append_singleton (pre : Str) (d : Char) :
    parseNat (pre ++ [d]) = 10 * parseNat pre + (d.toNat - 48) := by
  simp [parseNat, List.foldl_append]

theorem toDigitsCore_spec (fuel : Nat) : ∀ (n : Nat) (ds : Str), n < fuel →
    ∃ pre : Str, Nat.toDigitsCore 10 fuel n ds = pre ++ ds ∧ pre ≠ [] ∧
      (∀ d ∈ pre, isDigit d = true) ∧ parseNat pre = n := by
  induction fuel with
  | zero => intro n ds h; omega
  | succ fuel ih =>
    intro n ds h
    obtain ⟨hd1, hd2⟩ := digitChar_facts (n % 10) (Nat.mod_lt _ (by decide))
    by_cases h0 : n / 10 = 0
    · refine ⟨[Nat.digitChar (n % 10)], by simp [Nat.toDigitsCore, h0], by simp, ?_, ?_⟩
      · intro d hd; simp at hd; rw [hd]; exact hd1
      · have := parseNat_append_singleton [] (Nat.digitChar (n % 10))
        simp only [List.nil_append] at this
        rw [this, hd2]
        simp [parseNat]; omega
    · have hlt : n / 10 < fuel := by omega
      obtain ⟨pre, hpre, hne, hdig, hval⟩ := ih (n / 10) (Nat.digitChar (n % 10) :: ds) hlt
      refine ⟨pre ++ [Nat.digitChar (n % 10)], by simp [Nat.toDigitsCore, h0, hpre], by simp,
        ?_, ?_⟩
      · intro d hd
        simp only [List.mem_append, List.mem_singleton] at hd
        rcases hd with hd | hd
        · exact hdig d hd
        · rw [hd]; exact hd1
      · rw [parseNat_append_singleton, hval, hd2]; omega

theorem toDigits_spec (n : Nat) :
    Nat.toDigits 10 n ≠ [] ∧ (∀ d ∈ Nat.toDigits 10 n, isDigit d = true) ∧
      parseNat (Nat.toDigits 10 n) = n := by
  obtain ⟨pre, hpre, hne, hdig, hval⟩ := toDigitsCore_spec (n + 1) n [] (Nat.lt_succ_self n)
  rw [List.append_nil] at hpre
  unfold Nat.toDigits
  rw [hpre]
  exact ⟨hne, hdig, hval⟩

/-- C7 (as amended): for every ASCII letter or digit `c`, all bounds `n ≤ m` with `m` at
most `maxAlloc`, the largest length that `strings.Repeat` can allocate, and every stream
of draws, `Regexify` of `c{n,m}` returns `c` repeated `k` times for some `n ≤ k ≤ m`. -/
theorem Regexify_atom_quant (c : Char) (n m : Nat) (g : Rand)
    (hc : c ∈ DigitsAndLetters) (hnm : n ≤ m) (hm : (m : Int) ≤ maxAlloc) :
    ∃ (k : Nat) (g' : Rand), n ≤ k ∧ k ≤ m ∧
      Regexify (c :: (['{'] ++ Nat.toDigits 10 n ++ [','] ++ Nat.toDigits 10 m ++ ['}'])) g
        = .ok (List.replicate k c, g') := by
  obtain ⟨a1, a2, a3⟩ := toDigits_spec n
  obtain ⟨b1, b2, b3⟩ := toDigits_spec m
  have hm' : m ≤ 2 ^ 48 := by unfold maxAlloc at hm; omega
  have := Regexify_atom_quant_core c (Nat.toDigits 10 n) (Nat.toDigits 10 m) g hc a1 b1 a2 b2
    (by rw [a3, b3]; exact hnm) (by rw [b3]; exact hm')
  rw [a3, b3] at this
  exact this

/-- Witness of C7 at `A{2,2}`. -/
theorem Regexify_atom_quant_witness :
    ∃ (k : Nat) (g' : Rand), 2 ≤ k ∧ k ≤ 2 ∧
      Regexify ('A' :: (['{'] ++ Nat.toDigits 10 2 ++ [','] ++ Nat.toDigits 10 2 ++ ['}']))
        (fun _ => 0) = .ok (List.replicate k 'A', g') :=
  Regexify_atom_quant 'A' 2 2 (fun _ => 0) (by decide) (by decide) (by decide)

/-- C7 (as stated) fails: for the bounds `n = m = 281474976710657`, one above `maxAlloc`,
the count is read and chosen as written, and `strings.Repeat` panics in the allocation
of a result of that length, so `Regexify` returns no string. -/
theorem Regexify_atom_quant_too_long :
    (281474976710657 : Int) = maxAlloc + 1 ∧
    (Regexify "A{281474976710657,281474976710657}".toList (fun _ => 0)).val
      = .error .makesliceLen := by
  decide

theorem findAll_cons_some (m : Str → Option Submatch) (c : Char) (t : Str) (sm : Submatch)
    (h : m (c :: t) = some sm) :
    findAll m 0 (c :: t) = sm :: findAll m ((sm.group 0).length - 1) t := by
  simp [findAll, h]

theorem findAll_cons_none (m : Str → Option Submatch) (c : Char) (t : Str)
    (h : m (c :: t) = none) : findAll m 0 (c :: t) = findAll m 0 t := by
  simp [findAll, h]

theorem findAll_skip (m : Str → Option Submatch) (k : Nat) (c : Char) (t : Str) :
    findAll m (k + 1) (c :: t) = findAll m k t := rfl

theorem matchClass_cons3 (c : Char) (rest : Str) (hc : c ≠ ']') :
    matchClass ('[' :: c :: ']' :: rest) = some [['[', c, ']'], [c]] := by
  have h : (c != ']') = true := by simp [hc]
  simp [matchClass, matchBracket, List.span, List.span.loop, h]

theorem matchClass_range (lo hi : Char) (rest : Str) (h1 : lo ≠ ']') (h2 : hi ≠ ']') :
    matchClass ('[' :: lo :: '-' :: hi :: ']' :: rest)
      = some [['[', lo, '-', hi, ']'], [lo, '-', hi]] := by
  have h1' : (lo != ']') = true := by simp [h1]
  have h2' : (hi != ']') = true := by simp [h2]
  simp [matchClass, matchBracket, List.span, List.span.loop, h1', h2']

theorem findAll_repeatClass (lo hi : Char) (post : Str) (h1 : lo ≠ ']') (h2 : hi ≠ ']') :
    ∀ n, findAll matchClass 0 (repeatClass lo hi n ++ post)
      = List.replicate n [['[', lo, '-', hi, ']'], [lo, '-', hi]] ++ findAll matchClass 0 post := by
  intro n
  induction n with
  | zero => simp [repeatClass]
  | succ n ih =>
    simp only [repeatClass, List.cons_append]
    rw [findAll_cons_some _ _ _ _ (matchClass_range lo hi _ h1 h2)]
    simp only [Submatch.group, List.getD_cons_zero, List.length_cons, List.length_nil,
      Nat.add_sub_cancel, Nat.zero_add, findAll_skip, ih, List.replicate_succ,
      List.cons_append]

theorem findAll_bracketed (post : Str) : ∀ cs : Str, (∀ c ∈ cs, c ≠ ']') →
    findAll matchClass 0 (bracketed cs ++ post)
      = cs.map (fun d => [['[', d, ']'], [d]]) ++ findAll matchClass 0 post := by
  intro cs
  induction cs with
  | nil => intro _; simp [bracketed]
  | cons c t ih =>
    intro h
    have hc : c ≠ ']' := h c (by simp)
    have ht := ih (fun d hd => h d (List.mem_cons_of_mem _ hd))
    simp only [bracketed, List.cons_append]
    rw [findAll_cons_some _ _ _ _ (matchClass_cons3 c _ hc)]
    simp only [Submatch.group, List.getD_cons_zero, List.length_cons, List.length_nil,
      Nat.add_sub_cancel, Nat.zero_add, findAll_skip, ht, List.map_cons, List.cons_append]

theorem RandomChoice_singleton (s : Str) (g : Rand) :
    RandomChoice [s] g = .ok (s, g.tail) := by
  rw [RandomChoice_eq _ _ (by simp)]
  simp [Nat.mod_one]

theorem classLoop_bracketed (post : Str) : ∀ (cs pre : Str) (g : Rand), '[' ∉ pre →
    (∀ c ∈ cs, c ≠ '[') →
    classLoop (cs.map fun d => [['[', d, ']'], [d]]) (pre ++ (bracketed cs ++ post)) g
      = .ok (pre ++ (cs ++ post), Rand.drop cs.length g) := by
  intro cs
  induction cs with
  | nil => intro pre g _ _; simp [classLoop, bracketed, Rand.drop]
  | cons c t ih =>
    intro pre g hpre hcs
    have hc : c ≠ '[' := hcs c (by simp)
    have hr := replaceFirst_append_of_not_mem '[' [c, ']'] [c] pre (bracketed t ++ post) hpre
    have hpre' : '[' ∉ pre ++ [c] := by
      simp only [List.mem_append, List.mem_singleton, not_or]
      exact ⟨hpre, Ne.symm hc⟩
    have := ih (pre ++ [c]) g.tail hpre' (fun d hd => hcs d (List.mem_cons_of_mem _ hd))
    simp only [List.append_assoc, List.singleton_append, List.cons_append,
      List.nil_append] at this hr
    simp only [List.map_cons, classLoop, Submatch.group, List.getD_cons_zero,
      List.getD_cons_succ, splitChars, List.map_nil, RandomChoice_singleton, Res.andThen,
      bracketed, List.cons_append, hr, this, List.length_cons, Rand.drop]

theorem rangeLoop_repeatClass (lo hi : Char) (base size : Nat) (post : Str)
    (hlo : lo ≠ '-')
    (hstep : ∀ g, rangeInner (findAll matchRange 0 [lo, '-', hi]) [lo, '-', hi] g
      = .ok ([Char.ofNat (base + g 0 % size)], g.tail))
    (hout : ∀ k, Char.ofNat (base + k % size) ≠ '-') :
    ∀ (n : Nat) (pre : Str) (g : Rand), '-' ∉ pre →
    rangeLoop (List.replicate n [['[', lo, '-', hi, ']'], [lo, '-', hi]])
        (pre ++ (repeatClass lo hi n ++ post)) g
      = .ok (pre ++ (bracketed (drawChars base size n g) ++ post), Rand.drop n g) := by
  intro n
  induction n with
  | zero => intro pre g _; simp [rangeLoop, repeatClass, bracketed, drawChars, Rand.drop]
  | succ n ih =>
    intro pre g hpre
    have hpre1 : '-' ∉ pre ++ ['['] := by
      simp only [List.mem_append, List.mem_singleton, not_or]
      exact ⟨hpre, by decide⟩
    have hr := replaceFirst_unique '-' [lo] [hi] [Char.ofNat (base + g 0 % size)]
      (pre ++ ['[']) (']' :: (repeatClass lo hi n ++ post)) hpre1
      (by simp only [List.mem_singleton]; exact Ne.symm hlo)
    have hpre2 : '-' ∉ pre ++ ['[', Char.ofNat (base + g 0 % size), ']'] := by
      simp only [List.mem_append, List.mem_cons, List.mem_singleton, not_or]
      exact ⟨hpre, by decide, Ne.symm (hout _), by decide, List.not_mem_nil _⟩
    have := ih (pre ++ ['[', Char.ofNat (base + g 0 % size), ']']) g.tail hpre2
    simp only [List.append_assoc, List.singleton_append, List.cons_append,
      List.nil_append] at this hr
    simp only [List.replicate_succ, rangeLoop, Submatch.group, List.getD_cons_zero,
      List.getD_cons_succ, hstep, Res.andThen, repeatClass, List.cons_append, hr, this,
      drawChars, bracketed, Rand.drop]
theorem RandomInt_eq_of_lt (n m : Nat) (g : Rand) (hnm : n < m) (hm : m < 2 ^ 63)
    (hr : m - n + 1 < 2 ^ 63) :
    RandomInt (n : Int) (m : Int) g = .ok (((n + g 0 % (m - n + 1) : Nat) : Int), g.tail) := by
  have h1 : ¬ ((m : Int) ≤ (n : Int)) := by omega
  have hw : wrap64 ((m : Int) - (n : Int) + 1) = ((m - n + 1 : Nat) : Int) := by
    rw [wrap64_eq_self] <;> omega
  have hpos : ¬ (((m - n + 1 : Nat) : Int) ≤ 0) := by omega
  have hmod : g 0 % (m - n + 1) < m - n + 1 := Nat.mod_lt _ (by omega)
  simp only [RandomInt, h1, if_false, hw, Intn, hpos, Int.toNat_ofNat]
  rw [wrap64_eq_self] <;> first | rfl | omega

theorem runeStr_of_lt (k : Nat) (h : k < 0xd800) : runeStr (k : Int) = [Char.ofNat k] := by
  have : k.isValidChar := Or.inl h
  simp [runeStr, this]

theorem rangeInner_digits (g : Rand) :
    rangeInner (findAll matchRange 0 ['0', '-', '9']) ['0', '-', '9'] g
      = .ok ([Char.ofNat (48 + g 0 % 10)], g.tail) := by
  have hf : findAll matchRange 0 ['0', '-', '9'] = [[['0', '-', '9'], ['0', '-', '9']]] := by
    decide
  have hs : splitOnChar '-' ['0', '-', '9'] = [['0'], ['9']] := by decide
  have e0 : (('0' : Char).toNat : Int) = ((48 : Nat) : Int) := by decide
  have e9 : (('9' : Char).toNat : Int) = ((57 : Nat) : Int) := by decide
  have hlt : 48 + g 0 % 10 < 0xd800 := by
    have := Nat.mod_lt (g 0) (show 0 < 10 by decide); omega
  simp only [hf, rangeInner, Submatch.group, List.getD_cons_zero, List.getD_cons_succ, hs,
    e0, e9, RandomInt_eq_of_lt 48 57 g (by decide) (by decide) (by decide), Res.andThen,
    runeStr_of_lt _ hlt, replaceFirst_self]

theorem drawChars_length (base size : Nat) : ∀ (n : Nat) (g : Rand),
    (drawChars base size n g).length = n := by
  intro n
  induction n with
  | zero => intro _; rfl
  | succ n ih => intro g; simp [drawChars, ih]

theorem drawChars_mem (base size : Nat) (p : Char → Prop)
    (hp : ∀ k, p (Char.ofNat (base + k % size))) : ∀ (n : Nat) (g : Rand),
    ∀ c ∈ drawChars base size n g, p c := by
  intro n
  induction n with
  | zero => intro _ c hc; simp [drawChars] at hc
  | succ n ih =>
    intro g c hc
    simp only [drawChars, List.mem_cons] at hc
    rcases hc with hc | hc
    · rw [hc]; exact hp _
    · exact ih g.tail c hc

theorem digit_char_facts (k : Nat) :
    Char.ofNat (48 + k % 10) ∈ Digits ∧ Char.ofNat (48 + k % 10) ≠ '-' ∧
    Char.ofNat (48 + k % 10) ≠ '[' ∧ Char.ofNat (48 + k % 10) ≠ ']' ∧
    Char.ofNat (48 + k % 10) ≠ '\\' ∧ Char.ofNat (48 + k % 10) ≠ '(' := by
  have h : k % 10 < 10 := Nat.mod_lt _ (by decide)
  generalize k % 10 = j at h ⊢
  interval_cases j <;> decide

theorem repeatClass_eq_flatten (lo hi : Char) (n : Nat) :
    (List.replicate n ['[', lo, '-', hi, ']']).flatten = repeatClass lo hi n := by
  induction n with
  | zero => rfl
  | succ n ih => simp [List.replicate_succ, repeatClass, ih]

theorem not_mem_repeatClass (x lo hi : Char) (h1 : x ≠ '[') (h2 : x ≠ lo) (h3 : x ≠ '-')
    (h4 : x ≠ hi) (h5 : x ≠ ']') : ∀ n, x ∉ repeatClass lo hi n := by
  intro n
  induction n with
  | zero => simp [repeatClass]
  | succ n ih => simp [repeatClass, h1, h2, h3, h4, h5, ih]

theorem matchBraceNum_single (a rest : Str) (ha : a ≠ [])
    (had : ∀ d ∈ a, isDigit d = true) :
    matchBraceNum ('{' :: (a ++ '}' :: rest)) = some ['{' :: (a ++ ['}']), a] := by
  unfold matchBraceNum
  simp only
  rw [span_append_stop isDigit a '}' _ had (by decide)]
  cases a with
  | nil => exact absurd rfl ha
  | cons a0 a' => simp
theorem replaceAll_cons_none (m : Str → Option Submatch) (f : Submatch → Str) (c : Char)
    (t : Str) (h : m (c :: t) = none) :
    replaceAll m f 0 (c :: t) = c :: replaceAll m f 0 t := by
  simp [replaceAll, h]

theorem replaceAll_cons_some (m : Str → Option Submatch) (f : Submatch → Str) (c : Char)
    (t : Str) (sm : Submatch) (h : m (c :: t) = some sm) :
    replaceAll m f 0 (c :: t) = f sm ++ replaceAll m f ((sm.group 0).length - 1) t := by
  simp [replaceAll, h]

theorem Repeat_digitClass (n : Nat) (h : 5 * n ≤ 2 ^ 48) :
    Repeat ['[', '0', '-', '9', ']'] (n : Int) = .ok (repeatClass '0' '9' n) := by
  have h0 : ¬ ((n : Int) < 0) := by omega
  have hlen : byteLen ['[', '0', '-', '9', ']'] = 5 := by decide
  have hb : ¬ (maxInt < ((5 : Nat) : Int) * (n : Int)) := by
    unfold maxInt; omega
  have ha : ¬ (maxAlloc < ((5 : Nat) : Int) * (n : Int)) := by
    unfold maxAlloc; omega
  simp only [Repeat, h0, hlen, hb, ha, if_false, Int.toNat_ofNat, repeatClass_eq_flatten]

theorem RegexifyWithErr_ok (s r : Str) (g g' : Rand) (h : Regexify s g = .ok (r, g')) :
    RegexifyWithErr s g = .ok ((r, none), g') := by
  simp only [RegexifyWithErr, h, Res.andThen]

theorem Regexify_digit_class_core (a : Str) (g : Rand) (ha : a ≠ [])
    (had : ∀ d ∈ a, isDigit d = true) (hn : 5 * parseNat a ≤ 2 ^ 48) :
    Regexify ('[' :: '0' :: '-' :: '9' :: ']' :: '{' :: (a ++ ['}'])) g
      = .ok (drawChars 48 10 (parseNat a) g,
          Rand.drop (parseNat a) (Rand.drop (parseNat a) g)) := by
  have nma : ∀ x : Char, isDigit x = false → x ∉ a := fun x hx =>
    not_mem_of_forall_isDigit x a had hx
  have s1 : stripLead ('[' :: '0' :: '-' :: '9' :: ']' :: '{' :: (a ++ ['}']))
      = '[' :: '0' :: '-' :: '9' :: ']' :: '{' :: (a ++ ['}']) :=
    stripLead_eq_self _ (by simp) (by simp)
  have s2 : stripTrail ('[' :: '0' :: '-' :: '9' :: ']' :: '{' :: (a ++ ['}']))
      = '[' :: '0' :: '-' :: '9' :: ']' :: '{' :: (a ++ ['}']) := by
    have := stripTrail_append_singleton ('[' :: '0' :: '-' :: '9' :: ']' :: '{' :: a) '}'
      (by decide) (by decide)
    simpa using this
  have s3 : replaceAll matchBraceNum
      (fun sm => ['{'] ++ sm.group 1 ++ [','] ++ sm.group 1 ++ ['}']) 0
      ('[' :: '0' :: '-' :: '9' :: ']' :: '{' :: (a ++ ['}']))
      = '[' :: '0' :: '-' :: '9' :: ']' :: quantText a a := by
    rw [replaceAll_cons_none _ _ _ _ (by rfl), replaceAll_cons_none _ _ _ _ (by rfl),
      replaceAll_cons_none _ _ _ _ (by rfl), replaceAll_cons_none _ _ _ _ (by rfl),
      replaceAll_cons_none _ _ _ _ (by rfl),
      replaceAll_cons_some _ _ _ _ _ (matchBraceNum_single a [] ha had),
      replaceAll_of_length_le _ _ _ _ (by simp [Submatch.group])]
    simp [Submatch.group, quantText]
  have hq : '?' ∉ '[' :: '0' :: '-' :: '9' :: ']' :: quantText a a := by
    simp [quantText, nma '?' (by decide)]
  have s4 := replaceAll_matchLit_self '?' (fun _ => "{0,1}".toList) _ hq
  have hmq := matchQuant_quantText a a [] ha ha had had
  rw [List.append_nil] at hmq
  have s5 : findAll (matchBracketQuant '[' ']') 0
      ('[' :: '0' :: '-' :: '9' :: ']' :: quantText a a)
      = [['[' :: '0' :: '-' :: '9' :: ']' :: quantText a a, ['[', '0', '-', '9', ']'], a, a]] := by
    have hm : matchBracketQuant '[' ']' ('[' :: '0' :: '-' :: '9' :: ']' :: quantText a a)
        = some ['[' :: '0' :: '-' :: '9' :: ']' :: quantText a a,
            ['[', '0', '-', '9', ']'], a, a] := by
      have hb : matchBracket '[' ']' ('[' :: '0' :: '-' :: '9' :: ']' :: quantText a a)
          = some ['0', '-', '9'] := by
        simp [matchBracket, List.span, List.span.loop]
      simp [matchBracketQuant, hb, hmq]
    rw [findAll_cons_some _ _ _ _ hm, findAll_of_length_le _ _ _ (by simp [Submatch.group])]
  have at1 := Atoi_of_digits_lt a ha had (by omega)
  have hrr : RandomRepeat ['[', '0', '-', '9', ']'] (parseNat a : Int) (parseNat a : Int) g
      = .ok (repeatClass '0' '9' (parseNat a), g) := by
    simp [RandomRepeat, RandomInt, Repeat_digitClass _ hn]
  have r1 : '(' ∉ repeatClass '0' '9' (parseNat a) :=
    not_mem_repeatClass _ _ _ (by decide) (by decide) (by decide) (by decide) (by decide) _
  have r2 : '{' ∉ repeatClass '0' '9' (parseNat a) :=
    not_mem_repeatClass _ _ _ (by decide) (by decide) (by decide) (by decide) (by decide) _
  have s6 := findAll_matchBracketQuant_nil_of_open '(' ')' _ r1
  have s7 := findAll_matchAtomQuant_nil _ r2
  have s8 := findAll_matchGroup_nil _ r1
  have s9 : findAll matchClass 0 (repeatClass '0' '9' (parseNat a))
      = List.replicate (parseNat a) [['[', '0', '-', '9', ']'], ['0', '-', '9']] := by
    have := findAll_repeatClass '0' '9' [] (by decide) (by decide) (parseNat a)
    simpa [findAll] using this
  have s10 : rangeLoop (List.replicate (parseNat a) [['[', '0', '-', '9', ']'], ['0', '-', '9']])
      (repeatClass '0' '9' (parseNat a)) g
      = .ok (bracketed (drawChars 48 10 (parseNat a) g), Rand.drop (parseNat a) g) := by
    have := rangeLoop_repeatClass '0' '9' 48 10 [] (by decide) rangeInner_digits
      (fun k => (digit_char_facts k).2.1) (parseNat a) [] g (by simp)
    simpa using this
  have hd := drawChars_mem 48 10
    (fun c => c ≠ '[' ∧ c ≠ ']' ∧ c ≠ '\\')
    (fun k => ⟨(digit_char_facts k).2.2.1, (digit_char_facts k).2.2.2.1,
      (digit_char_facts k).2.2.2.2.1⟩) (parseNat a) g
  have s11 : findAll matchClass 0 (bracketed (drawChars 48 10 (parseNat a) g))
      = (drawChars 48 10 (parseNat a) g).map (fun d => [['[', d, ']'], [d]]) := by
    have := findAll_bracketed [] (drawChars 48 10 (parseNat a) g) (fun c hc => (hd c hc).2.1)
    simpa [findAll] using this
  have s12 : classLoop ((drawChars 48 10 (parseNat a) g).map (fun d => [['[', d, ']'], [d]]))
      (bracketed (drawChars 48 10 (parseNat a) g)) (Rand.drop (parseNat a) g)
      = .ok (drawChars 48 10 (parseNat a) g,
          Rand.drop (parseNat a) (Rand.drop (parseNat a) g)) := by
    have := classLoop_bracketed [] (drawChars 48 10 (parseNat a) g) []
      (Rand.drop (parseNat a) g) (by simp) (fun c hc => (hd c hc).1)
    simpa [drawChars_length] using this
  have s13 : '\\' ∉ drawChars 48 10 (parseNat a) g := fun h => (hd _ h).2.2 rfl
  simp only [Regexify, s1, s2, s3, s4, s5]
  simp only [quantLoop, Res.andThen, Submatch.group,
    List.getD_cons_zero, List.getD_cons_succ, at1, hrr, replaceFirst_self, s6, s7, s8, altLoop,
    s9, s10, s11, s12, replaceEscD_eq_self _ _ s13]

/-- C5 (as amended): for every `n` such that the `5 * n` bytes of the class text `[0-9]`
written `n` times are at most `maxAlloc`, the largest length that `strings.Repeat` can
allocate, and for every stream of draws, `Regexify` of `[0-9]{n}` returns no error and a
string of exactly `n` characters, each a decimal digit. -/
theorem Regexify_digit_class (n : Nat) (g : Rand) (hn : 5 * (n : Int) ≤ maxAlloc) :
    ∃ (r : Str) (g' : Rand),
      RegexifyWithErr (['[', '0', '-', '9', ']', '{'] ++ Nat.toDigits 10 n ++ ['}']) g
        = .ok ((r, none), g') ∧
      r.length = n ∧ ∀ d ∈ r, d ∈ Digits := by
  obtain ⟨a1, a2, a3⟩ := toDigits_spec n
  have hn' : 5 * n ≤ 2 ^ 48 := by unfold maxAlloc at hn; omega
  have h := Regexify_digit_class_core (Nat.toDigits 10 n) g a1 a2 (by rw [a3]; exact hn')
  rw [a3] at h
  refine ⟨drawChars 48 10 n g, Rand.drop n (Rand.drop n g), ?_,
    drawChars_length 48 10 n g, ?_⟩
  · have e : ['[', '0', '-', '9', ']', '{'] ++ Nat.toDigits 10 n ++ ['}']
        = '[' :: '0' :: '-' :: '9' :: ']' :: '{' :: (Nat.toDigits 10 n ++ ['}']) := by
      rfl
    rw [e]; exact RegexifyWithErr_ok _ _ _ _ h
  · exact drawChars_mem 48 10 (fun c => c ∈ Digits) (fun k => (digit_char_facts k).1) n g

/-- Witness of C5 at `[0-9]{3}`. -/
theorem Regexify_digit_class_witness :
    ∃ (r : Str) (g' : Rand),
      RegexifyWithErr (['[', '0', '-', '9', ']', '{'] ++ Nat.toDigits 10 3 ++ ['}']) (fun _ => 0)
        = .ok ((r, none), g') ∧
      r.length = 3 ∧ ∀ d ∈ r, d ∈ Digits :=
  Regexify_digit_class 3 (fun _ => 0) (by decide)

/-- C5 (as stated) fails: for `n = 56294995342132`, the least `n` with `5 * n` above
`maxAlloc`, `strings.Repeat` panics in the allocation of the class text written `n`
times; `Regexify` returns neither a string nor an error. -/
theorem Regexify_digit_class_too_long :
    maxAlloc < 5 * (56294995342132 : Int) ∧
    (RegexifyWithErr (['[', '0', '-', '9', ']', '{'] ++ Nat.toDigits 10 56294995342132 ++ ['}'])
      (fun _ => 0)).val = .error .makesliceLen := by
  decide

theorem mem_intercalate (sep : Str) : ∀ (ls : List Str) (c : Char),
    c ∈ sep.intercalate ls → c ∈ sep ∨ ∃ l ∈ ls, c ∈ l := by
  intro ls
  induction ls with
  | nil => intro c h; simp [List.intercalate] at h
  | cons a t ih =>
    intro c h
    cases t with
    | nil =>
      simp [List.intercalate] at h
      exact Or.inr ⟨a, by simp, h⟩
    | cons b t =>
      have e : sep.intercalate (a :: b :: t) = a ++ (sep ++ sep.intercalate (b :: t)) := by
        simp [List.intercalate]
      rw [e] at h
      simp only [List.mem_append] at h
      rcases h with h | h | h
      · exact Or.inr ⟨a, by simp, h⟩
      · exact Or.inl h
      · rcases ih c h with h' | ⟨l, hl, hc⟩
        · exact Or.inl h'
        · exact Or.inr ⟨l, List.mem_cons_of_mem _ hl, hc⟩

theorem letter_facts : ∀ c ∈ Letters,
    c ≠ '/' ∧ c ≠ '^' ∧ c ≠ '$' ∧ c ≠ '{' ∧ c ≠ '?' ∧ c ≠ '[' ∧ c ≠ '(' ∧ c ≠ ')' ∧
    c ≠ '\\' ∧ c ≠ '\n' ∧ c ≠ '|' := by
  decide

theorem RandomChoice_mem (ss : List Str) (g : Rand) (h : ss ≠ []) :
    ∃ r, r ∈ ss ∧ RandomChoice ss g = .ok (r, g.tail) := by
  have hl : 0 < ss.length := List.length_pos.mpr h
  have hlt : g 0 % ss.length < ss.length := Nat.mod_lt _ hl
  refine ⟨ss[g 0 % ss.length], List.getElem_mem _, ?_⟩
  rw [RandomChoice_eq ss g h, List.getD_eq_getElem?_getD, List.getElem?_eq_getElem hlt]
  rfl

theorem matchGroup_closed (body rest : Str)
    (hb : ∀ c ∈ body, c ≠ ')' ∧ c ≠ '\n') :
    matchGroup ('(' :: (body ++ ')' :: rest)) = some [['('] ++ body ++ [')'], body] := by
  unfold matchGroup
  simp only
  rw [span_append_stop _ body ')' rest (by intro c hc; simp [(hb c hc).1, (hb c hc).2])
    (by decide)]
  rfl

/-- C6: for every non-empty list of alternatives, each a non-empty string of ASCII
letters, and every stream of draws, `Regexify` of `(a1|...|ak)` returns exactly one of
the alternatives. -/
theorem Regexify_alternation (alts : List Str) (g : Rand) (hne : alts ≠ [])
    (hl : ∀ a ∈ alts, a ≠ [] ∧ ∀ c ∈ a, c ∈ Letters) :
    ∃ (r : Str) (g' : Rand),
      Regexify ('(' :: (['|'].intercalate alts ++ [')'])) g = .ok (r, g') ∧ r ∈ alts := by
  have hbody : ∀ c ∈ ['|'].intercalate alts, c = '|' ∨ c ∈ Letters := by
    intro c hc
    rcases mem_intercalate _ _ c hc with h | ⟨l, hl', hcl⟩
    · exact Or.inl (by simpa using h)
    · exact Or.inr ((hl l hl').2 c hcl)
  have nm : ∀ x : Char, x ∉ Letters → x ≠ '|' → x ≠ '(' → x ≠ ')' →
      x ∉ '(' :: (['|'].intercalate alts ++ [')']) := by
    intro x h1 h2 h3 h4 hx
    simp only [List.mem_cons, List.mem_append, List.mem_singleton, List.not_mem_nil,
      or_false] at hx
    rcases hx with hx | hx | hx
    · exact h3 hx
    · rcases hbody x hx with h | h
      · exact h2 h
      · exact h1 h
    · exact h4 hx
  have s1 := stripLead_eq_self ('(' :: (['|'].intercalate alts ++ [')'])) (by simp) (by simp)
  have s2 : stripTrail ('(' :: (['|'].intercalate alts ++ [')']))
      = '(' :: (['|'].intercalate alts ++ [')']) := by
    have := stripTrail_append_singleton ('(' :: ['|'].intercalate alts) ')'
      (by decide) (by decide)
    simpa using this
  have hbrace := nm '{' (by decide) (by decide) (by decide) (by decide)
  have s3 := fun f => replaceAll_matchBraceNum_self f _ hbrace
  have s4 := fun f => replaceAll_matchLit_self '?' f _
    (nm '?' (by decide) (by decide) (by decide) (by decide))
  have s5 := findAll_matchBracketQuant_nil_of_open '[' ']' _
    (nm '[' (by decide) (by decide) (by decide) (by decide))
  have s6 := findAll_matchBracketQuant_nil_of_brace '(' ')' _ hbrace
  have s7 := findAll_matchAtomQuant_nil _ hbrace
  have s8 : findAll matchGroup 0 ('(' :: (['|'].intercalate alts ++ [')']))
      = [['(' :: (['|'].intercalate alts ++ [')']), ['|'].intercalate alts]] := by
    have hm := matchGroup_closed (['|'].intercalate alts) [] (by
      intro c hc
      rcases hbody c hc with h | h
      · subst h; decide
      · exact ⟨(letter_facts c h).2.2.2.2.2.2.2.1, (letter_facts c h).2.2.2.2.2.2.2.2.2.1⟩)
    rw [findAll_cons_some _ _ _ _ hm, findAll_of_length_le _ _ _ (by simp [Submatch.group])]
    simp
  have hsplit : splitOnChar '|' (['|'].intercalate alts) = alts :=
    List.splitOn_intercalate alts '|' (fun l hl' h => (letter_facts _ ((hl l hl').2 _ h)).2.2.2.2.2.2.2.2.2.2 rfl) hne
  obtain ⟨r, hr, hrc⟩ := RandomChoice_mem alts g hne
  have hrl : ∀ c ∈ r, c ∈ Letters := (hl r hr).2
  have t1 : '[' ∉ r := fun h => (letter_facts _ (hrl _ h)).2.2.2.2.2.1 rfl
  have t2 : '\\' ∉ r := fun h => (letter_facts _ (hrl _ h)).2.2.2.2.2.2.2.2.1 rfl
  refine ⟨r, g.tail, ?_, hr⟩
  simp only [Regexify, s1, s2, s3, s4, s5, s6, s7, s8, quantLoop, altLoop, Res.andThen,
    Submatch.group, List.getD_cons_zero, List.getD_cons_succ, hsplit, hrc, replaceFirst_self,
    findAll_matchClass_nil r t1, rangeLoop, classLoop, replaceEscD_eq_self _ r t2]

/-- Witness of C6 at `(cat|dog)`. -/
theorem Regexify_alternation_witness :
    ∃ (r : Str) (g' : Rand),
      Regexify ('(' :: (['|'].intercalate ["cat".toList, "dog".toList] ++ [')'])) (fun _ => 0)
        = .ok (r, g') ∧ r ∈ ["cat".toList, "dog".toList] :=
  Regexify_alternation ["cat".toList, "dog".toList] (fun _ => 0) (by decide) (by decide)

theorem upper_char_facts (k : Nat) :
    Char.ofNat (65 + k % 26) ∈ ULetters ∧ Char.ofNat (65 + k % 26) ≠ '-' ∧
    Char.ofNat (65 + k % 26) ≠ '[' ∧ Char.ofNat (65 + k % 26) ≠ ']' ∧
    Char.ofNat (65 + k % 26) ≠ '\\' ∧ Char.ofNat (65 + k % 26) ≠ '#' := by
  have h : k % 26 < 26 := Nat.mod_lt _ (by decide)
  generalize k % 26 = j at h ⊢
  interval_cases j <;> decide

theorem rangeInner_upper (g : Rand) :
    rangeInner (findAll matchRange 0 ['A', '-', 'Z']) ['A', '-', 'Z'] g
      = .ok ([Char.ofNat (65 + g 0 % 26)], g.tail) := by
  have hf : findAll matchRange 0 ['A', '-', 'Z'] = [[['A', '-', 'Z'], ['A', '-', 'Z']]] := by
    decide
  have hs : splitOnChar '-' ['A', '-', 'Z'] = [['A'], ['Z']] := by decide
  have e0 : (('A' : Char).toNat : Int) = ((65 : Nat) : Int) := by decide
  have e9 : (('Z' : Char).toNat : Int) = ((90 : Nat) : Int) := by decide
  have hlt : 65 + g 0 % 26 < 0xd800 := by
    have := Nat.mod_lt (g 0) (show 0 < 26 by decide); omega
  simp only [hf, rangeInner, Submatch.group, List.getD_cons_zero, List.getD_cons_succ, hs,
    e0, e9, RandomInt_eq_of_lt 65 90 g (by decide) (by decide) (by decide), Res.andThen,
    runeStr_of_lt _ hlt, replaceFirst_self]

/-- `Regexify` as the chain of its passes: when every pass returns, so does `Regexify`,
with the text left by the last pass. -/
theorem Regexify_steps (s r0 r1 r2 r3 r4 r5 r6 r7 r8 : Str) (g g1 g2 g3 g4 g5 g6 g7 g8 : Rand)
    (h0 : replaceAll (matchLit '?') (fun _ => "{0,1}".toList) 0
      (replaceAll matchBraceNum
        (fun sm => ['{'] ++ sm.group 1 ++ [','] ++ sm.group 1 ++ ['}']) 0
        (stripTrail (stripLead s))) = r0)
    (h1 : quantLoop (findAll (matchBracketQuant '[' ']') 0 r0) r0 g = .ok (r1, g1))
    (h2 : quantLoop (findAll (matchBracketQuant '(' ')') 0 r1) r1 g1 = .ok (r2, g2))
    (h3 : quantLoop (findAll matchAtomQuant 0 r2) r2 g2 = .ok (r3, g3))
    (h4 : altLoop (findAll matchGroup 0 r3) r3 g3 = .ok (r4, g4))
    (h5 : rangeLoop (findAll matchClass 0 r4) r4 g4 = .ok (r5, g5))
    (h6 : classLoop (findAll matchClass 0 r5) r5 g5 = .ok (r6, g6))
    (h7 : replaceEscD aryDigits r6 g6 = .ok (r7, g7))
    (h8 : replaceEscD aryLetters r7 g7 = .ok (r8, g8)) :
    Regexify s g = .ok (r8, g8) := by
  subst h0
  simp only [Regexify, h1, h2, h3, h4, h5, h6, h7, h8, Res.andThen]

theorem quantLoop_nil (res : Str) (g : Rand) : quantLoop [] res g = .ok (res, g) := rfl

theorem quantLoop_single (sm : Submatch) (res r : Str) (g g' : Rand)
    (h : RandomRepeat (sm.group 1) (Atoi (sm.group 2)) (Atoi (sm.group 3)) g = .ok (r, g')) :
    quantLoop [sm] res g = .ok (replaceFirst (sm.group 0) r res, g') := by
  simp only [quantLoop, h, Res.andThen]

theorem altLoop_nil (res : Str) (g : Rand) : altLoop [] res g = .ok (res, g) := rfl

theorem altLoop_single (sm : Submatch) (res r : Str) (g g' : Rand)
    (h : RandomChoice (splitOnChar '|' (sm.group 1)) g = .ok (r, g')) :
    altLoop [sm] res g = .ok (replaceFirst (sm.group 0) r res, g') := by
  simp only [altLoop, h, Res.andThen]

theorem rangeLoop_nil (res : Str) (g : Rand) : rangeLoop [] res g = .ok (res, g) := rfl

theorem classLoop_nil (res : Str) (g : Rand) : classLoop [] res g = .ok (res, g) := rfl

theorem Regexify_code_pattern (g : Rand) :
    Regexify ['/', '[', 'A', '-', 'Z', ']', '{', '2', '}', '#', '#', '#', '/'] g
      = .ok ([Char.ofNat (65 + g 0 % 26), Char.ofNat (65 + g 1 % 26), '#', '#', '#'],
          Rand.drop 2 (Rand.drop 2 g)) := by
  have hd := drawChars_mem 65 26
    (fun c => c ≠ '[' ∧ c ≠ ']' ∧ c ≠ '\\')
    (fun k => ⟨(upper_char_facts k).2.2.1, (upper_char_facts k).2.2.2.1,
      (upper_char_facts k).2.2.2.2.1⟩) 2 g
  have p13 : '\\' ∉ drawChars 65 26 2 g ++ ['#', '#', '#'] := by
    intro h
    simp only [List.mem_append] at h
    rcases h with h | h
    · exact (hd _ h).2.2 rfl
    · revert h; decide
  refine Regexify_steps _
    ['[', 'A', '-', 'Z', ']', '{', '2', ',', '2', '}', '#', '#', '#']
    (repeatClass 'A' 'Z' 2 ++ ['#', '#', '#']) (repeatClass 'A' 'Z' 2 ++ ['#', '#', '#'])
    (repeatClass 'A' 'Z' 2 ++ ['#', '#', '#']) (repeatClass 'A' 'Z' 2 ++ ['#', '#', '#'])
    (bracketed (drawChars 65 26 2 g) ++ ['#', '#', '#'])
    (drawChars 65 26 2 g ++ ['#', '#', '#']) (drawChars 65 26 2 g ++ ['#', '#', '#'])
    (drawChars 65 26 2 g ++ ['#', '#', '#'])
    g g g g g (Rand.drop 2 g) (Rand.drop 2 (Rand.drop 2 g)) (Rand.drop 2 (Rand.drop 2 g))
    (Rand.drop 2 (Rand.drop 2 g)) (by decide) ?_ ?_ ?_ ?_ ?_ ?_ ?_ ?_
  · have p2 : findAll (matchBracketQuant '[' ']') 0
        ['[', 'A', '-', 'Z', ']', '{', '2', ',', '2', '}', '#', '#', '#']
        = [[['[', 'A', '-', 'Z', ']', '{', '2', ',', '2', '}'], ['[', 'A', '-', 'Z', ']'],
            ['2'], ['2']]] := by decide
    have p4 : RandomRepeat ['[', 'A', '-', 'Z', ']'] (Atoi ['2']) (Atoi ['2']) g
        = .ok (repeatClass 'A' 'Z' 2, g) := by
      have h3 : Atoi ['2'] = 2 := by decide
      have : Repeat ['[', 'A', '-', 'Z', ']'] 2 = .ok (repeatClass 'A' 'Z' 2) := by decide
      simp only [h3, RandomRepeat, RandomInt, le_refl, if_true, this]
    have p5 : replaceFirst ['[', 'A', '-', 'Z', ']', '{', '2', ',', '2', '}']
        (repeatClass 'A' 'Z' 2)
        ['[', 'A', '-', 'Z', ']', '{', '2', ',', '2', '}', '#', '#', '#']
        = repeatClass 'A' 'Z' 2 ++ ['#', '#', '#'] := by decide
    rw [p2]
    exact (quantLoop_single
      [['[', 'A', '-', 'Z', ']', '{', '2', ',', '2', '}'], ['[', 'A', '-', 'Z', ']'],
        ['2'], ['2']] _ _ _ _ p4).trans (by rw [← p5]; rfl)
  · have p6 : findAll (matchBracketQuant '(' ')') 0 (repeatClass 'A' 'Z' 2 ++ ['#', '#', '#'])
        = [] := by decide
    rw [p6]; rfl
  · have p7 : findAll matchAtomQuant 0 (repeatClass 'A' 'Z' 2 ++ ['#', '#', '#']) = [] := by
      decide
    rw [p7]; rfl
  · have p8 : findAll matchGroup 0 (repeatClass 'A' 'Z' 2 ++ ['#', '#', '#']) = [] := by
      decide
    rw [p8]; rfl
  · have p9 : findAll matchClass 0 (repeatClass 'A' 'Z' 2 ++ ['#', '#', '#'])
        = List.replicate 2 [['[', 'A', '-', 'Z', ']'], ['A', '-', 'Z']] := by decide
    rw [p9]
    exact rangeLoop_repeatClass 'A' 'Z' 65 26 ['#', '#', '#'] (by decide) rangeInner_upper
      (fun k => (upper_char_facts k).2.1) 2 [] g (by simp)
  · have := findAll_bracketed ['#', '#', '#'] (drawChars 65 26 2 g)
      (fun c hc => (hd c hc).2.1)
    have e : findAll matchClass 0 ['#', '#', '#'] = [] := by decide
    rw [this, e, List.append_nil]
    exact classLoop_bracketed ['#', '#', '#'] (drawChars 65 26 2 g) []
      (Rand.drop 2 g) (by simp) (fun c hc => (hd c hc).1)
  · exact replaceEscD_eq_self _ _ p13 _
  · exact replaceEscD_eq_self _ _ p13 _
/-- `Fetch` as the chain of its steps. -/
theorem Fetch_steps (active fallback : Locale) (fuel : Nat) (path : Str) (val : Value)
    (r0 res out : Str) (g g0 g1 g2 : Rand)
    (hval : valueAt active fallback path = .ok val)
    (hswitch : typeSwitch path val g = .ok (r0, g0))
    (href : refLoop (fun p g' => Fetch active fallback fuel p g') (findAll matchRef 0 r0) r0 g0
      = .ok (res, g1))
    (hfin : regexifyIfDelimited res g1 = .ok (out, g2)) :
    Fetch active fallback (fuel + 1) path g = .ok (out, g2) := by
  simp only [Fetch, hval, hswitch, href, hfin, Res.andThen]

theorem refLoop_nil (fetch : Str → Rand → Res Str) (res : Str) (g : Rand) :
    refLoop fetch [] res g = .ok (res, g) := rfl

theorem refLoop_single (fetch : Str → Rand → Res Str) (sm : Submatch) (res r : Str)
    (g g' : Rand) (h : fetch (sm.group 1) g = .ok (r, g')) :
    refLoop fetch [sm] res g = .ok (replaceFirst (sm.group 0) r res, g') := by
  simp only [refLoop, h, Res.andThen]

theorem regexifyIfDelimited_plain (res : Str) (g : Rand) (h : looksLikeRegex res = false) :
    regexifyIfDelimited res g = .ok (res, g) := by
  simp [regexifyIfDelimited, h]

theorem regexifyIfDelimited_regex (res out : Str) (g g' : Rand)
    (h : looksLikeRegex res = true) (hr : Regexify res g = .ok (out, g')) :
    regexifyIfDelimited res g = .ok (out, g') := by
  simp only [regexifyIfDelimited, h, if_true, RegexifyWithErr, hr, Res.andThen]

/-- A value that needs no expansion: a text without a match of the reference pattern
that does not both start and end with `/` is what `Fetch` returns for it. -/
theorem Fetch_plain (active fallback : Locale) (fuel : Nat) (path : Str) (val : Value)
    (r0 : Str) (g g0 : Rand)
    (hval : valueAt active fallback path = .ok val)
    (hswitch : typeSwitch path val g = .ok (r0, g0))
    (href : findAll matchRef 0 r0 = [])
    (hplain : looksLikeRegex r0 = false) :
    Fetch active fallback (fuel + 1) path g = .ok (r0, g0) :=
  Fetch_steps active fallback fuel path val r0 r0 r0 g g0 g0 g0 hval hswitch
    (by rw [href]; rfl) (regexifyIfDelimited_plain r0 g0 hplain)

/-- C9: for every path that resolves to a string leaf `v` in which the reference pattern
has no match and which does not both begin and end with `/`, `Fetch` returns exactly `v`
(and reads no draw). -/
theorem Fetch_plain_string (active fallback : Locale) (fuel : Nat) (path v : Str) (g : Rand)
    (hval : valueAt active fallback path = .ok (.str v))
    (href : findAll matchRef 0 v = [])
    (hplain : looksLikeRegex v = false) :
    Fetch active fallback (fuel + 1) path g = .ok (v, g) :=
  Fetch_plain active fallback fuel path (.str v) v g g hval rfl href hplain

/-- Witness of C9: the leaf `"Norge"` of a small store. -/
theorem Fetch_plain_string_witness :
    Fetch [("country".toList, .str "Norge".toList)] [] 1 "country".toList (fun _ => 0)
      = .ok ("Norge".toList, fun _ => 0) :=
  Fetch_plain_string [("country".toList, .str "Norge".toList)] [] 0 "country".toList
    "Norge".toList (fun _ => 0) (by rfl) (by decide) (by decide)

/-- C3: when the lookup of the path misses in the active locale and the fallback store
holds there a non-empty list of plain strings, `Fetch` does not fail and returns an
element of the fallback list. -/
theorem Fetch_fallback_list (active fallback : Locale) (fuel : Nat) (path : Str)
    (xs : List Str) (g : Rand)
    (hmiss : localeValueAt path active = .ok none)
    (hfb : localeValueAt path fallback = .ok (some (.list xs)))
    (hne : xs ≠ [])
    (hplain : ∀ e ∈ xs, findAll matchRef 0 e = [] ∧ looksLikeRegex e = false) :
    ∃ (e : Str) (g' : Rand), e ∈ xs ∧
      Fetch active fallback (fuel + 1) path g = .ok (e, g') := by
  obtain ⟨e, he, hc⟩ := RandomChoice_mem xs g hne
  have hval : valueAt active fallback path = .ok (.list xs) := by
    simp only [valueAt, hmiss, hfb]
  exact ⟨e, g.tail, he, Fetch_plain active fallback fuel path (.list xs) e g g.tail hval hc
    (hplain e he).1 (hplain e he).2⟩

/-- Witness of C3: a path absent from the empty active locale. -/
theorem Fetch_fallback_list_witness :
    ∃ (e : Str) (g' : Rand), e ∈ ["Ann".toList, "Bo".toList] ∧
      Fetch [] [("first".toList, .list ["Ann".toList, "Bo".toList])] 1 "first".toList
        (fun _ => 0) = .ok (e, g') :=
  Fetch_fallback_list [] [("first".toList, .list ["Ann".toList, "Bo".toList])] 0
    "first".toList ["Ann".toList, "Bo".toList] (fun _ => 0) (by rfl) (by rfl) (by decide)
    (by decide)
/-- C1 (as amended): for every store in which the path holds the string leaf
`/[A-Z]{2}###/` and every stream of draws, `Fetch` returns a string of exactly 5
characters: 2 uppercase ASCII letters followed by the 3 characters `###`, which are left
in place. -/
theorem Fetch_code_pattern (active fallback : Locale) (fuel : Nat) (path : Str) (g : Rand)
    (hval : valueAt active fallback path = .ok (.str "/[A-Z]{2}###/".toList)) :
    ∃ (a b : Char) (g' : Rand), a ∈ ULetters ∧ b ∈ ULetters ∧
      Fetch active fallback (fuel + 1) path g = .ok ([a, b, '#', '#', '#'], g') := by
  refine ⟨Char.ofNat (65 + g 0 % 26), Char.ofNat (65 + g 1 % 26), Rand.drop 2 (Rand.drop 2 g),
    (upper_char_facts _).1, (upper_char_facts _).1, ?_⟩
  have href : findAll matchRef 0
      ['/', '[', 'A', '-', 'Z', ']', '{', '2', '}', '#', '#', '#', '/'] = [] := by decide
  exact Fetch_steps active fallback fuel path _
    ['/', '[', 'A', '-', 'Z', ']', '{', '2', '}', '#', '#', '#', '/']
    ['/', '[', 'A', '-', 'Z', ']', '{', '2', '}', '#', '#', '#', '/'] _ g g g _ hval rfl
    (by rw [href]; rfl)
    (regexifyIfDelimited_regex _ _ _ _ (by decide) (Regexify_code_pattern g))

/-- Witness of C1 (as amended) on a store with the single entry `code`. -/
theorem Fetch_code_pattern_witness :
    ∃ (a b : Char) (g' : Rand), a ∈ ULetters ∧ b ∈ ULetters ∧
      Fetch [("code".toList, .str "/[A-Z]{2}###/".toList)] [] 1 "code".toList (fun _ => 0)
        = .ok ([a, b, '#', '#', '#'], g') :=
  Fetch_code_pattern [("code".toList, .str "/[A-Z]{2}###/".toList)] [] 0 "code".toList
    (fun _ => 0) (by rfl)

/-- C1 (as stated) fails: on the leaf `/[A-Z]{2}###/` the result ends in `###`, not in
three decimal digits; with all draws `0` the result is `AA###`. -/
theorem Fetch_code_pattern_no_digits :
    (Fetch [("code".toList, .str "/[A-Z]{2}###/".toList)] [] 1 "code".toList
      (fun _ => 0)).val = .ok "AA###".toList := by
  decide

theorem looksLikeRegex_append_hello (e : Str) :
    looksLikeRegex (e ++ [' ', ' ', 'h', 'e', 'l', 'l', 'o']) = false := by
  have : (e ++ [' ', ' ', 'h', 'e', 'l', 'l', 'o']).getLast? = some 'o' := by
    have e1 : e ++ [' ', ' ', 'h', 'e', 'l', 'l', 'o']
        = (e ++ [' ', ' ', 'h', 'e', 'l', 'l']) ++ ['o'] := by simp
    rw [e1, List.getLast?_append]
    rfl
  simp [looksLikeRegex, this]

/-- C2: in every store where `greeting` holds `#{Name.first}  hello` and `Name.first`
holds a non-empty list of plain strings, every result of `Fetch("greeting")` is
`e ++ "  hello"` for an element `e` of that list. -/
theorem Fetch_greeting (active fallback : Locale) (fuel : Nat) (xs : List Str) (g : Rand)
    (hgreet : valueAt active fallback "greeting".toList
      = .ok (.str "#{Name.first}  hello".toList))
    (hname : valueAt active fallback "Name.first".toList = .ok (.list xs))
    (hne : xs ≠ [])
    (hplain : ∀ e ∈ xs, findAll matchRef 0 e = [] ∧ looksLikeRegex e = false) :
    ∃ (e : Str) (g' : Rand), e ∈ xs ∧
      Fetch active fallback (fuel + 2) "greeting".toList g
        = .ok (e ++ "  hello".toList, g') := by
  obtain ⟨e, he, hc⟩ := RandomChoice_mem xs g hne
  have hinner : Fetch active fallback (fuel + 1) "Name.first".toList g = .ok (e, g.tail) :=
    Fetch_plain active fallback fuel _ (.list xs) e g g.tail hname hc
      (hplain e he).1 (hplain e he).2
  have hf : findAll matchRef 0
      ['#', '{', 'N', 'a', 'm', 'e', '.', 'f', 'i', 'r', 's', 't', '}', ' ', ' ',
        'h', 'e', 'l', 'l', 'o']
      = [[['#', '{', 'N', 'a', 'm', 'e', '.', 'f', 'i', 'r', 's', 't', '}'],
          ['N', 'a', 'm', 'e', '.', 'f', 'i', 'r', 's', 't']]] := by decide
  have hr := replaceFirst_append_of_not_mem '#'
    ['{', 'N', 'a', 'm', 'e', '.', 'f', 'i', 'r', 's', 't', '}'] e []
    [' ', ' ', 'h', 'e', 'l', 'l', 'o'] (by simp)
  refine ⟨e, g.tail, he, ?_⟩
  refine Fetch_steps active fallback (fuel + 1) _ _
    ['#', '{', 'N', 'a', 'm', 'e', '.', 'f', 'i', 'r', 's', 't', '}', ' ', ' ',
      'h', 'e', 'l', 'l', 'o']
    (e ++ [' ', ' ', 'h', 'e', 'l', 'l', 'o']) _ g g g.tail g.tail hgreet rfl ?_
    (regexifyIfDelimited_plain _ _ (looksLikeRegex_append_hello e))
  rw [hf]
  exact (refLoop_single _
    [['#', '{', 'N', 'a', 'm', 'e', '.', 'f', 'i', 'r', 's', 't', '}'],
      ['N', 'a', 'm', 'e', '.', 'f', 'i', 'r', 's', 't']] _ e g g.tail hinner).trans
    (congrArg (fun x => (Except.ok (x, g.tail) : Res Str)) hr)

/-- Witness of C2 with `Name.first = ["Ann", "Bo"]`. -/
theorem Fetch_greeting_witness :
    ∃ (e : Str) (g' : Rand), e ∈ ["Ann".toList, "Bo".toList] ∧
      Fetch [("greeting".toList, .str "#{Name.first}  hello".toList),
          ("Name".toList, .node [("first".toList, .list ["Ann".toList, "Bo".toList])])] []
        2 "greeting".toList (fun _ => 0) = .ok (e ++ "  hello".toList, g') :=
  Fetch_greeting _ [] 0 ["Ann".toList, "Bo".toList] (fun _ => 0) (by rfl) (by rfl)
    (by decide) (by decide)
theorem chooseEach_mem : ∀ (xss : List (List Str)) (g : Rand), (∀ xs ∈ xss, xs ≠ []) →
    ∃ (cs : List Str) (g' : Rand), List.Forall₂ (fun c xs => c ∈ xs) cs xss ∧
      chooseEach xss g = .ok (cs, g') := by
  intro xss
  induction xss with
  | nil => intro g _; exact ⟨[], g, List.Forall₂.nil, rfl⟩
  | cons xs t ih =>
    intro g h
    obtain ⟨c, hc, hrc⟩ := RandomChoice_mem xs g (h xs (by simp))
    obtain ⟨cs, g', hcs, hch⟩ := ih g.tail (fun ys hy => h ys (List.mem_cons_of_mem _ hy))
    exact ⟨c :: cs, g', List.Forall₂.cons hc hcs, by
      simp only [chooseEach, hrc, hch, Res.andThen]⟩

/-- C10 (as amended): for every path that resolves to a sequence of non-empty sequences
of strings such that no text obtained by joining one element of each with single spaces
holds a match of the reference pattern or both starts and ends with `/`, every result
of `Fetch` is such a join: one element of each inner sequence, in order, separated by
exactly one space. -/
theorem Fetch_lists (active fallback : Locale) (fuel : Nat) (path : Str)
    (xss : List (List Str)) (g : Rand)
    (hval : valueAt active fallback path = .ok (.lists xss))
    (hne : ∀ xs ∈ xss, xs ≠ [])
    (hplain : ∀ cs, List.Forall₂ (fun c xs => c ∈ xs) cs xss →
      findAll matchRef 0 ([' '].intercalate cs) = [] ∧
      looksLikeRegex ([' '].intercalate cs) = false) :
    ∃ (cs : List Str) (g' : Rand), List.Forall₂ (fun c xs => c ∈ xs) cs xss ∧
      Fetch active fallback (fuel + 1) path g = .ok ([' '].intercalate cs, g') := by
  obtain ⟨cs, g', hcs, hch⟩ := chooseEach_mem xss g hne
  refine ⟨cs, g', hcs, ?_⟩
  exact Fetch_plain active fallback fuel path (.lists xss) _ g g' hval
    (by simp only [typeSwitch, hch, Res.andThen]) (hplain cs hcs).1 (hplain cs hcs).2

/-- Witness of C10 (as amended) for the sequences `[["a"], ["b"]]`. -/
theorem Fetch_lists_witness :
    ∃ (cs : List Str) (g' : Rand),
      List.Forall₂ (fun c xs => c ∈ xs) cs [["a".toList], ["b".toList]] ∧
      Fetch [("x".toList, .lists [["a".toList], ["b".toList]])] [] 1 "x".toList (fun _ => 0)
        = .ok ([' '].intercalate cs, g') :=
  Fetch_lists [("x".toList, .lists [["a".toList], ["b".toList]])] [] 0 "x".toList
    [["a".toList], ["b".toList]] (fun _ => 0) (by rfl) (by decide) (by
      intro cs h
      cases h with
      | cons h1 h2 =>
        cases h2 with
        | cons h3 h4 =>
          cases h4
          simp only [List.mem_singleton] at h1 h3
          subst h1; subst h3
          decide)

/-- C10 (as stated) fails: the plain strings `#{A.b` and `c}` hold no reference token and
no `/`, but their join `#{A.b c}` is one, so `Fetch` looks up the path `A.b c` and
panics instead of returning the join. -/
theorem Fetch_lists_token_across_join :
    (Fetch [("x".toList, .lists [["#\x7bA.b".toList], ["c\x7d".toList]])] [] 2 "x".toList
      (fun _ => 0)).val = .error (.invalidPath "A.b c".toList) := by
  decide
/-- C11: when every node traversed is a mapping and a key of the path is absent in the
active store and in the fallback store (both lookups return "not found"), `Fetch` fails:
it panics with the "invalid path" failure that carries the path. -/
theorem Fetch_path_not_found (active fallback : Locale) (fuel : Nat) (path : Str) (g : Rand)
    (hactive : localeValueAt path active = .ok none)
    (hfallback : localeValueAt path fallback = .ok none) :
    Fetch active fallback (fuel + 1) path g = .error (.invalidPath path) := by
  have hval : valueAt active fallback path = .error (.invalidPath path) := by
    simp only [valueAt, hactive, hfallback]
  simp only [Fetch, hval]

/-- Witness of C11: the path `a.b` in two stores whose mapping `a` lacks the key `b`. -/
theorem Fetch_path_not_found_witness :
    Fetch [("a".toList, .node [])] [("a".toList, .node [("c".toList, .str [])])] 1
      "a.b".toList (fun _ => 0) = .error (.invalidPath "a.b".toList) :=
  Fetch_path_not_found _ _ 0 "a.b".toList (fun _ => 0) (by rfl) (by rfl)

/-- C13, the failing input: for `min = 0` and `max = 9223372036854775807` the range size
`max-min+1` wraps to `-9223372036854775808` and `rand.Intn` panics; `RandomInt` returns
no value. -/
theorem RandomInt_full_range_panics :
    wrap64 (maxInt - 0 + 1) = -(2 ^ 63) ∧
    (RandomInt 0 maxInt (fun _ => 0)).val = .error .intnArg := by
  decide

set_option maxRecDepth 100000 in
/-- C14, the failing input: of the 256 values of a source byte, five (`0`, `62`, `124`,
`186`, `248`) give the character `0`, but only four give the character `8`. -/
theorem RandomString_modulo_bias :
    (List.finRange 256).filter (fun b => RandomString [b] = ['0']) = [0, 62, 124, 186, 248] ∧
    (List.finRange 256).filter (fun b => RandomString [b] = ['8']) = [8, 70, 132, 194] := by
  decide

/-- C15, the failing input: in `a-z[a-z]` the range pass replaces the first occurrence
of the class text `a-z`, which is the literal prefix; with all draws `1` the result is
`b-`, not `a-z` followed by a letter. -/
theorem Regexify_range_rewrites_literal :
    (Regexify "a-z[a-z]".toList (fun _ => 1)).val = .ok "b-".toList := by
  decide
theorem findAll_matchEscD_cons (c : Char) (t : Str) :
    findAll matchEscD 0 (c :: t) = [] ↔
      ¬ (c = '\\' ∧ t.head? = some 'd') ∧ findAll matchEscD 0 t = [] := by
  constructor
  · intro h
    cases hm : matchEscD (c :: t) with
    | some sm => rw [findAll_cons_some _ _ _ _ hm] at h; exact absurd h (by simp)
    | none =>
      rw [findAll_cons_none _ _ _ hm] at h
      refine ⟨?_, h⟩
      rintro ⟨rfl, ht⟩
      cases t with
      | nil => simp at ht
      | cons d t => simp at ht; subst ht; simp [matchEscD] at hm
  · rintro ⟨h1, h2⟩
    have hm : matchEscD (c :: t) = none := by
      unfold matchEscD
      split
      · rename_i heq
        simp only [List.cons.injEq] at heq
        exact absurd ⟨heq.1, by simp [heq.2]⟩ h1
      · rfl
    rw [findAll_cons_none _ _ _ hm, h2]

theorem replaceEscD_of_no_match (choices : List Str) : ∀ (r : Str) (g : Rand),
    findAll matchEscD 0 r = [] → replaceEscD choices r g = .ok (r, g) := by
  intro r
  induction r with
  | nil => intro g _; rfl
  | cons c t ih =>
    intro g h
    rw [findAll_matchEscD_cons] at h
    unfold replaceEscD
    split
    · rename_i heq; simp at heq
    · rename_i heq
      simp only [List.cons.injEq] at heq
      exact absurd ⟨heq.1, by simp [heq.2]⟩ h.1
    · rename_i heq
      simp only [List.cons.injEq] at heq
      obtain ⟨e1, e2⟩ := heq
      subst e1; subst e2
      rw [ih _ h.2]; rfl

theorem replaceEscD_digits_out (n : Nat) : ∀ (s : Str) (g : Rand), s.length ≤ n →
    ∃ (r : Str) (g' : Rand), replaceEscD aryDigits s g = .ok (r, g') ∧
      findAll matchEscD 0 r = [] ∧ (r.head? = some 'd' → s.head? = some 'd') := by
  induction n with
  | zero =>
    intro s g hs
    have : s = [] := List.length_eq_zero.mp (Nat.le_zero.mp hs)
    subst this
    exact ⟨[], g, rfl, rfl, fun h => h⟩
  | succ n ih =>
    intro s g hs
    cases s with
    | nil => exact ⟨[], g, rfl, rfl, fun h => h⟩
    | cons c t =>
      by_cases hm : c = '\\' ∧ t.head? = some 'd'
      · obtain ⟨rfl, ht⟩ := hm
        cases t with
        | nil => simp at ht
        | cons d t =>
          simp only [List.head?_cons, Option.some.injEq] at ht
          subst ht
          obtain ⟨r, g', hr, hno, _⟩ := ih t g.tail (by simp at hs; omega)
          refine ⟨Char.ofNat (48 + g 0 % 10) :: r, g', ?_, ?_, ?_⟩
          · simp only [replaceEscD, RandomChoice_aryDigits, Res.andThen, hr,
              List.singleton_append]
          · rw [findAll_matchEscD_cons]
            refine ⟨?_, hno⟩
            rintro ⟨h, _⟩
            exact (digit_char_facts (g 0)).2.2.2.2.1 h
          · intro h
            simp only [List.head?_cons, Option.some.injEq] at h
            have := (digit_char_facts (g 0)).1
            rw [h] at this
            exact absurd this (by decide)
      · obtain ⟨r, g', hr, hno, hhead⟩ := ih t g (by simp at hs; omega)
        refine ⟨c :: r, g', ?_, ?_, ?_⟩
        · unfold replaceEscD
          split
          · rename_i heq; simp at heq
          · rename_i heq
            simp only [List.cons.injEq] at heq
            exact absurd ⟨heq.1, by simp [heq.2]⟩ hm
          · rename_i heq
            simp only [List.cons.injEq] at heq
            obtain ⟨e1, e2⟩ := heq
            subst e1; subst e2
            rw [hr]; rfl
        · rw [findAll_matchEscD_cons]
          refine ⟨?_, hno⟩
          rintro ⟨hc, hd⟩
          exact hm ⟨hc, hhead hd⟩
        · intro h
          simpa using h

theorem andThen_eq_ok {α β : Type} (x : Res α) (f : α → Rand → Res β) (b : β) (g : Rand)
    (h : x.andThen f = .ok (b, g)) : ∃ a g0, x = .ok (a, g0) ∧ f a g0 = .ok (b, g) := by
  cases x with
  | error e => simp [Res.andThen] at h
  | ok p => exact ⟨p.1, p.2, rfl, h⟩

theorem matchRef_none (t : Str) (h : t.head? ≠ some '#') : matchRef t = none := by
  unfold matchRef
  split
  · simp at h
  · rfl

theorem findAll_matchRef_nil (r : Str) (h : '#' ∉ r) : findAll matchRef 0 r = [] :=
  findAll_eq_nil matchRef '#' (fun t ht => matchRef_none t (by
    intro e
    cases t with
    | nil => simp at e
    | cons a t => simp at e; exact ht (by simp [e]))) r h 0

theorem findAll_skip_append (m : Str → Option Submatch) : ∀ (a b : Str),
    findAll m a.length (a ++ b) = findAll m 0 b := by
  intro a
  induction a with
  | nil => intro b; rfl
  | cons x a ih => intro b; simpa [findAll_skip] using ih b

theorem matchRef_token (seg rest post : Str) (hseg : seg ≠ []) (hrest : rest ≠ [])
    (hsa : ∀ c ∈ seg, c.isAlpha = true) (hrb : ∀ c ∈ rest, c ≠ '}') :
    matchRef ('#' :: '{' :: (seg ++ '.' :: (rest ++ '}' :: post)))
      = some [['#', '{'] ++ seg ++ ['.'] ++ rest ++ ['}'], seg ++ ['.'] ++ rest] := by
  unfold matchRef
  simp only
  rw [span_append_stop Char.isAlpha seg '.' _ hsa (by decide)]
  cases seg with
  | nil => exact absurd rfl hseg
  | cons s0 seg' =>
    simp only
    rw [span_append_stop _ rest '}' post (by intro c hc; simp [hrb c hc]) (by decide)]
    cases rest with
    | nil => exact absurd rfl hrest
    | cons r0 rest' => rfl

/-- C17 (as stated) fails: with `first = "X"` at the top of the store and
`Name.first = "Ann"`, the token `#{Name.first}` is replaced by `Ann`, the value at
`Name.first`, and not by `X`, the value at the path `first` behind the prefix `Name.`. -/
theorem Fetch_token_not_rest :
    (Fetch [("greeting".toList, .str "#{Name.first}".toList),
        ("first".toList, .str "X".toList),
        ("Name".toList, .node [("first".toList, .str "Ann".toList)])] [] 2
      "greeting".toList (fun _ => 0)).val = .ok "Ann".toList ∧
    (Fetch [("greeting".toList, .str "#{Name.first}".toList),
        ("first".toList, .str "X".toList),
        ("Name".toList, .node [("first".toList, .str "Ann".toList)])] [] 2
      "first".toList (fun _ => 0)).val = .ok "X".toList := by
  decide

/-- C16 (as stated) fails: the tokens are located once, before the substitutions. For
the leaf `#{A.x}A.y}` with `A.x = "#{"` the substitution leaves `#{A.y}`, a reference
token, which `Fetch` returns without expanding it, and without calling `Regexify`. -/
theorem Fetch_token_after_substitution :
    (Fetch [("t".toList, .str "#\x7bA.x\x7dA.y\x7d".toList),
        ("A".toList, .node [("x".toList, .str "#\x7b".toList),
          ("y".toList, .str "Z".toList)])] [] 2 "t".toList (fun _ => 0)).val
      = .ok "#\x7bA.y\x7d".toList ∧
    findAll matchRef 0 "#\x7bA.y\x7d".toList
      = [["#\x7bA.y\x7d".toList, "A.y".toList]] ∧
    looksLikeRegex "#\x7bA.y\x7d".toList = false := by
  decide
theorem span_eq_append (p : Char → Bool) (l a b : Str) (h : l.span p = (a, b)) :
    l = a ++ b ∧ ∀ c ∈ a, p c = true := by
  rw [List.span_eq_take_drop] at h
  simp only [Prod.mk.injEq] at h
  obtain ⟨h1, h2⟩ := h
  subst h1; subst h2
  exact ⟨(List.takeWhile_append_dropWhile p l).symm, fun c hc => List.mem_takeWhile_imp hc⟩

theorem matchRef_some_tokenBody (s : Str) (sm : Submatch) (h : matchRef s = some sm) :
    ∃ body, tokenBody s = some body ∧ '.' ∈ body := by
  unfold matchRef at h
  split at h
  · rename_i r
    split at h
    · exact absurd h (by simp)
    · rename_i seg r2 hne1 hspan1
      split at h
      · exact absurd h (by simp)
      · rename_i rest r3 hne2 hspan2
        obtain ⟨e1, hseg⟩ := span_eq_append _ _ _ _ hspan1
        obtain ⟨e2, hrest⟩ := span_eq_append _ _ _ _ hspan2
        refine ⟨seg ++ '.' :: rest, ?_, by simp⟩
        have hall : ∀ c ∈ seg ++ '.' :: rest, (fun x => x != '}') c = true := by
          intro c hc
          simp only [List.mem_append, List.mem_cons] at hc
          rcases hc with hc | hc | hc
          · have := hseg c hc
            simp only [bne_iff_ne, ne_eq]
            rintro rfl
            exact absurd this (by decide)
          · subst hc; decide
          · exact hrest c hc
        have hr : r = (seg ++ '.' :: rest) ++ '}' :: r3 := by
          rw [e1, e2]; simp
        unfold tokenBody
        simp only
        rw [hr, span_append_stop _ _ '}' r3 hall (by decide)]
        rfl
      · exact absurd h (by simp)
    · exact absurd h (by simp)
  · exact absurd h (by simp)

theorem findAll_matchRef_of_dotless : ∀ (v : Str), dotlessTokens v = true →
    ∀ k, findAll matchRef k v = [] := by
  intro v
  induction v with
  | nil => intro _ k; cases k <;> rfl
  | cons c t ih =>
    intro h k
    simp only [dotlessTokens, Bool.and_eq_true] at h
    obtain ⟨h1, h2⟩ := h
    cases k with
    | succ k => rw [findAll_skip]; exact ih h2 k
    | zero =>
      have hm : matchRef (c :: t) = none := by
        cases hm : matchRef (c :: t) with
        | none => rfl
        | some sm =>
          obtain ⟨body, hb, hdot⟩ := matchRef_some_tokenBody _ _ hm
          rw [hb] at h1
          simp only [Bool.not_eq_true', List.contains_eq_any_beq, List.any_eq_false,
            beq_iff_eq] at h1
          exact absurd rfl (h1 '.' hdot)
      rw [findAll_cons_none _ _ _ hm]
      exact ih h2 0

/-- C19: `Fetch` expands only reference tokens that contain a dot: when the text that
the type switch yields for the leaf (the string itself, or the element drawn from a list)
has no token `#{...}` with a dot and does not both start and end with `/`, `Fetch`
returns that text with its tokens left in place. -/
theorem Fetch_dotless_tokens (active fallback : Locale) (fuel : Nat) (path : Str)
    (val : Value) (v : Str) (g g0 : Rand)
    (hval : valueAt active fallback path = .ok val)
    (hswitch : typeSwitch path val g = .ok (v, g0))
    (hdot : dotlessTokens v = true)
    (hplain : looksLikeRegex v = false) :
    Fetch active fallback (fuel + 1) path g = .ok (v, g0) :=
  Fetch_plain active fallback fuel path val v g g0 hval hswitch
    (findAll_matchRef_of_dotless v hdot 0) hplain

/-- Witness of C19: with the locale `Nb_NO` active, `Fetch("address.city")` returns
exactly `#{city_root}#{city_suffix}`. -/
theorem Fetch_dotless_tokens_witness :
    Fetch Nb_NO [] 1 "address.city".toList (fun _ => 0)
      = .ok ("#{city_root}#{city_suffix}".toList, Rand.tail (fun _ => 0)) :=
  Fetch_dotless_tokens Nb_NO [] 0 "address.city".toList
    (.list ["#{city_root}#{city_suffix}".toList]) "#{city_root}#{city_suffix}".toList
    (fun _ => 0) (Rand.tail (fun _ => 0)) (by rfl) (by rfl) (by decide) (by decide)
theorem Rand.cons_zero (d : Nat) (g : Rand) : (Rand.cons d g) 0 = d := rfl

theorem Rand.cons_tail (d : Nat) (g : Rand) : (Rand.cons d g).tail = g := rfl

theorem digit_of_mem : ∀ d ∈ Digits, ∃ k, d = Char.ofNat (48 + k % 10) := by
  have h : ∀ d ∈ Digits, d ∈ (List.range 10).map fun k => Char.ofNat (48 + k % 10) := by
    decide
  intro d hd
  obtain ⟨k, _, hk⟩ := List.mem_map.mp (h d hd)
  exact ⟨k, hk.symm⟩

theorem digit_pos_of_mem : ∀ d ∈ Digits, d ≠ '0' → ∃ k, d = Char.ofNat (49 + k % 9) := by
  have h : ∀ d ∈ Digits, d ≠ '0' →
      d ∈ (List.range 9).map fun k => Char.ofNat (49 + k % 9) := by
    decide
  intro d hd h0
  obtain ⟨k, _, hk⟩ := List.mem_map.mp (h d hd h0)
  exact ⟨k, hk.symm⟩

theorem uletter_of_mem : ∀ d ∈ ULetters, ∃ k, d = Char.ofNat (65 + k % 26) := by
  have h : ∀ d ∈ ULetters, d ∈ (List.range 26).map fun k => Char.ofNat (65 + k % 26) := by
    decide
  intro d hd
  obtain ⟨k, _, hk⟩ := List.mem_map.mp (h d hd)
  exact ⟨k, hk.symm⟩

theorem digit_not_placeholder : ∀ d ∈ Digits, d ≠ '#' ∧ d ≠ '?' := by decide

theorem uletter_not_placeholder : ∀ d ∈ ULetters, d ≠ '#' ∧ d ≠ '?' := by decide

/-- Any outcome of `Numerify` can be had together with any remaining stream. -/
theorem numerifySpec_any_rest (s : Str) : ∀ (first : Bool) (g0 h : Rand),
    ∃ g, numerifySpec s first g = ((numerifySpec s first g0).1, h) := by
  induction s with
  | nil => intro _ _ h; exact ⟨h, rfl⟩
  | cons c t ih =>
    intro first g0 h
    by_cases hc : c = '#'
    · obtain ⟨g, hg⟩ := ih false g0.tail h
      refine ⟨Rand.cons (g0 0) g, ?_⟩
      simp [numerifySpec, hc, Rand.cons_zero, Rand.cons_tail, hg]
    · obtain ⟨g, hg⟩ := ih first g0 h
      exact ⟨g, by simp [numerifySpec, hc, hg]⟩

/-- Any outcome of `Letterify` can be had together with any remaining stream. -/
theorem letterifySpec_any_rest (s : Str) : ∀ (g0 h : Rand),
    ∃ g, letterifySpec s g = ((letterifySpec s g0).1, h) := by
  induction s with
  | nil => intro _ h; exact ⟨h, rfl⟩
  | cons c t ih =>
    intro g0 h
    by_cases hc : c = '?'
    · obtain ⟨g, hg⟩ := ih g0.tail h
      refine ⟨Rand.cons (g0 0) g, ?_⟩
      simp [letterifySpec, hc, Rand.cons_zero, Rand.cons_tail, hg]
    · obtain ⟨g, hg⟩ := ih g0 h
      exact ⟨g, by simp [letterifySpec, hc, hg]⟩

theorem filled_of_numerify_letterify (s : Str) : ∀ (first : Bool) (g g2 : Rand),
    filled first s (letterifySpec (numerifySpec s first g).1 g2).1 := by
  induction s with
  | nil => intro _ _ _; simp [numerifySpec, letterifySpec, filled]
  | cons c t ih =>
    intro first g g2
    by_cases hc : c = '#'
    · subst hc
      cases first with
      | true =>
        obtain ⟨hd, h0⟩ := digit_pos_mem_Digits (g 0)
        have hq := (digit_not_placeholder _ hd).2
        simp [numerifySpec, letterifySpec, hq, filled, hd, h0, ih false g.tail g2]
      | false =>
        have hd := digit_mem_Digits (g 0)
        have hq := (digit_not_placeholder _ hd).2
        simp [numerifySpec, letterifySpec, hq, filled, hd, ih false g.tail g2]
    · by_cases hq : c = '?'
      · subst hq
        simp [numerifySpec, letterifySpec, filled, uletter_mem, ih first g g2.tail]
      · simp [numerifySpec, letterifySpec, hc, hq, filled, ih first g g2]

theorem filled_of_letterify_numerify (s : Str) : ∀ (first : Bool) (g g2 : Rand),
    filled first s (numerifySpec (letterifySpec s g).1 first g2).1 := by
  induction s with
  | nil => intro _ _ _; simp [numerifySpec, letterifySpec, filled]
  | cons c t ih =>
    intro first g g2
    by_cases hc : c = '#'
    · subst hc
      cases first with
      | true =>
        obtain ⟨hd, h0⟩ := digit_pos_mem_Digits (g2 0)
        simp [numerifySpec, letterifySpec, filled, hd, h0, ih false g g2.tail]
      | false =>
        have hd := digit_mem_Digits (g2 0)
        simp [numerifySpec, letterifySpec, filled, hd, ih false g g2.tail]
    · by_cases hq : c = '?'
      · subst hq
        have hl := uletter_mem (g 0)
        have hn := (uletter_not_placeholder _ hl).1
        simp [numerifySpec, letterifySpec, filled, hl, hn, ih first g.tail g2]
      · simp [numerifySpec, letterifySpec, hc, hq, filled, ih first g g2]
theorem numerify_letterify_of_filled (s : Str) : ∀ (first : Bool) (r : Str),
    filled first s r →
    ∃ g0 g1, (letterifySpec (numerifySpec s first g0).1 g1).1 = r := by
  induction s with
  | nil =>
    intro first r h
    cases r with
    | nil => exact ⟨fun _ => 0, fun _ => 0, rfl⟩
    | cons d r => simp [filled] at h
  | cons c t ih =>
    intro first r h
    cases r with
    | nil => simp [filled] at h
    | cons d r =>
      by_cases hc : c = '#'
      · subst hc
        simp only [filled, if_true] at h
        obtain ⟨⟨hd, h0⟩, hrest⟩ := h
        obtain ⟨g0, g1, hg⟩ := ih false r hrest
        have hq := (digit_not_placeholder d hd).2
        cases first with
        | true =>
          obtain ⟨k, hk⟩ := digit_pos_of_mem d hd (h0 rfl)
          refine ⟨Rand.cons k g0, g1, ?_⟩
          rw [hk] at hq
          simp [numerifySpec, letterifySpec, Rand.cons_zero, Rand.cons_tail, hq, hg, hk]
        | false =>
          obtain ⟨k, hk⟩ := digit_of_mem d hd
          refine ⟨Rand.cons k g0, g1, ?_⟩
          rw [hk] at hq
          simp [numerifySpec, letterifySpec, Rand.cons_zero, Rand.cons_tail, hq, hg, hk]
      · by_cases hq : c = '?'
        · subst hq
          simp only [filled, hc, if_false, if_true] at h
          obtain ⟨hd, hrest⟩ := h
          obtain ⟨g0, g1, hg⟩ := ih first r hrest
          obtain ⟨k, hk⟩ := uletter_of_mem d hd
          refine ⟨g0, Rand.cons k g1, ?_⟩
          simp [numerifySpec, letterifySpec, Rand.cons_zero, Rand.cons_tail, hg, hk]
        · simp only [filled, hc, hq, if_false] at h
          obtain ⟨hd, hrest⟩ := h
          obtain ⟨g0, g1, hg⟩ := ih first r hrest
          exact ⟨g0, g1, by simp [numerifySpec, letterifySpec, hc, hq, hg, hd]⟩

theorem letterify_numerify_of_filled (s : Str) : ∀ (first : Bool) (r : Str),
    filled first s r →
    ∃ g0 g1, (numerifySpec (letterifySpec s g0).1 first g1).1 = r := by
  induction s with
  | nil =>
    intro first r h
    cases r with
    | nil => exact ⟨fun _ => 0, fun _ => 0, rfl⟩
    | cons d r => simp [filled] at h
  | cons c t ih =>
    intro first r h
    cases r with
    | nil => simp [filled] at h
    | cons d r =>
      by_cases hc : c = '#'
      · subst hc
        simp only [filled, if_true] at h
        obtain ⟨⟨hd, h0⟩, hrest⟩ := h
        obtain ⟨g0, g1, hg⟩ := ih false r hrest
        cases first with
        | true =>
          obtain ⟨k, hk⟩ := digit_pos_of_mem d hd (h0 rfl)
          refine ⟨g0, Rand.cons k g1, ?_⟩
          simp [numerifySpec, letterifySpec, Rand.cons_zero, Rand.cons_tail, hg, hk]
        | false =>
          obtain ⟨k, hk⟩ := digit_of_mem d hd
          refine ⟨g0, Rand.cons k g1, ?_⟩
          simp [numerifySpec, letterifySpec, Rand.cons_zero, Rand.cons_tail, hg, hk]
      · by_cases hq : c = '?'
        · subst hq
          simp only [filled, hc, if_false, if_true] at h
          obtain ⟨hd, hrest⟩ := h
          obtain ⟨g0, g1, hg⟩ := ih first r hrest
          obtain ⟨k, hk⟩ := uletter_of_mem d hd
          have hn := (uletter_not_placeholder d hd).1
          refine ⟨Rand.cons k g0, g1, ?_⟩
          rw [hk] at hn
          simp [numerifySpec, letterifySpec, Rand.cons_zero, Rand.cons_tail, hn, hg, hk]
        · simp only [filled, hc, hq, if_false] at h
          obtain ⟨hd, hrest⟩ := h
          obtain ⟨g0, g1, hg⟩ := ih first r hrest
          exact ⟨g0, g1, by simp [numerifySpec, letterifySpec, hc, hq, hg, hd]⟩

theorem filled_no_placeholder (s : Str) : ∀ (first : Bool) (r : Str),
    filled first s r → '#' ∉ r ∧ '?' ∉ r := by
  induction s with
  | nil =>
    intro first r h
    cases r with
    | nil => simp
    | cons d r => simp [filled] at h
  | cons c t ih =>
    intro first r h
    cases r with
    | nil => simp [filled] at h
    | cons d r =>
      by_cases hc : c = '#'
      · subst hc
        simp only [filled, if_true] at h
        obtain ⟨⟨hd, _⟩, hrest⟩ := h
        obtain ⟨h1, h2⟩ := ih false r hrest
        obtain ⟨n1, n2⟩ := digit_not_placeholder d hd
        simp [h1, h2, Ne.symm n1, Ne.symm n2]
      · by_cases hq : c = '?'
        · subst hq
          simp only [filled, hc, if_false, if_true] at h
          obtain ⟨hd, hrest⟩ := h
          obtain ⟨h1, h2⟩ := ih first r hrest
          obtain ⟨n1, n2⟩ := uletter_not_placeholder d hd
          simp [h1, h2, Ne.symm n1, Ne.symm n2]
        · simp only [filled, hc, hq, if_false] at h
          obtain ⟨hd, hrest⟩ := h
          obtain ⟨h1, h2⟩ := ih first r hrest
          subst hd
          simp [h1, h2, Ne.symm hc, Ne.symm hq]

theorem NumerifyAndLetterify_eq (s : Str) (g : Rand) :
    NumerifyAndLetterify s g
      = .ok (letterifySpec (numerifySpec s true g).1 (numerifySpec s true g).2) := by
  simp only [NumerifyAndLetterify, Numerify_eq_spec, Letterify_eq_spec]

theorem NumerifyOfLetterify_eq (s : Str) (g : Rand) :
    NumerifyOfLetterify s g
      = .ok (numerifySpec (letterifySpec s g).1 true (letterifySpec s g).2) := by
  simp only [NumerifyOfLetterify, Numerify_eq_spec, Letterify_eq_spec]

theorem NumerifyAndLetterify_val_iff (s r : Str) :
    (∃ g, (NumerifyAndLetterify s g).val = .ok r) ↔ filled true s r := by
  constructor
  · rintro ⟨g, hg⟩
    rw [NumerifyAndLetterify_eq] at hg
    simp only [Res.val, Except.ok.injEq] at hg
    rw [← hg]
    exact filled_of_numerify_letterify s true g _
  · intro h
    obtain ⟨g0, g1, hg⟩ := numerify_letterify_of_filled s true r h
    obtain ⟨g, hn⟩ := numerifySpec_any_rest s true g0 g1
    refine ⟨g, ?_⟩
    rw [NumerifyAndLetterify_eq, hn]
    simp only [Res.val, hg]

theorem NumerifyOfLetterify_val_iff (s r : Str) :
    (∃ g, (NumerifyOfLetterify s g).val = .ok r) ↔ filled true s r := by
  constructor
  · rintro ⟨g, hg⟩
    rw [NumerifyOfLetterify_eq] at hg
    simp only [Res.val, Except.ok.injEq] at hg
    rw [← hg]
    exact filled_of_letterify_numerify s true g _
  · intro h
    obtain ⟨g0, g1, hg⟩ := letterify_numerify_of_filled s true r h
    obtain ⟨g, hn⟩ := letterifySpec_any_rest s g0 g1
    refine ⟨g, ?_⟩
    rw [NumerifyOfLetterify_eq, hn]
    simp only [Res.val, hg]

/-- C20: `Numerify` and `Letterify` commute: for every text `s`, a string can be
returned by `Letterify(Numerify(s))`, which is `NumerifyAndLetterify(s)`, for some
stream of draws exactly when it can be returned by `Numerify(Letterify(s))` for some
stream; both always return, and no result of either holds a `#` or a `?`. -/
theorem Numerify_Letterify_commute (s : Str) :
    (∀ r : Str, (∃ g, (NumerifyAndLetterify s g).val = .ok r) ↔
      (∃ g, (NumerifyOfLetterify s g).val = .ok r)) ∧
    (∀ g : Rand, ∃ r : Str, (NumerifyAndLetterify s g).val = .ok r ∧ '#' ∉ r ∧ '?' ∉ r) ∧
    (∀ g : Rand, ∃ r : Str, (NumerifyOfLetterify s g).val = .ok r ∧ '#' ∉ r ∧ '?' ∉ r) := by
  refine ⟨fun r => ?_, fun g => ?_, fun g => ?_⟩
  · rw [NumerifyAndLetterify_val_iff, NumerifyOfLetterify_val_iff]
  · refine ⟨(letterifySpec (numerifySpec s true g).1 (numerifySpec s true g).2).1, ?_, ?_⟩
    · rw [NumerifyAndLetterify_eq]; rfl
    · exact filled_no_placeholder s true _ (filled_of_numerify_letterify s true g _)
  · refine ⟨(numerifySpec (letterifySpec s g).1 true (letterifySpec s g).2).1, ?_, ?_⟩
    · rw [NumerifyOfLetterify_eq]; rfl
    · exact filled_no_placeholder s true _ (filled_of_letterify_numerify s true g _)

theorem replaceAll_of_findAll_nil (m : Str → Option Submatch) (f : Submatch → Str) :
    ∀ s : Str, findAll m 0 s = [] → replaceAll m f 0 s = s := by
  intro s
  induction s with
  | nil => intro _; rfl
  | cons c t ih =>
    intro h
    cases hm : m (c :: t) with
    | some sm => rw [findAll_cons_some _ _ _ _ hm] at h; exact absurd h (by simp)
    | none =>
      rw [findAll_cons_none _ _ _ hm] at h
      rw [replaceAll_cons_none _ _ _ _ hm, ih h]

theorem stripTrail_eq_self (s : Str) (h1 : s.getLast? ≠ some '/') (h2 : s.getLast? ≠ some '$') :
    stripTrail s = s := by
  rcases List.eq_nil_or_concat s with rfl | ⟨t, c, rfl⟩
  · rfl
  · rw [List.concat_eq_append] at h1 h2 ⊢
    have e : (t ++ [c]).getLast? = some c := by simp
    rw [e] at h1 h2
    exact stripTrail_append_singleton t c (fun h => h1 (by rw [h])) (fun h => h2 (by rw [h]))

/-- A pattern on which no pass of `Regexify` finds a match is returned as it is, and no
draw is read. -/
theorem Regexify_inert (p : Str) (g : Rand)
    (hl1 : p.head? ≠ some '/') (hl2 : p.head? ≠ some '^')
    (ht1 : p.getLast? ≠ some '/') (ht2 : p.getLast? ≠ some '$')
    (hq : '?' ∉ p) (hb : '[' ∉ p) (hp : '(' ∉ p)
    (hn : findAll matchBraceNum 0 p = []) (ha : findAll matchAtomQuant 0 p = [])
    (hd : findAll matchEscD 0 p = []) :
    Regexify p g = .ok (p, g) := by
  refine Regexify_steps p p p p p p p p p p g g g g g g g g g ?_ ?_ ?_ ?_ ?_ ?_ ?_ ?_ ?_
  · rw [stripLead_eq_self p hl1 hl2, stripTrail_eq_self p ht1 ht2,
      replaceAll_of_findAll_nil _ _ p hn, replaceAll_matchLit_self '?' _ p hq]
  · rw [findAll_matchBracketQuant_nil_of_open '[' ']' p hb]; rfl
  · rw [findAll_matchBracketQuant_nil_of_open '(' ')' p hp]; rfl
  · rw [ha]; rfl
  · rw [findAll_matchGroup_nil p hp]; rfl
  · rw [findAll_matchClass_nil p hb]; rfl
  · rw [findAll_matchClass_nil p hb]; rfl
  · exact replaceEscD_of_no_match _ p g hd
  · exact replaceEscD_of_no_match _ p g hd

theorem andThen_congr {α β : Type} (x : Res α) (f f' : α → Rand → Res β)
    (h : ∀ a g, f a g = f' a g) : x.andThen f = x.andThen f' := by
  cases x with
  | error e => rfl
  | ok p => exact h p.1 p.2

/-- The pass over `\\d` with letters, run behind the pass over `\\d` with digits, changes
nothing. -/
theorem digits_then_letters (r : Str) (g : Rand) :
    ((replaceEscD aryDigits r g).andThen fun res g' => replaceEscD aryLetters res g')
      = replaceEscD aryDigits r g := by
  obtain ⟨out, g', hr, hno, _⟩ := replaceEscD_digits_out r.length r g (le_refl _)
  rw [hr]
  exact replaceEscD_of_no_match _ out g' hno

theorem andThen_assoc {α β γ : Type} (x : Res α) (f : α → Rand → Res β)
    (k : β → Rand → Res γ) :
    (x.andThen f).andThen k = x.andThen fun a g => (f a g).andThen k := by
  cases x with
  | error e => rfl
  | ok p => rfl

theorem Regexify_eq_until_classes (s : Str) (g : Rand) :
    Regexify s g
      = (RegexifyUntilClasses s g).andThen fun res g' => replaceEscD aryDigits res g' := by
  simp only [Regexify, RegexifyUntilClasses, andThen_assoc]
  refine andThen_congr _ _ _ fun r1 g1 => ?_
  refine andThen_congr _ _ _ fun r2 g2 => ?_
  refine andThen_congr _ _ _ fun r3 g3 => ?_
  refine andThen_congr _ _ _ fun r4 g4 => ?_
  refine andThen_congr _ _ _ fun r5 g5 => ?_
  refine andThen_congr _ _ _ fun r6 g6 => ?_
  exact digits_then_letters r6 g6

theorem replaceEscD_cons_other (choices : List Str) (c : Char) (t : Str) (g : Rand)
    (h : ¬ (c = '\\' ∧ t.head? = some 'd')) :
    replaceEscD choices (c :: t) g
      = (replaceEscD choices t g).andThen fun rest g' => .ok (c :: rest, g') := by
  conv => lhs; unfold replaceEscD
  split
  · rename_i heq; simp at heq
  · rename_i heq
    simp only [List.cons.injEq] at heq
    exact absurd ⟨heq.1, by simp [heq.2]⟩ h
  · rename_i heq
    simp only [List.cons.injEq] at heq
    obtain ⟨e1, e2⟩ := heq
    subst e1; subst e2
    rfl

theorem replaceEscD_cons_escD (choices : List Str) (t : Str) (g : Rand) :
    replaceEscD choices ('\\' :: 'd' :: t) g
      = (RandomChoice choices g).andThen fun r g' =>
          (replaceEscD choices t g').andThen fun rest g'' => .ok (r ++ rest, g'') := by
  rw [replaceEscD]

/-- The shorthand pass over a text with a `\w` in it: the texts on both sides are
rewritten as they are alone, one after the other, and the `\w` stays between them. -/
theorem replaceEscD_word (choices : List Str) (b : Str) (n : Nat) :
    ∀ (a : Str) (g : Rand), a.length ≤ n →
      replaceEscD choices (a ++ '\\' :: 'w' :: b) g
        = (replaceEscD choices a g).andThen fun a' g1 =>
            (replaceEscD choices b g1).andThen fun b' g2 =>
              .ok (a' ++ '\\' :: 'w' :: b', g2) := by
  induction n with
  | zero =>
    intro a g ha
    have : a = [] := List.length_eq_zero.mp (Nat.le_zero.mp ha)
    subst this
    rw [List.nil_append, replaceEscD_cons_other _ _ _ _ (by simp),
      replaceEscD_cons_other _ _ _ _ (by simp)]
    simp only [replaceEscD, Res.andThen, andThen_assoc]
    cases replaceEscD choices b g with
    | error e => rfl
    | ok p => rfl
  | succ n ih =>
    intro a g ha
    match a, ha with
    | [], _ => exact ih [] g (by simp)
    | '\\' :: 'd' :: t, ha =>
      have ht : t.length ≤ n := by simp at ha; omega
      simp only [List.cons_append]
      rw [replaceEscD_cons_escD, replaceEscD_cons_escD]
      simp only [andThen_assoc]
      refine andThen_congr _ _ _ fun r g' => ?_
      rw [ih t g' ht]
      simp only [andThen_assoc]
      refine andThen_congr _ _ _ fun a' g1 => ?_
      simp only [Res.andThen, andThen_assoc]
      cases replaceEscD choices b g1 with
      | error e => rfl
      | ok p => simp
    | c :: t, ha =>
      by_cases h : c = '\\' ∧ t.head? = some 'd'
      · obtain ⟨h1, h2⟩ := h
        subst h1
        cases t with
        | nil => simp at h2
        | cons d t =>
          simp at h2; subst h2
          have ht : t.length ≤ n := by simp at ha; omega
          simp only [List.cons_append]
          rw [replaceEscD_cons_escD, replaceEscD_cons_escD]
          simp only [andThen_assoc]
          refine andThen_congr _ _ _ fun r g' => ?_
          rw [ih t g' ht]
          simp only [andThen_assoc]
          refine andThen_congr _ _ _ fun a' g1 => ?_
          simp only [Res.andThen, andThen_assoc]
          cases replaceEscD choices b g1 with
          | error e => rfl
          | ok p => simp
      · have ht : t.length ≤ n := by simp at ha; omega
        have h' : ¬ (c = '\\' ∧ (t ++ '\\' :: 'w' :: b).head? = some 'd') := by
          rintro ⟨h1, h2⟩
          cases t with
          | nil => simp at h2
          | cons d t => exact h ⟨h1, by simpa using h2⟩
        simp only [List.cons_append]
        rw [replaceEscD_cons_other _ _ _ _ h', replaceEscD_cons_other _ _ _ _ h, ih t g ht]
        simp only [andThen_assoc]
        refine andThen_congr _ _ _ fun a' g1 => ?_
        simp only [Res.andThen, andThen_assoc]
        cases replaceEscD choices b g1 with
        | error e => rfl
        | ok p => simp

theorem replaceEscD_digits_ok (s : Str) (g : Rand) :
    ∃ (r : Str) (g' : Rand), replaceEscD aryDigits s g = .ok (r, g') := by
  obtain ⟨r, g', hr, _, _⟩ := replaceEscD_digits_out s.length s g (le_refl _)
  exact ⟨r, g', hr⟩

/-- C12 (as amended): `Regexify` never returns an error: for every pattern `s` and stream
on which it returns, the error is `nil` and the string is the one built by its passes.
A brace quantifier whose bounds are no decimal numerals is matched by no pass: every
pattern `p` on which no pass finds a match (no leading `/` or `^`, no trailing `/` or
`$`, none of the characters `?`, `[`, `(`, no match of the quantifier patterns
`\{(\d+)\}` and `(\\?.)\{(\d+),(\d+)\}`, no `\d`) is returned as it is, with the error
`nil` and without reading a draw. -/
theorem Regexify_error_nil (s p : Str) (g : Rand)
    (hlead : p.head? ≠ some '/' ∧ p.head? ≠ some '^')
    (htrail : p.getLast? ≠ some '/' ∧ p.getLast? ≠ some '$')
    (hchars : '?' ∉ p ∧ '[' ∉ p ∧ '(' ∉ p)
    (hquant : findAll matchBraceNum 0 p = [] ∧ findAll matchAtomQuant 0 p = [])
    (hesc : findAll matchEscD 0 p = []) :
    (∀ (out : Str) (err : Option Str) (g' : Rand),
      RegexifyWithErr s g = .ok ((out, err), g') →
        err = none ∧ Regexify s g = .ok (out, g')) ∧
    RegexifyWithErr p g = .ok ((p, none), g) := by
  refine ⟨?_, ?_⟩
  · intro out err g' h
    simp only [RegexifyWithErr] at h
    obtain ⟨r, g1, hr, h⟩ := andThen_eq_ok _ _ _ _ h
    simp only [Except.ok.injEq, Prod.mk.injEq] at h
    obtain ⟨⟨e1, e2⟩, e3⟩ := h
    subst e1; subst e2; subst e3
    exact ⟨rfl, hr⟩
  · exact RegexifyWithErr_ok _ _ _ _ (Regexify_inert p g hlead.1 hlead.2 htrail.1 htrail.2
      hchars.1 hchars.2.1 hchars.2.2 hquant.1 hquant.2 hesc)

/-- Witness of C12 (as amended) at the pattern `A{a,b}`. -/
theorem Regexify_error_nil_witness :
    (∀ (out : Str) (err : Option Str) (g' : Rand),
      RegexifyWithErr ['A', '{', '1', ',', '2', '}'] (fun _ => 0) = .ok ((out, err), g') →
        err = none ∧ Regexify ['A', '{', '1', ',', '2', '}'] (fun _ => 0) = .ok (out, g')) ∧
    RegexifyWithErr ['A', '{', 'a', ',', 'b', '}'] (fun _ => 0)
      = .ok ((['A', '{', 'a', ',', 'b', '}'], none), fun _ => 0) :=
  Regexify_error_nil ['A', '{', '1', ',', '2', '}'] ['A', '{', 'a', ',', 'b', '}'] (fun _ => 0)
    (by decide) (by decide) (by decide) (by decide) (by decide)

/-- C12 (as stated) fails: for the pattern `A{a,b}`, whose bounds are no numerals,
`Regexify` returns a string, the pattern itself, and the error `nil`. -/
theorem Regexify_malformed_quantifier :
    (RegexifyWithErr "A{a,b}".toList (fun _ => 0)).val = .ok ("A{a,b}".toList, none) := by
  decide

/-- C18 (as amended): no letter is ever produced for `\w`. For every text `s`, the
digit-shorthand pass returns a text without any `\d`, on which the final pass, which
matches `\d` again, is the identity; so `Regexify` of every pattern `s` is the text
left by the class pass put through the digit-shorthand pass alone. That pass emits a
`\w` literally: a text `a\wb` becomes `a'\wb'`, with `a'` and `b'` what the pass makes of
`a` and of `b`. The earlier passes treat a `\w` like any other text; a pattern `p` in
which they find nothing to rewrite (no leading `/` or `^`, no trailing `/` or `$`, none
of `?`, `[`, `(`, `\x7b`) and which holds no `\d` is returned as it is, with every `\w`
in it. -/
theorem Regexify_word_shorthand_literal (s a b p : Str) (g : Rand)
    (hlead : p.head? ≠ some '/' ∧ p.head? ≠ some '^')
    (htrail : p.getLast? ≠ some '/' ∧ p.getLast? ≠ some '$')
    (hchars : '?' ∉ p ∧ '[' ∉ p ∧ '(' ∉ p ∧ '{' ∉ p)
    (hesc : findAll matchEscD 0 p = []) :
    (∃ (r : Str) (g' : Rand), replaceEscD aryDigits s g = .ok (r, g') ∧
      findAll matchEscD 0 r = [] ∧ replaceEscD aryLetters r g' = .ok (r, g')) ∧
    (Regexify s g
      = (RegexifyUntilClasses s g).andThen fun res g' => replaceEscD aryDigits res g') ∧
    (∃ (a' b' : Str) (g1 g2 : Rand), replaceEscD aryDigits a g = .ok (a', g1) ∧
      replaceEscD aryDigits b g1 = .ok (b', g2) ∧
      replaceEscD aryDigits (a ++ '\\' :: 'w' :: b) g = .ok (a' ++ '\\' :: 'w' :: b', g2)) ∧
    Regexify p g = .ok (p, g) := by
  refine ⟨?_, Regexify_eq_until_classes s g, ?_, ?_⟩
  · obtain ⟨r, g', hr, hno, _⟩ := replaceEscD_digits_out s.length s g (le_refl _)
    exact ⟨r, g', hr, hno, replaceEscD_of_no_match _ r g' hno⟩
  · obtain ⟨a', g1, ha⟩ := replaceEscD_digits_ok a g
    obtain ⟨b', g2, hb⟩ := replaceEscD_digits_ok b g1
    refine ⟨a', b', g1, g2, ha, hb, ?_⟩
    rw [replaceEscD_word aryDigits b a.length a g (le_refl _), ha]
    simp only [Res.andThen, hb]
  · exact Regexify_inert p g hlead.1 hlead.2 htrail.1 htrail.2 hchars.1 hchars.2.1
      hchars.2.2.1 (findAll_eq_nil matchBraceNum '{' matchBraceNum_none p hchars.2.2.2 0)
      (findAll_matchAtomQuant_nil p hchars.2.2.2) hesc

/-- Witness of C18 (as amended): `Regexify("\w")` returns `\w`. -/
theorem Regexify_word_shorthand_literal_witness :
    (∃ (r : Str) (g' : Rand), replaceEscD aryDigits ['\\', 'd', '\\', 'w'] (fun _ => 0)
        = .ok (r, g') ∧
      findAll matchEscD 0 r = [] ∧ replaceEscD aryLetters r g' = .ok (r, g')) ∧
    (Regexify ['\\', 'd', '\\', 'w'] (fun _ => 0)
      = (RegexifyUntilClasses ['\\', 'd', '\\', 'w'] (fun _ => 0)).andThen
          fun res g' => replaceEscD aryDigits res g') ∧
    (∃ (a' b' : Str) (g1 g2 : Rand), replaceEscD aryDigits ['\\', 'd'] (fun _ => 0)
        = .ok (a', g1) ∧
      replaceEscD aryDigits ['x'] g1 = .ok (b', g2) ∧
      replaceEscD aryDigits (['\\', 'd'] ++ '\\' :: 'w' :: ['x']) (fun _ => 0)
        = .ok (a' ++ '\\' :: 'w' :: b', g2)) ∧
    Regexify ['\\', 'w'] (fun _ => 0) = .ok (['\\', 'w'], fun _ => 0) :=
  Regexify_word_shorthand_literal ['\\', 'd', '\\', 'w'] ['\\', 'd'] ['x'] ['\\', 'w']
    (fun _ => 0) (by decide) (by decide) (by decide) (by decide)

/-- C18 (as stated) fails: a `\w` in the pattern is not always emitted literally. In the
class `[\w]` it is two characters to choose from, and `Regexify` returns `w` (or the
backslash); in front of `?` it can vanish, and `Regexify` returns the empty string. -/
theorem Regexify_word_in_class :
    (Regexify ['[', '\\', 'w', ']'] (fun _ => 1)).val = .ok ['w'] ∧
    (Regexify ['[', '\\', 'w', ']'] (fun _ => 0)).val = .ok ['\\'] ∧
    (Regexify ['\\', 'w', '?'] (fun _ => 0)).val = .ok [] := by
  decide
theorem span_cons_stop (p : Char → Bool) : ∀ (l a b : Str) (x : Char),
    l.span p = (a, x :: b) → p x = false := by
  intro l
  induction l with
  | nil => intro a b x h; simp [List.span_eq_take_drop] at h
  | cons c t ih =>
    intro a b x h
    rw [List.span_eq_take_drop] at h
    simp only [Prod.mk.injEq] at h
    by_cases hc : p c = true
    · simp only [List.takeWhile_cons, hc, if_true, List.dropWhile_cons] at h
      exact ih (t.takeWhile p) b x (by rw [List.span_eq_take_drop, h.2])
    · simp only [List.dropWhile_cons, hc] at h
      simp only [Bool.false_eq_true, if_false, List.cons.injEq] at h
      obtain ⟨_, e, _⟩ := h
      subst e
      simpa using hc

theorem span_append_of_cons (p : Char → Bool) (l a b w : Str) (x : Char)
    (h : l.span p = (a, x :: b)) : (l ++ w).span p = (a, x :: (b ++ w)) := by
  obtain ⟨e, ha⟩ := span_eq_append p l a (x :: b) h
  have hx := span_cons_stop p l a b x h
  subst e
  have := span_append_stop p a x (b ++ w) ha hx
  simpa using this

theorem tokenText_append (seg rest post : Str) :
    tokenText seg rest ++ post = '#' :: '{' :: (seg ++ '.' :: (rest ++ '}' :: post)) := by
  simp [tokenText]

theorem matchRef_tokenText (seg rest post : Str) (hseg : seg ≠ []) (hrest : rest ≠ [])
    (hsa : ∀ c ∈ seg, c.isAlpha = true) (hrb : '}' ∉ rest) :
    matchRef (tokenText seg rest ++ post)
      = some [tokenText seg rest, seg ++ '.' :: rest] := by
  rw [tokenText_append, matchRef_token seg rest post hseg hrest hsa
    (fun c hc e => hrb (e ▸ hc))]
  simp [tokenText]

/-- A match of the reference pattern is a token `#{seg.rest}` at the start of the text,
and its group is the whole text `seg.rest` between the braces. -/
theorem matchRef_some_shape (s : Str) (sm : Submatch) (h : matchRef s = some sm) :
    ∃ seg rest post, s = tokenText seg rest ++ post ∧ seg ≠ [] ∧
      (∀ c ∈ seg, c.isAlpha = true) ∧ rest ≠ [] ∧ '}' ∉ rest ∧
      sm = [tokenText seg rest, seg ++ '.' :: rest] := by
  unfold matchRef at h
  split at h
  · rename_i r
    split at h
    · exact absurd h (by simp)
    · rename_i seg r2 hne1 hspan1
      split at h
      · exact absurd h (by simp)
      · rename_i rest r3 hne2 hspan2
        obtain ⟨e1, hseg⟩ := span_eq_append _ _ _ _ hspan1
        obtain ⟨e2, hrest⟩ := span_eq_append _ _ _ _ hspan2
        refine ⟨seg, rest, r3, ?_, ?_, hseg, ?_, ?_, ?_⟩
        · rw [tokenText_append, e1, e2]
        · exact hne1
        · exact hne2
        · intro hc
          have := hrest _ hc
          simp at this
        · simp only [Option.some.injEq] at h
          rw [← h]
          simp [tokenText]
      · exact absurd h (by simp)
    · exact absurd h (by simp)
  · exact absurd h (by simp)

theorem mem_findAll (m : Str → Option Submatch) (sm : Submatch) : ∀ (s : Str) (k : Nat),
    sm ∈ findAll m k s → ∃ t, m t = some sm := by
  intro s
  induction s with
  | nil => intro k h; cases k <;> simp [findAll] at h
  | cons c t ih =>
    intro k h
    cases k with
    | succ k => rw [findAll_skip] at h; exact ih k h
    | zero =>
      cases hm : m (c :: t) with
      | none => rw [findAll_cons_none _ _ _ hm] at h; exact ih 0 h
      | some sm' =>
        rw [findAll_cons_some _ _ _ _ hm] at h
        rcases List.mem_cons.mp h with e | h'
        · exact ⟨c :: t, by rw [hm, e]⟩
        · exact ih _ h'

theorem findAll_tokenText (seg rest post : Str) (hseg : seg ≠ []) (hrest : rest ≠ [])
    (hsa : ∀ c ∈ seg, c.isAlpha = true) (hrb : '}' ∉ rest) :
    findAll matchRef 0 (tokenText seg rest ++ post)
      = [tokenText seg rest, seg ++ '.' :: rest] :: findAll matchRef 0 post := by
  have hm := matchRef_tokenText seg rest post hseg hrest hsa hrb
  have e : tokenText seg rest ++ post
      = '#' :: (('{' :: (seg ++ '.' :: (rest ++ ['}']))) ++ post) := by
    simp [tokenText]
  rw [e] at hm ⊢
  rw [findAll_cons_some _ _ _ _ hm]
  have hl : (Submatch.group [tokenText seg rest, seg ++ '.' :: rest] 0).length - 1
      = ('{' :: (seg ++ '.' :: (rest ++ ['}']))).length := by
    simp [Submatch.group, tokenText]
  rw [hl, findAll_skip_append]

theorem findAll_of_noMatchStarts : ∀ (pre cont : Str), noMatchStarts pre cont = true →
    findAll matchRef 0 (pre ++ cont) = findAll matchRef 0 cont := by
  intro pre
  induction pre with
  | nil => intro cont _; rfl
  | cons c t ih =>
    intro cont h
    simp only [noMatchStarts, Bool.and_eq_true, Option.isNone_iff_eq_none] at h
    have h1 : matchRef (c :: (t ++ cont)) = none := h.1
    rw [List.cons_append, findAll_cons_none _ _ _ h1, ih cont h.2]

theorem isPrefixOf_tokenText (seg rest s : Str)
    (h : (tokenText seg rest).isPrefixOf s = true) : ∃ w, s = tokenText seg rest ++ w := by
  rw [List.isPrefixOf_iff_prefix] at h
  obtain ⟨w, hw⟩ := h
  exact ⟨w, hw.symm⟩

theorem replaceFirst_cons_of_not_prefix (old new : Str) (c : Char) (t : Str)
    (h : old.isPrefixOf (c :: t) = false) :
    replaceFirst old new (c :: t) = c :: replaceFirst old new t := by
  simp [replaceFirst, h]

theorem replaceFirst_prefix (old new rest : Str) :
    replaceFirst old new (old ++ rest) = new ++ rest := by
  cases h : old ++ rest with
  | nil =>
    have h1 : old = [] := (List.append_eq_nil.mp h).1
    have h2 : rest = [] := (List.append_eq_nil.mp h).2
    subst h1; subst h2
    simp [replaceFirst]
  | cons c t =>
    have hp : old.isPrefixOf (c :: t) = true := by
      rw [List.isPrefixOf_iff_prefix, ← h]; exact List.prefix_append _ _
    have hd : (c :: t).drop old.length = rest := by rw [← h]; simp
    simp only [replaceFirst, hp, if_true, hd]

/-- The replacement of a token by text lands on the leftmost match of the pattern. -/
theorem replaceFirst_of_noMatchStarts (seg rest r post : Str) (hseg : seg ≠ [])
    (hrest : rest ≠ []) (hsa : ∀ c ∈ seg, c.isAlpha = true) (hrb : '}' ∉ rest) :
    ∀ pre : Str, noMatchStarts pre (tokenText seg rest ++ post) = true →
      replaceFirst (tokenText seg rest) r (pre ++ (tokenText seg rest ++ post))
        = pre ++ (r ++ post) := by
  intro pre
  induction pre with
  | nil => intro _; exact replaceFirst_prefix _ _ _
  | cons c t ih =>
    intro h
    simp only [noMatchStarts, Bool.and_eq_true, Option.isNone_iff_eq_none] at h
    have hnp : (tokenText seg rest).isPrefixOf (c :: t ++ (tokenText seg rest ++ post)) = false := by
      cases hp : (tokenText seg rest).isPrefixOf (c :: t ++ (tokenText seg rest ++ post)) with
      | false => rfl
      | true =>
        obtain ⟨w, hw⟩ := isPrefixOf_tokenText _ _ _ hp
        have := matchRef_tokenText seg rest w hseg hrest hsa hrb
        rw [← hw, h.1] at this
        exact absurd this (by simp)
    have hnp' : (tokenText seg rest).isPrefixOf (c :: (t ++ (tokenText seg rest ++ post)))
        = false := hnp
    rw [List.cons_append, replaceFirst_cons_of_not_prefix _ _ _ _ hnp', ih h.2]
    rfl

/-- The leftmost match of the reference pattern in a text that has one. -/
theorem findAll_matchRef_first : ∀ v : Str, findAll matchRef 0 v ≠ [] →
    ∃ pre seg rest post, v = pre ++ (tokenText seg rest ++ post) ∧
      noMatchStarts pre (tokenText seg rest ++ post) = true ∧
      (seg ≠ [] ∧ (∀ c ∈ seg, c.isAlpha = true) ∧ rest ≠ [] ∧ '}' ∉ rest) ∧
      findAll matchRef 0 v
        = [tokenText seg rest, seg ++ '.' :: rest] :: findAll matchRef 0 post := by
  intro v
  induction v with
  | nil => intro h; exact absurd rfl h
  | cons c t ih =>
    intro h
    cases hm : matchRef (c :: t) with
    | some sm =>
      obtain ⟨seg, rest, post, e, h1, h2, h3, h4, _⟩ := matchRef_some_shape _ _ hm
      refine ⟨[], seg, rest, post, by rw [e]; rfl, rfl, ⟨h1, h2, h3, h4⟩, ?_⟩
      rw [e]
      exact findAll_tokenText seg rest post h1 h3 h2 h4
    | none =>
      rw [findAll_cons_none _ _ _ hm] at h
      obtain ⟨pre, seg, rest, post, e, hn, hwf, hf⟩ := ih h
      refine ⟨c :: pre, seg, rest, post, by rw [e]; rfl, ?_, hwf, ?_⟩
      · simp only [noMatchStarts, Bool.and_eq_true, Option.isNone_iff_eq_none]
        refine ⟨?_, hn⟩
        rw [List.cons_append, ← e]; exact hm
      · rw [findAll_cons_none _ _ _ hm, hf]

theorem Fetch_str_unfold (active fallback : Locale) (fuel : Nat) (path v : Str) (g : Rand)
    (hval : valueAt active fallback path = .ok (.str v)) :
    Fetch active fallback (fuel + 1) path g
      = (refLoop (fun p g' => Fetch active fallback fuel p g') (findAll matchRef 0 v) v g).andThen
          fun res g' => regexifyIfDelimited res g' := by
  simp only [Fetch, hval, typeSwitch, Res.andThen]

theorem refLoop_cons (fetch : Str → Rand → Res Str) (sm : Submatch) (more : List Submatch)
    (res : Str) (g : Rand) :
    refLoop fetch (sm :: more) res g
      = (fetch (sm.group 1) g).andThen
          fun r g' => refLoop fetch more (replaceFirst (sm.group 0) r res) g' := rfl

/-- C17 (as amended): for every string leaf `pre #{seg.rest} post` whose leftmost
reference token is `#{seg.rest}` (`seg` letters, `rest` without `}`, no match of the
reference pattern starting in `pre`), `Fetch` recursively fetches the whole path
`seg.rest`, the text between the braces with `seg` as its first key, in the same stores
and puts the result `r` in the place of the token; the loop then goes on with the tokens
found in `post`, on the text `pre r post`, and the text it leaves goes through the last
step of `Fetch`, which calls `Regexify` on a text between two `/`. Every token found in
the leaf has the whole text between its braces as the path that is fetched, and every
text in which a token is found can be written in this way. -/
theorem Fetch_token_whole_path (active fallback : Locale) (fuel : Nat)
    (path pre seg rest post : Str) (g : Rand)
    (hval : valueAt active fallback path = .ok (.str (pre ++ (tokenText seg rest ++ post))))
    (hseg : seg ≠ [] ∧ ∀ c ∈ seg, c.isAlpha = true) (hrest : rest ≠ [] ∧ '}' ∉ rest)
    (hfirst : noMatchStarts pre (tokenText seg rest ++ post) = true) :
    Fetch active fallback (fuel + 1) path g =
      ((Fetch active fallback fuel (seg ++ '.' :: rest) g).andThen fun r g' =>
        (refLoop (fun p g'' => Fetch active fallback fuel p g'') (findAll matchRef 0 post)
          (pre ++ (r ++ post)) g').andThen fun res g'' => regexifyIfDelimited res g'') ∧
    (∀ sm ∈ findAll matchRef 0 (pre ++ (tokenText seg rest ++ post)),
      ∃ seg' rest', sm = [tokenText seg' rest', seg' ++ '.' :: rest']) ∧
    (∀ v : Str, findAll matchRef 0 v ≠ [] →
      ∃ pre' seg' rest' post', v = pre' ++ (tokenText seg' rest' ++ post') ∧
        (seg' ≠ [] ∧ ∀ c ∈ seg', c.isAlpha = true) ∧ (rest' ≠ [] ∧ '}' ∉ rest') ∧
        noMatchStarts pre' (tokenText seg' rest' ++ post') = true) := by
  refine ⟨?_, ?_, ?_⟩
  · rw [Fetch_str_unfold active fallback fuel path _ g hval,
      findAll_of_noMatchStarts pre _ hfirst,
      findAll_tokenText seg rest post hseg.1 hrest.1 hseg.2 hrest.2, refLoop_cons,
      andThen_assoc]
    refine andThen_congr _ _ _ fun r g' => ?_
    have hrep := replaceFirst_of_noMatchStarts seg rest r post hseg.1 hrest.1 hseg.2
      hrest.2 pre hfirst
    simp only [Submatch.group, List.getD_cons_zero, hrep]
  · intro sm hsm
    obtain ⟨t, ht⟩ := mem_findAll matchRef sm _ 0 hsm
    obtain ⟨seg', rest', _, _, _, _, _, _, e⟩ := matchRef_some_shape t sm ht
    exact ⟨seg', rest', e⟩
  · intro v hv
    obtain ⟨pre', seg', rest', post', e, hn, hwf, _⟩ := findAll_matchRef_first v hv
    exact ⟨pre', seg', rest', post', e, ⟨hwf.1, hwf.2.1⟩, ⟨hwf.2.2.1, hwf.2.2.2⟩, hn⟩

/-- Witness of C17 (as amended): `Hi #{Name.first}!` with `Name.first = "Ann"`. -/
theorem Fetch_token_whole_path_witness :
    Fetch [("greeting".toList, .str ("Hi ".toList ++
          (tokenText "Name".toList "first".toList ++ "!".toList))),
        ("Name".toList, .node [("first".toList, .str "Ann".toList)])] [] 2
      "greeting".toList (fun _ => 0) =
      ((Fetch [("greeting".toList, .str ("Hi ".toList ++
          (tokenText "Name".toList "first".toList ++ "!".toList))),
        ("Name".toList, .node [("first".toList, .str "Ann".toList)])] [] 1
        ("Name".toList ++ '.' :: "first".toList) (fun _ => 0)).andThen fun r g' =>
        (refLoop (fun p g'' => Fetch [("greeting".toList, .str ("Hi ".toList ++
              (tokenText "Name".toList "first".toList ++ "!".toList))),
            ("Name".toList, .node [("first".toList, .str "Ann".toList)])] [] 1 p g'')
          (findAll matchRef 0 "!".toList)
          ("Hi ".toList ++ (r ++ "!".toList)) g').andThen
            fun res g'' => regexifyIfDelimited res g'') ∧
    (∀ sm ∈ findAll matchRef 0 ("Hi ".toList ++
        (tokenText "Name".toList "first".toList ++ "!".toList)),
      ∃ seg' rest', sm = [tokenText seg' rest', seg' ++ '.' :: rest']) ∧
    (∀ v : Str, findAll matchRef 0 v ≠ [] →
      ∃ pre' seg' rest' post', v = pre' ++ (tokenText seg' rest' ++ post') ∧
        (seg' ≠ [] ∧ ∀ c ∈ seg', c.isAlpha = true) ∧ (rest' ≠ [] ∧ '}' ∉ rest') ∧
        noMatchStarts pre' (tokenText seg' rest' ++ post') = true) :=
  Fetch_token_whole_path _ [] 1 "greeting".toList "Hi ".toList "Name".toList "first".toList
    "!".toList (fun _ => 0) (by rfl) (by decide) (by decide) (by decide)

/-- At the head of a text that opens no token no match of the reference pattern starts,
whatever follows the text. -/
theorem matchRef_of_not_opensToken (t w : Str) (ht : t ≠ []) (h : opensToken t = false) :
    matchRef (t ++ w) = none := by
  match t, ht, h with
  | [], ht, _ => exact absurd rfl ht
  | c :: t', _, h =>
    by_cases hc : c = '#'
    · subst hc
      cases t' with
      | nil => simp [opensToken] at h
      | cons d r =>
        by_cases hd : d = '{'
        · subst hd
          simp only [opensToken] at h
          simp only [List.cons_append, matchRef]
          cases hsp : r.span Char.isAlpha with
          | mk seg r2 =>
            rw [hsp] at h
            cases r2 with
            | nil => simp at h
            | cons x r2' =>
              rw [span_append_of_cons _ r seg r2' w x hsp]
              cases seg with
              | nil => split <;> simp_all
              | cons s0 seg' =>
                by_cases hx : x = '.'
                · subst hx
                  simp only at h ⊢
                  cases hsp2 : r2'.span (fun x => x != '}') with
                  | mk rest r3 =>
                    rw [hsp2] at h
                    cases r3 with
                    | nil => split at h <;> simp_all
                    | cons y r3' =>
                      have hs := span_append_of_cons _ r2' rest r3' w y hsp2
                      simp only [List.cons_append] at hs ⊢
                      rw [hs]
                      cases rest with
                      | nil => split <;> simp_all
                      | cons q rest' => split at h <;> simp_all
                · split
                  · rename_i heq; simp at heq
                  · rename_i heq
                    simp only [Prod.mk.injEq, List.cons.injEq] at heq
                    exact absurd heq.2.1 hx
                  · rfl
        · simp only [List.cons_append]
          unfold matchRef
          split
          · rename_i heq
            simp only [List.cons.injEq] at heq
            exact absurd heq.2.1 hd
          · rfl
    · exact matchRef_none _ (by simp [hc])

theorem noMatchStarts_of_sealed : ∀ (a cont : Str), sealed a = true →
    noMatchStarts a cont = true := by
  intro a
  induction a with
  | nil => intro _ _; rfl
  | cons c t ih =>
    intro cont h
    simp only [sealed, Bool.and_eq_true, Bool.not_eq_true'] at h
    simp only [noMatchStarts, Bool.and_eq_true, Option.isNone_iff_eq_none]
    exact ⟨matchRef_of_not_opensToken (c :: t) cont (by simp) h.1, ih cont h.2⟩

theorem noMatchStarts_append : ∀ (a b cont : Str), noMatchStarts a (b ++ cont) = true →
    noMatchStarts b cont = true → noMatchStarts (a ++ b) cont = true := by
  intro a
  induction a with
  | nil => intro b cont _ h; exact h
  | cons c t ih =>
    intro b cont h1 h2
    simp only [noMatchStarts, Bool.and_eq_true, Option.isNone_iff_eq_none] at h1
    simp only [List.cons_append, noMatchStarts, Bool.and_eq_true, Option.isNone_iff_eq_none]
    refine ⟨?_, ih b cont h1.2 h2⟩
    have := h1.1
    simpa using this

theorem sealed_of_not_mem : ∀ a : Str, '#' ∉ a → sealed a = true := by
  intro a
  induction a with
  | nil => intro _; rfl
  | cons c t ih =>
    intro h
    have hc : c ≠ '#' := fun e => h (by simp [e])
    have ht : '#' ∉ t := fun e => h (List.mem_cons_of_mem _ e)
    have ho : opensToken (c :: t) = false := by
      unfold opensToken
      split
      · rename_i heq; simp only [List.cons.injEq] at heq; exact absurd heq.1 hc
      · rename_i heq; simp only [List.cons.injEq] at heq; exact absurd heq.1 hc
      · rfl
    simp [sealed, ho, ih ht]

theorem fetchEach_cons_ok (fetch : Str → Rand → Res Str) (p : Str) (ps : List Str)
    (rs : List Str) (g g' : Rand) (h : fetchEach fetch (p :: ps) g = .ok (rs, g')) :
    ∃ r rs' g1, fetch p g = .ok (r, g1) ∧ fetchEach fetch ps g1 = .ok (rs', g') ∧
      rs = r :: rs' := by
  simp only [fetchEach] at h
  obtain ⟨r, g1, h1, h⟩ := andThen_eq_ok _ _ _ _ h
  obtain ⟨rs', g2, h2, h⟩ := andThen_eq_ok _ _ _ _ h
  simp only [Except.ok.injEq, Prod.mk.injEq] at h
  obtain ⟨e1, e2⟩ := h
  subst e2
  exact ⟨r, rs', g1, h1, h2, e1.symm⟩

/-- The loop of `Fetch` on a text of tokens between sealed pieces, behind a part `acc`
in which no match can start: every token is replaced, at its own place, by the value
fetched for its path. -/
theorem refLoop_template (fetch : Str → Rand → Res Str) (last : Str) :
    ∀ (toks : List (Str × Str × Str)) (rs : List Str) (acc : Str) (g g' : Rand),
      (∀ cont, noMatchStarts acc cont = true) →
      (∀ t ∈ toks, sealed t.1 = true ∧ t.2.1 ≠ [] ∧ (∀ c ∈ t.2.1, c.isAlpha = true) ∧
        t.2.2 ≠ [] ∧ '}' ∉ t.2.2) →
      (∀ r ∈ rs, sealed r = true) →
      fetchEach fetch (toks.map fun t => t.2.1 ++ '.' :: t.2.2) g = .ok (rs, g') →
      refLoop fetch (toks.map fun t => [tokenText t.2.1 t.2.2, t.2.1 ++ '.' :: t.2.2])
        (acc ++ template toks last) g = .ok (acc ++ expanded toks rs last, g') := by
  intro toks
  induction toks with
  | nil =>
    intro rs acc g g' _ _ _ hf
    simp only [List.map_nil, fetchEach, Except.ok.injEq, Prod.mk.injEq] at hf
    obtain ⟨e1, e2⟩ := hf
    subst e1; subst e2
    rfl
  | cons tok more ih =>
    intro rs acc g g' hacc hwf hrs hf
    obtain ⟨gap, seg, rest⟩ := tok
    obtain ⟨hgap, hseg, hsa, hrest, hrb⟩ := hwf (gap, seg, rest) (by simp)
    simp only [List.map_cons] at hf ⊢
    obtain ⟨r, rs', g1, h1, h2, e⟩ := fetchEach_cons_ok fetch _ _ rs g g' hf
    subst e
    have hr : sealed r = true := hrs r (by simp)
    have hag : ∀ cont, noMatchStarts (acc ++ gap) cont = true := fun cont =>
      noMatchStarts_append acc gap cont (hacc _) (noMatchStarts_of_sealed gap cont hgap)
    have hrep := replaceFirst_of_noMatchStarts seg rest r (template more last) hseg hrest hsa
      hrb (acc ++ gap) (hag _)
    have hacc' : ∀ cont, noMatchStarts (acc ++ gap ++ r) cont = true := fun cont =>
      noMatchStarts_append (acc ++ gap) r cont (hag _) (noMatchStarts_of_sealed r cont hr)
    have hih := ih rs' (acc ++ gap ++ r) g1 g' hacc'
      (fun t ht => hwf t (List.mem_cons_of_mem _ ht))
      (fun x hx => hrs x (List.mem_cons_of_mem _ hx)) h2
    rw [refLoop_cons]
    simp only [Submatch.group, List.getD_cons_zero, List.getD_cons_succ, h1, Res.andThen,
      template, expanded]
    have e1 : acc ++ (gap ++ (tokenText seg rest ++ template more last))
        = acc ++ gap ++ (tokenText seg rest ++ template more last) := by simp
    have e2 : acc ++ gap ++ (r ++ template more last)
        = acc ++ gap ++ r ++ template more last := by simp
    have e3 : acc ++ (gap ++ (r ++ expanded more rs' last))
        = acc ++ gap ++ r ++ expanded more rs' last := by simp
    rw [e1, hrep, e2, e3]
    exact hih

theorem findAll_template (last : Str) (hlast : findAll matchRef 0 last = []) :
    ∀ (toks : List (Str × Str × Str)),
      (∀ t ∈ toks, sealed t.1 = true ∧ t.2.1 ≠ [] ∧ (∀ c ∈ t.2.1, c.isAlpha = true) ∧
        t.2.2 ≠ [] ∧ '}' ∉ t.2.2) →
      findAll matchRef 0 (template toks last)
        = toks.map fun t => [tokenText t.2.1 t.2.2, t.2.1 ++ '.' :: t.2.2] := by
  intro toks
  induction toks with
  | nil => intro _; exact hlast
  | cons tok more ih =>
    intro hwf
    obtain ⟨gap, seg, rest⟩ := tok
    obtain ⟨hgap, hseg, hsa, hrest, hrb⟩ := hwf (gap, seg, rest) (by simp)
    simp only [template, List.map_cons]
    rw [findAll_of_noMatchStarts gap _ (noMatchStarts_of_sealed gap _ hgap),
      findAll_tokenText seg rest _ hseg hrest hsa hrb,
      ih (fun t ht => hwf t (List.mem_cons_of_mem _ ht))]

theorem findAll_expanded (last : Str) (hlast : findAll matchRef 0 last = []) :
    ∀ (toks : List (Str × Str × Str)) (rs : List Str),
      (∀ t ∈ toks, sealed t.1 = true) → (∀ r ∈ rs, sealed r = true) →
      findAll matchRef 0 (expanded toks rs last) = [] := by
  intro toks
  induction toks with
  | nil => intro rs _ _; simpa [expanded] using hlast
  | cons tok more ih =>
    intro rs hg hrs
    obtain ⟨gap, seg, rest⟩ := tok
    cases rs with
    | nil => simpa [expanded] using hlast
    | cons r rs' =>
      simp only [expanded]
      rw [findAll_of_noMatchStarts gap _ (noMatchStarts_of_sealed gap _ (hg (gap, seg, rest) (by simp))),
        findAll_of_noMatchStarts r _ (noMatchStarts_of_sealed r _ (hrs r (by simp)))]
      exact ih rs' (fun t ht => hg t (List.mem_cons_of_mem _ ht))
        (fun x hx => hrs x (List.mem_cons_of_mem _ hx))

/-- C16 (as amended): take any store and path whose text before the substitutions, the
string leaf or the text chosen from a list leaf, is written as reference tokens, each
behind a piece of text, and a last piece, where the pieces in front of the tokens and
the values fetched for the tokens are sealed (no position of them starts a token or an
unfinished beginning of one) and no token is found in the last piece. When the expanded
text is not passed to `Regexify`, `Fetch` returns the text with every token replaced by
the value fetched for its whole path, and no reference token remains in it. Every text
without `#` is sealed. -/
theorem Fetch_tokens_expanded (active fallback : Locale) (fuel : Nat) (path : Str)
    (val : Value) (toks : List (Str × Str × Str)) (last : Str) (rs : List Str)
    (g g0 g1 : Rand)
    (hval : valueAt active fallback path = .ok val)
    (hswitch : typeSwitch path val g = .ok (template toks last, g0))
    (htoks : ∀ t ∈ toks, sealed t.1 = true ∧ t.2.1 ≠ [] ∧ (∀ c ∈ t.2.1, c.isAlpha = true) ∧
      t.2.2 ≠ [] ∧ '}' ∉ t.2.2)
    (hlast : findAll matchRef 0 last = [])
    (hfetch : fetchEach (fun p g' => Fetch active fallback fuel p g')
      (toks.map fun t => t.2.1 ++ '.' :: t.2.2) g0 = .ok (rs, g1))
    (hrs : ∀ r ∈ rs, sealed r = true)
    (hplain : looksLikeRegex (expanded toks rs last) = false) :
    Fetch active fallback (fuel + 1) path g = .ok (expanded toks rs last, g1) ∧
    findAll matchRef 0 (expanded toks rs last) = [] ∧
    (∀ a : Str, '#' ∉ a → sealed a = true) := by
  refine ⟨?_, findAll_expanded last hlast toks rs (fun t ht => (htoks t ht).1) hrs,
    sealed_of_not_mem⟩
  refine Fetch_steps active fallback fuel path val _ _ _ g g0 g1 g1 hval hswitch ?_
    (regexifyIfDelimited_plain _ _ hplain)
  rw [findAll_template last hlast toks htoks]
  have := refLoop_template (fun p g' => Fetch active fallback fuel p g') last toks rs [] g0 g1
    (fun _ => rfl) htoks hrs hfetch
  simpa using this

/-- Witness of C16 (as amended): the leaf `#{A.x} #{s} #{A.y}!` with `A.x = "X"` and
`A.y = "Y"` gives `X #{s} Y!`. -/
theorem Fetch_tokens_expanded_witness :
    Fetch [("t".toList, .str "#{A.x} #{s} #{A.y}!".toList),
        ("A".toList, .node [("x".toList, .str "X".toList), ("y".toList, .str "Y".toList)])]
      [] 2 "t".toList (fun _ => 0)
      = .ok ("X #{s} Y!".toList, fun _ => 0) ∧
    findAll matchRef 0 "X #{s} Y!".toList = [] ∧
    (∀ a : Str, '#' ∉ a → sealed a = true) :=
  Fetch_tokens_expanded _ [] 1 "t".toList (.str "#{A.x} #{s} #{A.y}!".toList)
    [([], "A".toList, "x".toList), (" #{s} ".toList, "A".toList, "y".toList)] "!".toList
    ["X".toList, "Y".toList] (fun _ => 0) (fun _ => 0) (fun _ => 0)
    (by rfl) (by rfl) (by decide) (by decide) (by rfl) (by decide) (by decide)

end Faker
